import Mathlib

/-!
A model of `main.c`, the multithreaded BMP reader.

The program reads a 24-bit BMP file, and writes four derived images: the
inverted image and the three single-channel grayscale images.

Conventions of the embedding:

* a byte is a `Nat` below 256; a stream is a `List Nat`;
* `uint16_t` and `uint32_t` values are `Nat`, `int32_t` and `int` values are `Int`;
  the one `int` product that can leave the 32-bit range is reduced by `wrap32`;
* `theImageData[x][y]` is a list of columns, each column a list of pixels;
* the contents of an uninitialised local or of a fresh `malloc` block are a
  parameter of the function that declares it;
* `pthread_create` may fail, and its return value is not looked at: whether the
  thread of a column is created is a parameter of the transform; the threads that
  are created are run to completion in creation order, and the `pthread_join` of
  a thread that was not created does nothing; the interleavings of the assignments
  of the created threads on the shared grid are the lists of `IsInterleaving`.
-/

namespace BmpReader

/-! ## Constants and records -/

def BITMAPCOREHEADER_IMAGE_OFFSET : Nat := 26
def BITMAPINFOHEADER_IMAGE_OFFSET : Nat := 54
def BITMAPV4HEADER_IMAGE_OFFSET : Nat := 122
def BITMAPV5HEADER_IMAGE_OFFSET : Nat := 138

def MAXPADDINGSIZE : Nat := 3

def UINT8_MAX : Int := 255

inductive IMAGE_PROCESSING_TYPE where
  | invert
  | grayscaleBlue
  | grayscaleRed
  | grayscaleGreen
  deriving DecidableEq, Repr

/-- The three bytes of a pixel, in file order. -/
structure BitmapColor where
  blue : Nat
  green : Nat
  red : Nat
  deriving DecidableEq, Repr

instance : Inhabited BitmapColor := ⟨⟨0, 0, 0⟩⟩

/-- A pixel grid `theImageData[x][y]`: a list of columns. -/
abbrev Image := List (List BitmapColor)

/-- Every channel of the pixel is a byte. -/
def BitmapColor.valid (p : BitmapColor) : Prop :=
  p.blue < 256 ∧ p.green < 256 ∧ p.red < 256

instance (p : BitmapColor) : Decidable p.valid := by
  unfold BitmapColor.valid; infer_instance

/-- Every channel of every pixel of the grid is a byte. -/
def Image.valid (g : Image) : Prop := ∀ col ∈ g, ∀ p ∈ col, BitmapColor.valid p

instance (g : Image) : Decidable (Image.valid g) := by
  unfold Image.valid; infer_instance

/-- The grid has `w` columns of `h` pixels each. -/
def Image.hasDims (g : Image) (w h : Nat) : Prop :=
  g.length = w ∧ ∀ col ∈ g, col.length = h

instance (g : Image) (w h : Nat) : Decidable (Image.hasDims g w h) := by
  unfold Image.hasDims; infer_instance

/-- The pixel `aImageData[x][y]`. -/
def Image.cell (g : Image) (x y : Nat) : BitmapColor := (g.getD x []).getD y default

/-- The grid after the assignment `aImageData[x][y] = c`. -/
def Image.setCell (g : Image) (x y : Nat) (c : BitmapColor) : Image :=
  g.set x ((g.getD x []).set y c)

/-! ## Machine arithmetic -/

/-- Reduction of an `int` result to 32-bit two's complement. -/
def wrap32 (n : Int) : Int := (n + 2147483648) % 4294967296 - 2147483648

/-- Conversion of an `int` value to `uint8_t`. -/
def toUInt8 (n : Int) : Nat := (n % 256).toNat

/-- Conversion of an `int32_t` value to `uint32_t`. -/
def toUInt32 (n : Int) : Nat := (n % 4294967296).toNat

/-- The `int` value of a 32-bit pattern (two's complement). -/
def toInt32 (n : Nat) : Int := if n < 2147483648 then (n : Int) else (n : Int) - 4294967296

/-- Conversion of a `uint32_t` value to `uint16_t`. -/
def toUInt16 (n : Nat) : Nat := n % 65536

/-! ## Row padding -/

/-- The expression `( aNum + 3 ) & ~0x03`: the bitwise and of the two 32-bit
patterns, read back as an `int`. -/
def findNextMultipleOf4 (aNum : Int) : Int :=
  toInt32 (Nat.land (toUInt32 (aNum + 3)) (toUInt32 (~~~ (3 : Int))))

/-- The product `aBitsPerPixel * aImageWidth` is an `int` product; the division
by 8 is C division, which truncates toward zero. -/
def calculatePaddingSize (aImageWidth : Int) (aBitsPerPixel : Nat) : Int :=
  let thePixelDataPerRow := Int.tdiv (wrap32 ((aBitsPerPixel : Int) * aImageWidth)) 8
  findNextMultipleOf4 thePixelDataPerRow - thePixelDataPerRow

/-! ## Pixel transforms -/

structure threadArgs where
  processingType : IMAGE_PROCESSING_TYPE
  imageHeight : Nat
  row : List BitmapColor

/-- The three assignments of one loop iteration of `imageProcessingThread`, in
source order, each as a function of the pixel `row[ y ]` it reads and writes. -/
def pixelStatements : IMAGE_PROCESSING_TYPE → List (BitmapColor → BitmapColor)
  | .invert =>
    [ fun p => { p with blue := toUInt8 (UINT8_MAX - p.blue) },
      fun p => { p with red := toUInt8 (UINT8_MAX - p.red) },
      fun p => { p with green := toUInt8 (UINT8_MAX - p.green) } ]
  | .grayscaleBlue =>
    [ fun p => { p with blue := p.blue },
      fun p => { p with red := p.blue },
      fun p => { p with green := p.blue } ]
  | .grayscaleGreen =>
    [ fun p => { p with blue := p.green },
      fun p => { p with red := p.green },
      fun p => { p with green := p.green } ]
  | .grayscaleRed =>
    [ fun p => { p with blue := p.red },
      fun p => { p with red := p.red },
      fun p => { p with green := p.red } ]

/-- Sequential execution of a list of assignments on one pixel. -/
def runStatements (ss : List (BitmapColor → BitmapColor)) (p : BitmapColor) : BitmapColor :=
  ss.foldl (fun q s => s q) p

/-- One loop iteration of `imageProcessingThread`. -/
def processPixel (t : IMAGE_PROCESSING_TYPE) (p : BitmapColor) : BitmapColor :=
  runStatements (pixelStatements t) p

/-- The body of one column thread: `for( y = 0; y < imageHeight; y++ )` over
`row[ y ]`. The result is the column after the thread has finished. -/
def imageProcessingThread (args : threadArgs) : List BitmapColor :=
  (List.range args.imageHeight).foldl
    (fun row y => row.set y (processPixel args.processingType (row.getD y default)))
    args.row

/-- The common body of `invertImage` and `grayscaleImage*`: one `pthread_create`
per column `x`, for a thread that works on `aImage[ x ]`, then a join of all of
them. The return value of `pthread_create` is not looked at: `created x` tells
whether the call for column `x` succeeds, and the column of a thread that was not
created stays as it is; the `pthread_join` on the identifier of such a thread,
which was never set, is taken to return an error and to do nothing else. -/
def runColumnThreads (created : Nat → Bool) (t : IMAGE_PROCESSING_TYPE)
    (aImageWidth aImageHeight : Nat) (aImage : Image) : Image :=
  (List.range aImageWidth).foldl
    (fun img x =>
      if created x then img.set x (imageProcessingThread ⟨t, aImageHeight, img.getD x []⟩)
      else img)
    aImage

def invertImage (created : Nat → Bool) (aImageWidth aImageHeight : Nat) (aImage : Image) :
    Image :=
  runColumnThreads created .invert aImageWidth aImageHeight aImage

def grayscaleImageBlue (created : Nat → Bool) (aImageWidth aImageHeight : Nat)
    (aImage : Image) : Image :=
  runColumnThreads created .grayscaleBlue aImageWidth aImageHeight aImage

def grayscaleImageGreen (created : Nat → Bool) (aImageWidth aImageHeight : Nat)
    (aImage : Image) : Image :=
  runColumnThreads created .grayscaleGreen aImageWidth aImageHeight aImage

def grayscaleImageRed (created : Nat → Bool) (aImageWidth aImageHeight : Nat)
    (aImage : Image) : Image :=
  runColumnThreads created .grayscaleRed aImageWidth aImageHeight aImage

/-! ## Little-endian fields of a packed record -/

/-- The byte at offset `off`. -/
def getU8 (bs : List Nat) (off : Nat) : Nat := bs.getD off 0

/-- The `uint16_t` stored at offset `off`. -/
def getU16 (bs : List Nat) (off : Nat) : Nat :=
  getU8 bs off + 256 * getU8 bs (off + 1)

/-- The `uint32_t` stored at offset `off`. -/
def getU32 (bs : List Nat) (off : Nat) : Nat :=
  getU8 bs off + 256 * getU8 bs (off + 1) + 65536 * getU8 bs (off + 2)
    + 16777216 * getU8 bs (off + 3)

/-- The `int32_t` stored at offset `off` (two's complement). -/
def getI32 (bs : List Nat) (off : Nat) : Int :=
  if getU32 bs off < 2147483648 then (getU32 bs off : Int)
  else (getU32 bs off : Int) - 4294967296

/-- The two bytes of a `uint16_t`. -/
def putU16 (v : Nat) : List Nat := [v % 256, v / 256 % 256]

/-- The four bytes of a `uint32_t`. -/
def putU32 (v : Nat) : List Nat :=
  [v % 256, v / 256 % 256, v / 65536 % 256, v / 16777216 % 256]

/-- The four bytes of an `int32_t`. -/
def putI32 (v : Int) : List Nat := putU32 (toUInt32 v)

/-! ## Header records (`#pragma pack(1)`: the fields follow each other) -/

structure BITMAPFILEHEADER where
  type : Nat
  size : Nat
  reserved1 : Nat
  reserved2 : Nat
  image_offset : Nat
  deriving DecidableEq, Repr

structure BITMAPCOREHEADER where
  header_size : Nat
  width_px : Int
  height_px : Int
  num_planes : Nat
  bits_per_pixel : Nat
  deriving DecidableEq, Repr

structure BITMAPINFOHEADER where
  header_size : Nat
  width_px : Int
  height_px : Int
  num_planes : Nat
  bits_per_pixel : Nat
  compression : Nat
  image_size_bytes : Nat
  x_resolution_ppm : Int
  y_resolution_ppm : Int
  num_colors : Nat
  important_colors : Nat
  deriving DecidableEq, Repr

structure CIEXYZ where
  ciexyzX : Nat
  ciexyzY : Nat
  ciexyzZ : Nat
  deriving DecidableEq, Repr

structure CIEXYZTRIPLE where
  ciexyzRed : CIEXYZ
  ciexyzGreen : CIEXYZ
  ciexyzBlue : CIEXYZ
  deriving DecidableEq, Repr

structure BITMAPV4HEADER where
  bV4Size : Nat
  bV4Width : Int
  bV4Height : Int
  bV4Planes : Nat
  bV4BitCount : Nat
  bV4V4Compression : Nat
  bV4SizeImage : Nat
  bV4XPelsPerMeter : Int
  bV4YPelsPerMeter : Int
  bV4ClrUsed : Nat
  bV4ClrImportant : Nat
  bV4RedMask : Nat
  bV4GreenMask : Nat
  bV4BlueMask : Nat
  bV4AlphaMask : Nat
  bV4CSType : Nat
  bV4Endpoints : CIEXYZTRIPLE
  bV4GammaRed : Nat
  bV4GammaGreen : Nat
  bV4GammaBlue : Nat
  deriving DecidableEq, Repr

structure BITMAPV5HEADER where
  bV5Size : Nat
  bV5Width : Int
  bV5Height : Int
  bV5Planes : Nat
  bV5BitCount : Nat
  bV5Compression : Nat
  bV5SizeImage : Nat
  bV5XPelsPerMeter : Int
  bV5YPelsPerMeter : Int
  bV5ClrUsed : Nat
  bV5ClrImportant : Nat
  bV5RedMask : Nat
  bV5GreenMask : Nat
  bV5BlueMask : Nat
  bV5AlphaMask : Nat
  bV5CSType : Nat
  bV5Endpoints : CIEXYZTRIPLE
  bV5GammaRed : Nat
  bV5GammaGreen : Nat
  bV5GammaBlue : Nat
  bV5Intent : Nat
  bV5ProfileData : Nat
  bV5ProfileSize : Nat
  bV5Reserved : Nat
  deriving DecidableEq, Repr

/-- The record whose memory holds the bytes `bs`. -/
def BITMAPFILEHEADER.ofBytes (bs : List Nat) : BITMAPFILEHEADER :=
  { type := getU16 bs 0, size := getU32 bs 2, reserved1 := getU16 bs 6,
    reserved2 := getU16 bs 8, image_offset := getU32 bs 10 }

/-- The 14 bytes of the record in memory. -/
def BITMAPFILEHEADER.toBytes (h : BITMAPFILEHEADER) : List Nat :=
  putU16 h.type ++ putU32 h.size ++ putU16 h.reserved1 ++ putU16 h.reserved2
    ++ putU32 h.image_offset

/-- The record whose memory holds the bytes `bs`. -/
def BITMAPCOREHEADER.ofBytes (bs : List Nat) : BITMAPCOREHEADER :=
  { header_size := getU32 bs 0, width_px := getI32 bs 4, height_px := getI32 bs 8,
    num_planes := getU16 bs 12, bits_per_pixel := getU16 bs 14 }

/-- The 16 bytes of the record in memory: its width and height are `int32_t`. -/
def BITMAPCOREHEADER.toBytes (h : BITMAPCOREHEADER) : List Nat :=
  putU32 h.header_size ++ putI32 h.width_px ++ putI32 h.height_px ++ putU16 h.num_planes
    ++ putU16 h.bits_per_pixel

/-- The record whose memory holds the bytes `bs`. -/
def BITMAPINFOHEADER.ofBytes (bs : List Nat) : BITMAPINFOHEADER :=
  { header_size := getU32 bs 0, width_px := getI32 bs 4, height_px := getI32 bs 8,
    num_planes := getU16 bs 12, bits_per_pixel := getU16 bs 14,
    compression := getU32 bs 16, image_size_bytes := getU32 bs 20,
    x_resolution_ppm := getI32 bs 24, y_resolution_ppm := getI32 bs 28,
    num_colors := getU32 bs 32, important_colors := getU32 bs 36 }

/-- The 40 bytes of the record in memory. -/
def BITMAPINFOHEADER.toBytes (h : BITMAPINFOHEADER) : List Nat :=
  putU32 h.header_size ++ putI32 h.width_px ++ putI32 h.height_px ++ putU16 h.num_planes
    ++ putU16 h.bits_per_pixel ++ putU32 h.compression ++ putU32 h.image_size_bytes
    ++ putI32 h.x_resolution_ppm ++ putI32 h.y_resolution_ppm ++ putU32 h.num_colors
    ++ putU32 h.important_colors

/-- The record stored at offset `off` of `bs`. -/
def CIEXYZ.ofBytes (bs : List Nat) (off : Nat) : CIEXYZ :=
  { ciexyzX := getU32 bs off, ciexyzY := getU32 bs (off + 4), ciexyzZ := getU32 bs (off + 8) }

/-- The 12 bytes of the record in memory. -/
def CIEXYZ.toBytes (c : CIEXYZ) : List Nat :=
  putU32 c.ciexyzX ++ putU32 c.ciexyzY ++ putU32 c.ciexyzZ

/-- The record stored at offset `off` of `bs`. -/
def CIEXYZTRIPLE.ofBytes (bs : List Nat) (off : Nat) : CIEXYZTRIPLE :=
  { ciexyzRed := CIEXYZ.ofBytes bs off, ciexyzGreen := CIEXYZ.ofBytes bs (off + 12),
    ciexyzBlue := CIEXYZ.ofBytes bs (off + 24) }

/-- The 36 bytes of the record in memory. -/
def CIEXYZTRIPLE.toBytes (t : CIEXYZTRIPLE) : List Nat :=
  t.ciexyzRed.toBytes ++ t.ciexyzGreen.toBytes ++ t.ciexyzBlue.toBytes

/-- The record whose memory holds the bytes `bs`. -/
def BITMAPV4HEADER.ofBytes (bs : List Nat) : BITMAPV4HEADER :=
  { bV4Size := getU32 bs 0, bV4Width := getI32 bs 4, bV4Height := getI32 bs 8,
    bV4Planes := getU16 bs 12, bV4BitCount := getU16 bs 14,
    bV4V4Compression := getU32 bs 16, bV4SizeImage := getU32 bs 20,
    bV4XPelsPerMeter := getI32 bs 24, bV4YPelsPerMeter := getI32 bs 28,
    bV4ClrUsed := getU32 bs 32, bV4ClrImportant := getU32 bs 36,
    bV4RedMask := getU32 bs 40, bV4GreenMask := getU32 bs 44,
    bV4BlueMask := getU32 bs 48, bV4AlphaMask := getU32 bs 52,
    bV4CSType := getU32 bs 56, bV4Endpoints := CIEXYZTRIPLE.ofBytes bs 60,
    bV4GammaRed := getU32 bs 96, bV4GammaGreen := getU32 bs 100,
    bV4GammaBlue := getU32 bs 104 }

/-- The 108 bytes of the record in memory. -/
def BITMAPV4HEADER.toBytes (h : BITMAPV4HEADER) : List Nat :=
  putU32 h.bV4Size ++ putI32 h.bV4Width ++ putI32 h.bV4Height ++ putU16 h.bV4Planes
    ++ putU16 h.bV4BitCount ++ putU32 h.bV4V4Compression ++ putU32 h.bV4SizeImage
    ++ putI32 h.bV4XPelsPerMeter ++ putI32 h.bV4YPelsPerMeter ++ putU32 h.bV4ClrUsed
    ++ putU32 h.bV4ClrImportant ++ putU32 h.bV4RedMask ++ putU32 h.bV4GreenMask
    ++ putU32 h.bV4BlueMask ++ putU32 h.bV4AlphaMask ++ putU32 h.bV4CSType
    ++ h.bV4Endpoints.toBytes ++ putU32 h.bV4GammaRed ++ putU32 h.bV4GammaGreen
    ++ putU32 h.bV4GammaBlue

/-- The record whose memory holds the bytes `bs`. -/
def BITMAPV5HEADER.ofBytes (bs : List Nat) : BITMAPV5HEADER :=
  { bV5Size := getU32 bs 0, bV5Width := getI32 bs 4, bV5Height := getI32 bs 8,
    bV5Planes := getU16 bs 12, bV5BitCount := getU16 bs 14,
    bV5Compression := getU32 bs 16, bV5SizeImage := getU32 bs 20,
    bV5XPelsPerMeter := getI32 bs 24, bV5YPelsPerMeter := getI32 bs 28,
    bV5ClrUsed := getU32 bs 32, bV5ClrImportant := getU32 bs 36,
    bV5RedMask := getU32 bs 40, bV5GreenMask := getU32 bs 44,
    bV5BlueMask := getU32 bs 48, bV5AlphaMask := getU32 bs 52,
    bV5CSType := getU32 bs 56, bV5Endpoints := CIEXYZTRIPLE.ofBytes bs 60,
    bV5GammaRed := getU32 bs 96, bV5GammaGreen := getU32 bs 100,
    bV5GammaBlue := getU32 bs 104, bV5Intent := getU32 bs 108,
    bV5ProfileData := getU32 bs 112, bV5ProfileSize := getU32 bs 116,
    bV5Reserved := getU32 bs 120 }

/-- The 124 bytes of the record in memory. -/
def BITMAPV5HEADER.toBytes (h : BITMAPV5HEADER) : List Nat :=
  putU32 h.bV5Size ++ putI32 h.bV5Width ++ putI32 h.bV5Height ++ putU16 h.bV5Planes
    ++ putU16 h.bV5BitCount ++ putU32 h.bV5Compression ++ putU32 h.bV5SizeImage
    ++ putI32 h.bV5XPelsPerMeter ++ putI32 h.bV5YPelsPerMeter ++ putU32 h.bV5ClrUsed
    ++ putU32 h.bV5ClrImportant ++ putU32 h.bV5RedMask ++ putU32 h.bV5GreenMask
    ++ putU32 h.bV5BlueMask ++ putU32 h.bV5AlphaMask ++ putU32 h.bV5CSType
    ++ h.bV5Endpoints.toBytes ++ putU32 h.bV5GammaRed ++ putU32 h.bV5GammaGreen
    ++ putU32 h.bV5GammaBlue ++ putU32 h.bV5Intent ++ putU32 h.bV5ProfileData
    ++ putU32 h.bV5ProfileSize ++ putU32 h.bV5Reserved

/-- The pixel whose memory holds the bytes `bs`. -/
def BitmapColor.ofBytes (bs : List Nat) : BitmapColor :=
  { blue := getU8 bs 0, green := getU8 bs 1, red := getU8 bs 2 }

/-- The 3 bytes of the pixel in memory. -/
def BitmapColor.toBytes (c : BitmapColor) : List Nat := [c.blue, c.green, c.red]

/-! ## Streams -/

/-- A stream opened for reading: the bytes of the file and the position. -/
structure FILE where
  data : List Nat
  pos : Nat
  deriving DecidableEq, Repr

/-- A stream opened with `"w"`, which is only ever appended to: the bytes written
so far. -/
abbrev OutputFile := List Nat

/-- The call `fread( ptr, size, 1, aFile )` on an object whose `size` bytes are
`obj` before the call. The result is the object after the call and the stream.
The bytes that the file still has, `size` at most, are copied to the front of the
object; the rest of the object keeps what it had. -/
def fread (obj : List Nat) (aFile : FILE) : List Nat × FILE :=
  let got := (aFile.data.drop aFile.pos).take obj.length
  (got ++ obj.drop got.length, { aFile with pos := aFile.pos + got.length })

/-- The call `fseek( aFile, off, SEEK_CUR )`; a seek to before the start fails and
leaves the position. -/
def fseek (aFile : FILE) (off : Int) : FILE :=
  if 0 ≤ (aFile.pos : Int) + off then { aFile with pos := ((aFile.pos : Int) + off).toNat }
  else aFile

/-- The call `fwrite( ptr, ... , aFile )` with the bytes it takes from `ptr`. -/
def fwrite (bytes : List Nat) (aFile : OutputFile) : OutputFile := aFile ++ bytes

/-! ## Header read functions

`theHeader` is the uninitialised local of the function; `none` is a null
`FILE*`. -/

def readBitmapFileHeader (theHeader : BITMAPFILEHEADER) (aFile : Option FILE) :
    BITMAPFILEHEADER × Option FILE :=
  match aFile with
  | some f =>
    let r := fread theHeader.toBytes f
    (BITMAPFILEHEADER.ofBytes r.1, some r.2)
  | none => (theHeader, none)

def readBitmapCoreHeader (theHeader : BITMAPCOREHEADER) (aFile : Option FILE) :
    BITMAPCOREHEADER × Option FILE :=
  match aFile with
  | some f =>
    let r := fread theHeader.toBytes f
    (BITMAPCOREHEADER.ofBytes r.1, some r.2)
  | none => (theHeader, none)

def readBitmapInfoHeader (theHeader : BITMAPINFOHEADER) (aFile : Option FILE) :
    BITMAPINFOHEADER × Option FILE :=
  match aFile with
  | some f =>
    let r := fread theHeader.toBytes f
    (BITMAPINFOHEADER.ofBytes r.1, some r.2)
  | none => (theHeader, none)

def readBitmapV4Header (theHeader : BITMAPV4HEADER) (aFile : Option FILE) :
    BITMAPV4HEADER × Option FILE :=
  match aFile with
  | some f =>
    let r := fread theHeader.toBytes f
    (BITMAPV4HEADER.ofBytes r.1, some r.2)
  | none => (theHeader, none)

def readBitmapV5Header (theHeader : BITMAPV5HEADER) (aFile : Option FILE) :
    BITMAPV5HEADER × Option FILE :=
  match aFile with
  | some f =>
    let r := fread theHeader.toBytes f
    (BITMAPV5HEADER.ofBytes r.1, some r.2)
  | none => (theHeader, none)

/-! ## Header write functions -/

def writeBitmapFileHeader (aHeader : BITMAPFILEHEADER) (aFile : Option OutputFile) :
    Option OutputFile :=
  match aFile with
  | some f => some (fwrite aHeader.toBytes f)
  | none => none

def writeBitmapCoreHeader (aHeader : BITMAPCOREHEADER) (aFile : Option OutputFile) :
    Option OutputFile :=
  match aFile with
  | some f => some (fwrite aHeader.toBytes f)
  | none => none

def writeBitmapInfoHeader (aHeader : BITMAPINFOHEADER) (aFile : Option OutputFile) :
    Option OutputFile :=
  match aFile with
  | some f => some (fwrite aHeader.toBytes f)
  | none => none

def writeBitmapV4Header (aHeader : BITMAPV4HEADER) (aFile : Option OutputFile) :
    Option OutputFile :=
  match aFile with
  | some f => some (fwrite aHeader.toBytes f)
  | none => none

def writeBitmapV5Header (aHeader : BITMAPV5HEADER) (aFile : Option OutputFile) :
    Option OutputFile :=
  match aFile with
  | some f => some (fwrite aHeader.toBytes f)
  | none => none

/-! ## Image data functions -/

/-- The grid of `aImageWidth` columns of `aImageHeight` cells that `malloc` hands
out; `heap x y` is what the fresh cell `[x][y]` happens to hold. A negative size
gives no column, or columns without cells. -/
def allocateImageMemory (aImageWidth aImageHeight : Int)
    (heap : Nat → Nat → BitmapColor) : Image :=
  (List.range aImageWidth.toNat).map fun x =>
    (List.range aImageHeight.toNat).map fun y => heap x y

/-- One pass of the inner loop of `readImageData`, at row `y` and index `x`: a
pixel is read into `theImageData[ x ][ y ]` when `x < aImageWidth`, and the
padding is skipped when `x = aImageWidth`. -/
def readImageStep (aImageWidth thePaddingSize : Int) (y : Nat) (st : Image × FILE)
    (x : Nat) : Image × FILE :=
  if (x : Int) < aImageWidth then
    let r := fread (st.1.cell x y).toBytes st.2
    (st.1.setCell x y (BitmapColor.ofBytes r.1), r.2)
  else
    (st.1, fseek st.2 thePaddingSize)

/-- The inner loop of `readImageData`: `for( x = 0; x <= aImageWidth; x++ )`. -/
def readImageRow (aImageWidth thePaddingSize : Int) (st : Image × FILE) (y : Nat) :
    Image × FILE :=
  (List.range (aImageWidth + 1).toNat).foldl (readImageStep aImageWidth thePaddingSize y) st

/-- The grid read from the stream, and the stream after the call. The return
value of `fread` is not looked at: a cell for which the file has no bytes left
keeps what `malloc` gave it. -/
def readImageData (aImageWidth aImageHeight : Int) (aBitsPerPixel : Nat)
    (heap : Nat → Nat → BitmapColor) (aFile : FILE) : Image × FILE :=
  let theImageData := allocateImageMemory aImageWidth aImageHeight heap
  let thePaddingSize := calculatePaddingSize aImageWidth aBitsPerPixel
  (List.range aImageHeight.toNat).foldl (readImageRow aImageWidth thePaddingSize)
    (theImageData, aFile)

/-- The call `memcpy( dest, src, sizeof( BitmapColor ) * n )` on two columns. -/
def memcpy (dest src : List BitmapColor) (n : Nat) : List BitmapColor :=
  src.take n ++ dest.drop n

/-- The destination grid after the copy. The sizes are not negative when `main`
gets here. -/
def copyImageData (aImageWidth aImageHeight : Int) (aDataDest aDataSrc : Image) : Image :=
  (List.range aImageWidth.toNat).foldl
    (fun dest i => dest.set i (memcpy (dest.getD i []) (aDataSrc.getD i []) aImageHeight.toNat))
    aDataDest

/-- The bytes of one row: the pixels, then the padding taken from the zeroed
array `thePadding`. -/
def writeImageRow (aImageWidth thePaddingSize : Int) (thePadding : List Nat)
    (aImageData : Image) (aFile : OutputFile) (y : Nat) : OutputFile :=
  let f := (List.range aImageWidth.toNat).foldl
    (fun f x => fwrite (aImageData.cell x y).toBytes f) aFile
  fwrite (thePadding.take thePaddingSize.toNat) f

/-- The output stream after the call. `aBitsPerPixel` is a `uint32_t` here and is
converted to the `uint16_t` parameter of `calculatePaddingSize`. -/
def writeImageData (aImageWidth aImageHeight : Int) (aBitsPerPixel : Nat)
    (aImageData : Image) (aFile : OutputFile) : OutputFile :=
  let thePaddingSize := calculatePaddingSize aImageWidth (toUInt16 aBitsPerPixel)
  let thePadding := List.replicate MAXPADDINGSIZE 0
  (List.range aImageHeight.toNat).foldl
    (writeImageRow aImageWidth thePaddingSize thePadding aImageData) aFile

/-! ## The program -/

/-- What the program does not determine: the contents of the uninitialised locals
of `main` and of the two `malloc` grids before they are first written, and which
calls of `pthread_create` succeed. -/
structure Indeterminate where
  theBitmapFileHeader : BITMAPFILEHEADER
  theCoreHeader : BITMAPCOREHEADER
  theInfoHeader : BITMAPINFOHEADER
  theV4Header : BITMAPV4HEADER
  theV5Header : BITMAPV5HEADER
  theImageData : Nat → Nat → BitmapColor
  theNewImageData : Nat → Nat → BitmapColor
  /-- Whether the `pthread_create` for column `x` succeeds, in the call of the
  transform `t`. -/
  threadCreated : IMAGE_PROCESSING_TYPE → Nat → Bool

/-- The variables of `main` after the `switch` on `image_offset`. -/
structure HeaderStage where
  theBitmapFileHeader : BITMAPFILEHEADER
  theFile : Option FILE
  theImageWidth : Int
  theImageHeight : Int
  theImageBitCount : Nat
  theInvertedFile : Option OutputFile
  theRedGrayscaleFile : Option OutputFile
  theGreenGrayscaleFile : Option OutputFile
  theBlueGrayscaleFile : Option OutputFile

/-- The bytes of the four output files when `main` returns. -/
structure Outputs where
  theInvertedFile : OutputFile
  theRedGrayscaleFile : OutputFile
  theGreenGrayscaleFile : OutputFile
  theBlueGrayscaleFile : OutputFile
  deriving DecidableEq, Repr

/-- The first part of `main`, from `readBitmapFileHeader` to the end of the
`switch`. The source file holds `theFileData` and has been opened; the four
output files have been opened and are empty. The `switch` has no `default`. -/
def mainHeaders (u : Indeterminate) (theFileData : List Nat) : HeaderStage :=
  let r := readBitmapFileHeader u.theBitmapFileHeader (some ⟨theFileData, 0⟩)
  let theBitmapFileHeader := r.1
  let theFile := r.2
  let theInvertedFile : Option OutputFile := some []
  let theRedGrayscaleFile : Option OutputFile := some []
  let theGreenGrayscaleFile : Option OutputFile := some []
  let theBlueGrayscaleFile : Option OutputFile := some []
  if theBitmapFileHeader.image_offset = BITMAPCOREHEADER_IMAGE_OFFSET then
    let rh := readBitmapCoreHeader u.theCoreHeader theFile
    let theHeader := rh.1
    { theBitmapFileHeader := theBitmapFileHeader
      theFile := rh.2
      theImageWidth := theHeader.width_px
      theImageHeight := theHeader.height_px
      theImageBitCount := theHeader.bits_per_pixel
      theInvertedFile :=
        writeBitmapCoreHeader theHeader (writeBitmapFileHeader theBitmapFileHeader theInvertedFile)
      theRedGrayscaleFile :=
        writeBitmapCoreHeader theHeader
          (writeBitmapFileHeader theBitmapFileHeader theRedGrayscaleFile)
      theGreenGrayscaleFile :=
        writeBitmapCoreHeader theHeader
          (writeBitmapFileHeader theBitmapFileHeader theGreenGrayscaleFile)
      theBlueGrayscaleFile :=
        writeBitmapCoreHeader theHeader
          (writeBitmapFileHeader theBitmapFileHeader theBlueGrayscaleFile) }
  else if theBitmapFileHeader.image_offset = BITMAPINFOHEADER_IMAGE_OFFSET then
    let rh := readBitmapInfoHeader u.theInfoHeader theFile
    let theHeader := rh.1
    { theBitmapFileHeader := theBitmapFileHeader
      theFile := rh.2
      theImageWidth := theHeader.width_px
      theImageHeight := theHeader.height_px
      theImageBitCount := theHeader.bits_per_pixel
      theInvertedFile :=
        writeBitmapInfoHeader theHeader (writeBitmapFileHeader theBitmapFileHeader theInvertedFile)
      theRedGrayscaleFile :=
        writeBitmapInfoHeader theHeader
          (writeBitmapFileHeader theBitmapFileHeader theRedGrayscaleFile)
      theGreenGrayscaleFile :=
        writeBitmapInfoHeader theHeader
          (writeBitmapFileHeader theBitmapFileHeader theGreenGrayscaleFile)
      theBlueGrayscaleFile :=
        writeBitmapInfoHeader theHeader
          (writeBitmapFileHeader theBitmapFileHeader theBlueGrayscaleFile) }
  else if theBitmapFileHeader.image_offset = BITMAPV4HEADER_IMAGE_OFFSET then
    let rh := readBitmapV4Header u.theV4Header theFile
    let theHeader := rh.1
    { theBitmapFileHeader := theBitmapFileHeader
      theFile := rh.2
      theImageWidth := theHeader.bV4Width
      theImageHeight := theHeader.bV4Height
      theImageBitCount := theHeader.bV4BitCount
      theInvertedFile :=
        writeBitmapV4Header theHeader (writeBitmapFileHeader theBitmapFileHeader theInvertedFile)
      theRedGrayscaleFile :=
        writeBitmapV4Header theHeader
          (writeBitmapFileHeader theBitmapFileHeader theRedGrayscaleFile)
      theGreenGrayscaleFile :=
        writeBitmapV4Header theHeader
          (writeBitmapFileHeader theBitmapFileHeader theGreenGrayscaleFile)
      theBlueGrayscaleFile :=
        writeBitmapV4Header theHeader
          (writeBitmapFileHeader theBitmapFileHeader theBlueGrayscaleFile) }
  else if theBitmapFileHeader.image_offset = BITMAPV5HEADER_IMAGE_OFFSET then
    let rh := readBitmapV5Header u.theV5Header theFile
    let theHeader := rh.1
    { theBitmapFileHeader := theBitmapFileHeader
      theFile := rh.2
      theImageWidth := theHeader.bV5Width
      theImageHeight := theHeader.bV5Height
      theImageBitCount := theHeader.bV5BitCount
      theInvertedFile :=
        writeBitmapV5Header theHeader (writeBitmapFileHeader theBitmapFileHeader theInvertedFile)
      theRedGrayscaleFile :=
        writeBitmapV5Header theHeader
          (writeBitmapFileHeader theBitmapFileHeader theRedGrayscaleFile)
      theGreenGrayscaleFile :=
        writeBitmapV5Header theHeader
          (writeBitmapFileHeader theBitmapFileHeader theGreenGrayscaleFile)
      theBlueGrayscaleFile :=
        writeBitmapV5Header theHeader
          (writeBitmapFileHeader theBitmapFileHeader theBlueGrayscaleFile) }
  else
    { theBitmapFileHeader := theBitmapFileHeader
      theFile := theFile
      theImageWidth := 0
      theImageHeight := 0
      theImageBitCount := 0
      theInvertedFile := theInvertedFile
      theRedGrayscaleFile := theRedGrayscaleFile
      theGreenGrayscaleFile := theGreenGrayscaleFile
      theBlueGrayscaleFile := theBlueGrayscaleFile }

/-- The second part of `main`: the grid is read once, and for each output the
working grid is refilled from it, transformed and written. The result is `none`
where the C program has no defined behaviour: with a negative width or height the
copies and the transforms index outside the allocated blocks, and a null stream
is handed to `fread` or `fwrite`. -/
def mainImages (u : Indeterminate) (s : HeaderStage) : Option Outputs :=
  if s.theImageWidth < 0 ∨ s.theImageHeight < 0 then none
  else
    match s.theFile, s.theInvertedFile, s.theRedGrayscaleFile, s.theGreenGrayscaleFile,
      s.theBlueGrayscaleFile with
    | some theFile, some theInvertedFile, some theRedGrayscaleFile,
        some theGreenGrayscaleFile, some theBlueGrayscaleFile =>
      let w := s.theImageWidth
      let h := s.theImageHeight
      let bits := s.theImageBitCount
      let theImageData := (readImageData w h bits u.theImageData theFile).1
      let theNewImageData := allocateImageMemory w h u.theNewImageData
      let theNewImageData := copyImageData w h theNewImageData theImageData
      let theNewImageData :=
        invertImage (u.threadCreated .invert) (toUInt32 w) (toUInt32 h) theNewImageData
      let theInvertedFile := writeImageData w h bits theNewImageData theInvertedFile
      let theNewImageData := copyImageData w h theNewImageData theImageData
      let theNewImageData :=
        grayscaleImageRed (u.threadCreated .grayscaleRed) (toUInt32 w) (toUInt32 h) theNewImageData
      let theRedGrayscaleFile := writeImageData w h bits theNewImageData theRedGrayscaleFile
      let theNewImageData := copyImageData w h theNewImageData theImageData
      let theNewImageData :=
        grayscaleImageGreen (u.threadCreated .grayscaleGreen) (toUInt32 w) (toUInt32 h) theNewImageData
      let theGreenGrayscaleFile := writeImageData w h bits theNewImageData theGreenGrayscaleFile
      let theNewImageData := copyImageData w h theNewImageData theImageData
      let theNewImageData :=
        grayscaleImageBlue (u.threadCreated .grayscaleBlue) (toUInt32 w) (toUInt32 h) theNewImageData
      let theBlueGrayscaleFile := writeImageData w h bits theNewImageData theBlueGrayscaleFile
      some
        { theInvertedFile := theInvertedFile
          theRedGrayscaleFile := theRedGrayscaleFile
          theGreenGrayscaleFile := theGreenGrayscaleFile
          theBlueGrayscaleFile := theBlueGrayscaleFile }
    | _, _, _, _, _ => none

/-- The body of `main` for an existing source file that holds `theFileData`: the
four output files. -/
def main (u : Indeterminate) (theFileData : List Nat) : Option Outputs :=
  mainImages u (mainHeaders u theFileData)

/-- The composition of the read functions and the write functions with no
transform in between, on the stream `theFileData`: the headers go through
`mainHeaders`, the grid through `readImageData` and `writeImageData`. -/
def readThenWrite (u : Indeterminate) (theFileData : List Nat) : Option OutputFile :=
  let s := mainHeaders u theFileData
  match s.theFile, s.theInvertedFile with
  | some theFile, some theInvertedFile =>
    let theImageData :=
      (readImageData s.theImageWidth s.theImageHeight s.theImageBitCount u.theImageData
        theFile).1
    some (writeImageData s.theImageWidth s.theImageHeight s.theImageBitCount theImageData
      theInvertedFile)
  | _, _ => none

/-! ## Vocabulary of the statements -/

/-- Every element of the stream is a byte. -/
def validBytes (bs : List Nat) : Prop := ∀ b ∈ bs, b < 256

instance (bs : List Nat) : Decidable (validBytes bs) := by
  unfold validBytes; infer_instance

/-- The `n` bytes of `bs` from offset `off` on. -/
def slice (bs : List Nat) (off n : Nat) : List Nat := (bs.drop off).take n

/-- The pixel made of the three stream bytes at offset `k`. -/
def pixelAt (data : List Nat) (k : Nat) : BitmapColor :=
  { blue := getU8 data k, green := getU8 data (k + 1), red := getU8 data (k + 2) }

/-- The grid of `w` columns and `h` rows whose cell `[x][y]` is the pixel at
offset `base + y * rowSize + 3 * x` of the stream. -/
def imageOfStream (data : List Nat) (base w h rowSize : Nat) : Image :=
  (List.range w).map fun x => (List.range h).map fun y =>
    pixelAt data (base + y * rowSize + 3 * x)

/-- The bytes of `h` rows of `w` pixels of the grid, bottom row first, each row
followed by `p` zero bytes. -/
def imageRows (img : Image) (w h p : Nat) : List Nat :=
  (List.range h).flatMap fun y =>
    ((List.range w).flatMap fun x => (img.cell x y).toBytes) ++ List.replicate p 0

/-- The number of padding bytes of a row of `w` 24-bit pixels. -/
def paddingOf (w : Nat) : Nat := (calculatePaddingSize w 24).toNat

/-- The number of bytes of a row of `w` 24-bit pixels in the file. -/
def rowSize (w : Nat) : Nat := 3 * w + paddingOf w

/-- The width field of the stream, for a width that is not negative. -/
def bmpWidth (data : List Nat) : Nat := (getI32 data 18).toNat

/-- The height field of the stream, for a height that is not negative. -/
def bmpHeight (data : List Nat) : Nat := (getI32 data 22).toNat

/-- A valid uncompressed 24-bit BMP stream: bytes only, an `image_offset` that is
one of the four recognised ones, a width and a height that are not negative, 24
bits per pixel, and the whole pixel array present from `image_offset` on. -/
def ValidBmp24 (data : List Nat) : Prop :=
  validBytes data
    ∧ (getU32 data 10 = 26 ∨ getU32 data 10 = 54 ∨ getU32 data 10 = 122
        ∨ getU32 data 10 = 138)
    ∧ 0 ≤ getI32 data 18 ∧ 0 ≤ getI32 data 22 ∧ getU16 data 28 = 24
    ∧ getU32 data 10 + bmpHeight data * rowSize (bmpWidth data) ≤ data.length

instance (data : List Nat) : Decidable (ValidBmp24 data) := by
  unfold ValidBmp24; infer_instance

/-- The grid that a transform leaves when every thread is created: the pixel
function applied to every cell. -/
def transformed (t : IMAGE_PROCESSING_TYPE) (img : Image) : Image :=
  img.map (List.map (processPixel t))

/-- Indeterminate contents that happen to be all zero, with every thread created. -/
def Indeterminate.zero : Indeterminate :=
  { theBitmapFileHeader := BITMAPFILEHEADER.ofBytes []
    theCoreHeader := BITMAPCOREHEADER.ofBytes []
    theInfoHeader := BITMAPINFOHEADER.ofBytes []
    theV4Header := BITMAPV4HEADER.ofBytes []
    theV5Header := BITMAPV5HEADER.ofBytes []
    theImageData := fun _ _ => ⟨0, 0, 0⟩
    theNewImageData := fun _ _ => ⟨0, 0, 0⟩
    threadCreated := fun _ _ => true }

/-- A 2 x 2 image with a 40-byte information header: the pixels `(0,0,0)`,
`(255,255,255)` in the first row and `(10,20,30)`, `(200,100,50)` in the second,
two zero padding bytes after each row. -/
def bmp2x2 : List Nat :=
  BITMAPFILEHEADER.toBytes ⟨19778, 70, 0, 0, 54⟩
    ++ BITMAPINFOHEADER.toBytes ⟨40, 2, 2, 1, 24, 0, 16, 2835, 2835, 0, 0⟩
    ++ [0, 0, 0, 255, 255, 255, 0, 0, 10, 20, 30, 200, 100, 50, 0, 0]

/-- A top-down image: a 40-byte information header with width 1 and height -1,
then the one row, the pixel `(1, 2, 3)` and a zero padding byte. -/
def bmpTopDown : List Nat :=
  BITMAPFILEHEADER.toBytes ⟨19778, 58, 0, 0, 54⟩
    ++ BITMAPINFOHEADER.toBytes ⟨40, 1, -1, 1, 24, 0, 4, 2835, 2835, 0, 0⟩
    ++ [1, 2, 3, 0]

/-- A 1 x 1 image with a 40-byte information header whose padding byte is 255. -/
def bmp1x1Padded : List Nat :=
  BITMAPFILEHEADER.toBytes ⟨19778, 58, 0, 0, 54⟩
    ++ BITMAPINFOHEADER.toBytes ⟨40, 1, 1, 1, 24, 0, 4, 2835, 2835, 0, 0⟩
    ++ [1, 2, 3, 255]

/-- A stream with `image_offset = 26`: 14 bytes of file header, 12 bytes of
information header (size 12, width 1, height 1), and from offset 26 on the pixel
array of a 1 x 1 image: the pixel `(5, 6, 24)` and one zero padding byte. -/
def bmpCore1x1 : List Nat :=
  BITMAPFILEHEADER.toBytes ⟨19778, 30, 0, 0, 26⟩
    ++ putU32 12 ++ putI32 1 ++ putI32 1
    ++ [5, 6, 24, 0]

/-- The stream `bmp2x2` with `image_offset` replaced by 999. -/
def bmpOffset999 : List Nat :=
  BITMAPFILEHEADER.toBytes ⟨19778, 70, 0, 0, 999⟩ ++ bmp2x2.drop 14

/-- The invert output as the specification describes it: the first
`image_offset` bytes of the source, then for each row its pixel bytes `c` replaced
by `255 - c`, and the padding as zero bytes. -/
def invertExpected (data : List Nat) : List Nat :=
  data.take (getU32 data 10)
    ++ (List.range (bmpHeight data)).flatMap fun y =>
        ((slice data (getU32 data 10 + y * rowSize (bmpWidth data)) (3 * bmpWidth data)).map
            fun c => 255 - c)
          ++ List.replicate (paddingOf (bmpWidth data)) 0

/-- The grid after the thread of column `x` has run to completion: what
`imageProcessingThread` does through `theArgs[ x ].row = aImage[ x ]`. -/
def columnTask (t : IMAGE_PROCESSING_TYPE) (aImageHeight : Nat) (aImage : Image)
    (x : Nat) : Image :=
  aImage.set x (imageProcessingThread ⟨t, aImageHeight, aImage.getD x []⟩)

/-- The function of the source that runs the transform `t`. -/
def applyTransform (created : Nat → Bool) :
    IMAGE_PROCESSING_TYPE → Nat → Nat → Image → Image
  | .invert => invertImage created
  | .grayscaleBlue => grayscaleImageBlue created
  | .grayscaleRed => grayscaleImageRed created
  | .grayscaleGreen => grayscaleImageGreen created

/-- The two pixel grids of `main`: `theImageData`, which `readImageData` returns,
and `theNewImageData`, the working grid. -/
structure ImageMemory where
  theImageData : Image
  theNewImageData : Image
  deriving DecidableEq

/-- A pointer to one of the two grids of `main`. -/
inductive GridPointer where
  | theImageData
  | theNewImageData
  deriving DecidableEq

/-- The grid behind a pointer. -/
def ImageMemory.load (m : ImageMemory) : GridPointer → Image
  | .theImageData => m.theImageData
  | .theNewImageData => m.theNewImageData

/-- The memory after the grid behind a pointer has been written. -/
def ImageMemory.store (m : ImageMemory) (p : GridPointer) (g : Image) : ImageMemory :=
  match p with
  | .theImageData => { m with theImageData := g }
  | .theNewImageData => { m with theNewImageData := g }

/-- The call `copyImageData( aDataDest, aDataSrc, w, h )` as a step on the two grids:
the `memcpy` calls write into the columns of the grid behind `aDataDest`. -/
def copyImageDataStep (aDataDest aDataSrc : GridPointer) (aImageWidth aImageHeight : Int)
    (m : ImageMemory) : ImageMemory :=
  m.store aDataDest
    (copyImageData aImageWidth aImageHeight (m.load aDataDest) (m.load aDataSrc))

/-- The call of the transform `t` on the grid behind `aImage`, as a step on the two
grids: the threads write into the columns of that grid. -/
def transformStep (created : Nat → Bool) (t : IMAGE_PROCESSING_TYPE) (aImage : GridPointer)
    (aImageWidth aImageHeight : Nat) (m : ImageMemory) : ImageMemory :=
  m.store aImage (applyTransform created t aImageWidth aImageHeight (m.load aImage))

/-- One round of `main`: `copyImageData( theNewImageData, theImageData, .. )`, the
transform on `theNewImageData`, `writeImageData( theNewImageData, .. )`. -/
def mainRound (created : Nat → Bool) (t : IMAGE_PROCESSING_TYPE) (w h : Int) (bits : Nat)
    (m : ImageMemory) (aFile : OutputFile) : ImageMemory × OutputFile :=
  let m := copyImageDataStep .theNewImageData .theImageData w h m
  let m := transformStep created t .theNewImageData (toUInt32 w) (toUInt32 h) m
  (m, writeImageData w h bits m.theNewImageData aFile)

/-- The four rounds of `main`, in the order invert, red, green, blue, from the grid
that was read and the working grid as allocated. -/
def mainRounds (u : Indeterminate) (w h : Int) (bits : Nat) (theImageData : Image)
    (o1 o2 o3 o4 : OutputFile) : ImageMemory × Outputs :=
  let m : ImageMemory := ⟨theImageData, allocateImageMemory w h u.theNewImageData⟩
  let r1 := mainRound (u.threadCreated .invert) .invert w h bits m o1
  let r2 := mainRound (u.threadCreated .grayscaleRed) .grayscaleRed w h bits r1.1 o2
  let r3 := mainRound (u.threadCreated .grayscaleGreen) .grayscaleGreen w h bits r2.1 o3
  let r4 := mainRound (u.threadCreated .grayscaleBlue) .grayscaleBlue w h bits r3.1 o4
  (r4.1, ⟨r1.2, r2.2, r3.2, r4.2⟩)

/-- Indeterminate contents that are all zero, with the threads that `created`
tells. -/
def Indeterminate.withThreads (created : IMAGE_PROCESSING_TYPE → Nat → Bool) :
    Indeterminate :=
  { Indeterminate.zero with threadCreated := created }

/-- One assignment of one column thread: the thread of column `x`, in its loop
iteration `y`, executes its assignment number `k`. -/
structure ThreadStep where
  x : Nat
  y : Nat
  k : Nat
  deriving DecidableEq

/-- The shared grid after one assignment of a thread: the assignment reads and
writes the pixel `row[ y ]` of the column `row = aImage[ x ]`. -/
def execStep (t : IMAGE_PROCESSING_TYPE) (aImage : Image) (s : ThreadStep) : Image :=
  aImage.setCell s.x s.y (((pixelStatements t).getD s.k id) (aImage.cell s.x s.y))

/-- The assignments that the thread of column `x` executes, in program order: for
each `y` from 0 to `imageHeight - 1` the three assignments of the loop body. -/
def threadProgram (aImageHeight x : Nat) : List ThreadStep :=
  (List.range aImageHeight).flatMap fun y => (List.range 3).map fun k => ⟨x, y, k⟩

/-- The list `sched` is an interleaving of the threads that a transform creates on
`w` columns: it holds assignments of created threads only, and the assignments of
each created thread are those of its program, in program order. -/
def IsInterleaving (created : Nat → Bool) (w h : Nat) (sched : List ThreadStep) : Prop :=
  (∀ s ∈ sched, s.x < w ∧ created s.x = true)
    ∧ ∀ x, x < w → created x = true →
        sched.filter (fun s => decide (s.x = x)) = threadProgram h x

instance (created : Nat → Bool) (w h : Nat) (sched : List ThreadStep) :
    Decidable (IsInterleaving created w h sched) := by
  unfold IsInterleaving; infer_instance

/-- The shared grid after the assignments of `sched`, one after the other. -/
def runInterleaved (t : IMAGE_PROCESSING_TYPE) (aImage : Image) (sched : List ThreadStep) :
    Image :=
  sched.foldl (execStep t) aImage

/-- The one-worker run of the specification: the tasks of the columns `0 .. w-1` one
after the other, each run to completion by the one worker. -/
def runOneWorker (t : IMAGE_PROCESSING_TYPE) (w h : Nat) (aImage : Image) : Image :=
  (List.range w).foldl (columnTask t h) aImage

/-- The interleaving in which the created threads run one after the other. -/
def sequentialSchedule (created : Nat → Bool) (w h : Nat) : List ThreadStep :=
  ((List.range w).filter created).flatMap (threadProgram h)

/-- The bytes of `n` pixels `(1, 2, 3)`. -/
def widePixels (n : Nat) : List Nat := (List.replicate n [1, 2, 3]).flatten

/-- The file header and the 40-byte information header of `bmpWide`. -/
def bmpWideHeader : List Nat :=
  BITMAPFILEHEADER.toBytes ⟨19778, 98318, 0, 0, 54⟩
    ++ BITMAPINFOHEADER.toBytes ⟨40, 32754, 1, 1, 24, 0, 98264, 2835, 2835, 0, 0⟩

/-- A 32754 x 1 image with a 40-byte information header: one row of pixels
`(1, 2, 3)` and its two zero padding bytes. -/
def bmpWide : List Nat := bmpWideHeader ++ (widePixels 32754 ++ [0, 0])

/-! ## Lemmas: bit trick and padding -/

theorem nat_land_mask (u : Nat) (hu : u < 4294967296) :
    Nat.land u 4294967292 = u - u % 4 := by
  apply Nat.eq_of_testBit_eq
  intro i
  show (u &&& 4294967292).testBit i = _
  rw [Nat.testBit_and]
  have hmask : (4294967292 : Nat) = 2 ^ 2 * (2 ^ 30 - 1) := by norm_num
  have hm : u - u % 4 = 2 ^ 2 * (u / 4) := by omega
  rw [hm, hmask, Nat.testBit_mul_pow_two, Nat.testBit_mul_pow_two, Nat.testBit_two_pow_sub_one]
  by_cases hi : 2 ≤ i
  · have h4 : u / 4 = u >>> 2 := by rw [Nat.shiftRight_eq_div_pow]
    rw [h4, Nat.testBit_shiftRight]
    have e : 2 + (i - 2) = i := by omega
    rw [e]
    by_cases h32 : i < 32
    · have h30 : i - 2 < 30 := by omega
      simp [hi, h30]
    · have hlt : u < 2 ^ i := lt_of_lt_of_le hu (by
        have h2 : (4294967296 : Nat) = 2 ^ 32 := by norm_num
        rw [h2]
        exact Nat.pow_le_pow_right (by norm_num) (by omega))
      simp [Nat.testBit_lt_two_pow hlt]
  · simp [hi]

/-- The bit trick clears the two low bits of `aNum + 3`, as long as `aNum + 3` is
an `int`. -/
theorem findNextMultipleOf4_eq (n : Int) (h0 : -2147483648 ≤ n) (h1 : n + 3 < 2147483648) :
    findNextMultipleOf4 n = (n + 3) - (n + 3) % 4 := by
  unfold findNextMultipleOf4
  have hmask : toUInt32 (~~~ (3 : Int)) = 4294967292 := by decide
  have hu : toUInt32 (n + 3) < 4294967296 := by unfold toUInt32; omega
  rw [hmask, nat_land_mask _ hu]
  unfold toInt32 toUInt32
  split <;> omega

theorem tdiv_eight (a : Int) :
    Int.tdiv a 8 = if 0 ≤ a then a / 8 else -((-a) / 8) := by
  split
  · next h => exact Int.tdiv_eq_ediv h (by norm_num)
  · next h =>
    have h2 : a = -(-a) := by omega
    conv_lhs => rw [h2, Int.neg_tdiv]
    rw [Int.tdiv_eq_ediv (by omega) (by norm_num)]

/-- The padding in terms of the row size in bytes. -/
theorem calculatePaddingSize_eq (w : Int) (b : Nat) :
    calculatePaddingSize w b
      = (4 - Int.tdiv (wrap32 ((b : Int) * w)) 8 % 4) % 4 := by
  unfold calculatePaddingSize
  have hw : -2147483648 ≤ wrap32 ((b : Int) * w) ∧ wrap32 ((b : Int) * w) < 2147483648 := by
    unfold wrap32; omega
  have ht := tdiv_eight (wrap32 ((b : Int) * w))
  simp only
  rw [findNextMultipleOf4_eq _ (by split at ht <;> omega) (by split at ht <;> omega)]
  omega

/-- With 24 bits per pixel the wrapped product still gives the padding of `3 * w`
bytes, for every width. -/
theorem calculatePaddingSize_24 (w : Int) :
    calculatePaddingSize w 24 = (4 - (3 * w) % 4) % 4 := by
  rw [calculatePaddingSize_eq]
  have hk : ∃ k : Int, wrap32 (((24 : Nat) : Int) * w) = 8 * k ∧ k % 4 = (3 * w) % 4 := by
    refine ⟨3 * w - 536870912 * ((24 * w + 2147483648) / 4294967296), ?_, ?_⟩
    · unfold wrap32
      push_cast
      omega
    · omega
  obtain ⟨k, hk1, hk2⟩ := hk
  rw [hk1, Int.mul_tdiv_cancel_left _ (by norm_num : (8 : Int) ≠ 0), hk2]

/-! ## Lemmas: loops that update a list in place -/

/-- A counting loop that rewrites the cells `0 .. n-1` of a list one by one,
each from its own old value, maps the first `n` cells. -/
theorem foldl_range_set {α : Type} (F : α → α) (d : α) (n : Nat) (l : List α) :
    (List.range n).foldl (fun l i => l.set i (F (l.getD i d))) l
      = (l.take n).map F ++ l.drop n := by
  induction n with
  | zero => simp
  | succ n ih =>
    rw [List.range_succ, List.foldl_append, ih]
    simp only [List.foldl_cons, List.foldl_nil]
    apply List.ext_getElem?
    intro i
    by_cases hn : n < l.length
    · rw [List.getElem?_set]
      simp only [List.getD_eq_getElem?_getD, List.getElem?_append, List.length_map,
        List.length_take, List.getElem?_map, List.getElem?_take, List.getElem?_drop,
        List.length_append, List.length_drop]
      by_cases h1 : n = i
      · subst h1
        simp [hn, Nat.min_eq_left (Nat.le_of_lt hn)]
      · rcases Nat.lt_or_gt_of_ne h1 with h2 | h2
        · have h3 : ¬ i < n := by omega
          have h4 : ¬ i < n + 1 := by omega
          simp [h1, h3, h4, Nat.min_eq_left (Nat.le_of_lt hn)]
          congr 1; omega
        · have h4 : i < n + 1 := by omega
          have h5 : i < l.length := by omega
          simp [h1, h2, h4, h5, Nat.min_eq_left (Nat.le_of_lt hn)]
    · have h1 : l.length ≤ n := by omega
      rw [List.set_eq_of_length_le (by simp; omega)]
      simp [List.take_of_length_le h1, List.drop_eq_nil_of_le h1,
        List.take_of_length_le (Nat.le_succ_of_le h1),
        List.drop_eq_nil_of_le (Nat.le_succ_of_le h1)]

theorem imageProcessingThread_eq (t : IMAGE_PROCESSING_TYPE) (h : Nat)
    (row : List BitmapColor) :
    imageProcessingThread ⟨t, h, row⟩ = (row.take h).map (processPixel t) ++ row.drop h := by
  unfold imageProcessingThread
  exact foldl_range_set (processPixel t) default h row

theorem imageProcessingThread_full (t : IMAGE_PROCESSING_TYPE) (h : Nat)
    (row : List BitmapColor) (hr : row.length = h) :
    imageProcessingThread ⟨t, h, row⟩ = row.map (processPixel t) := by
  rw [imageProcessingThread_eq, List.take_of_length_le (Nat.le_of_eq hr),
    List.drop_eq_nil_of_le (Nat.le_of_eq hr), List.append_nil]

/-- A loop that rewrites the entries picked by `c`, entry by entry. -/
theorem foldl_range_setIf {α : Type} (c : Nat → Bool) (f : α → α) (d : α) (n : Nat)
    (l : List α) :
    ((List.range n).foldl
        (fun acc i => if c i = true then acc.set i (f (acc.getD i d)) else acc) l).length
        = l.length
      ∧ ∀ x, ((List.range n).foldl
          (fun acc i => if c i = true then acc.set i (f (acc.getD i d)) else acc) l)[x]?
          = if x < n ∧ c x = true then l[x]?.map f else l[x]? := by
  induction n with
  | zero => simp
  | succ n ih =>
    rw [List.range_succ, List.foldl_append]
    simp only [List.foldl_cons, List.foldl_nil]
    obtain ⟨ih1, ih2⟩ := ih
    generalize (List.range n).foldl _ l = acc at ih1 ih2 ⊢
    by_cases hc : c n = true
    · simp only [hc, if_true, List.length_set]
      refine ⟨ih1, fun x => ?_⟩
      rw [List.getElem?_set]
      by_cases hx : n = x
      · subst hx
        have h0 : acc[n]? = l[n]? := by rw [ih2]; simp
        by_cases hl : n < l.length
        · simp [hc, ih1, hl, List.getD_eq_getElem?_getD, h0, List.getElem?_eq_getElem hl]
        · simp [hc, ih1, hl, List.getElem?_eq_none (Nat.le_of_not_lt hl)]
      · rw [if_neg hx, ih2]
        have : (x < n + 1) ↔ x < n := by omega
        simp only [this]
    · rw [if_neg hc]
      refine ⟨ih1, fun x => ?_⟩
      rw [ih2]
      by_cases hx : n = x
      · subst hx; simp [hc]
      · have : (x < n + 1) ↔ x < n := by omega
        simp only [this]

theorem imageProcessingThread_length (t : IMAGE_PROCESSING_TYPE) (h : Nat)
    (row : List BitmapColor) : (imageProcessingThread ⟨t, h, row⟩).length = row.length := by
  rw [imageProcessingThread_eq, List.length_append, List.length_map, ← List.length_append,
    List.take_append_drop]

theorem runColumnThreads_length (c : Nat → Bool) (t : IMAGE_PROCESSING_TYPE) (w h : Nat)
    (g : Image) : (runColumnThreads c t w h g).length = g.length :=
  (foldl_range_setIf c (fun col => imageProcessingThread ⟨t, h, col⟩) [] w g).1

/-- The columns after a transform: the thread of a column that was created has
worked on it, every other column is as before. -/
theorem runColumnThreads_getElem? (c : Nat → Bool) (t : IMAGE_PROCESSING_TYPE) (w h : Nat)
    (g : Image) (x : Nat) :
    (runColumnThreads c t w h g)[x]?
      = if x < w ∧ c x = true then
          g[x]?.map (fun col => imageProcessingThread ⟨t, h, col⟩)
        else g[x]? :=
  (foldl_range_setIf c (fun col => imageProcessingThread ⟨t, h, col⟩) [] w g).2 x

/-- On a grid of the stated size, with every thread created, a transform is the
pixel function applied to every cell. -/
theorem runColumnThreads_map (c : Nat → Bool) (t : IMAGE_PROCESSING_TYPE) (w h : Nat)
    (g : Image) (hd : g.hasDims w h) (hc : ∀ x, x < w → c x = true) :
    runColumnThreads c t w h g = g.map (List.map (processPixel t)) := by
  apply List.ext_getElem?
  intro x
  rw [runColumnThreads_getElem?, List.getElem?_map]
  by_cases hx : x < w
  · have hx1 : x < g.length := by rw [hd.1]; exact hx
    rw [if_pos ⟨hx, hc x hx⟩, List.getElem?_eq_getElem hx1]
    simp only [Option.map_some']
    rw [imageProcessingThread_full t h _ (hd.2 _ (List.getElem_mem hx1))]
  · have hx1 : g.length ≤ x := by rw [hd.1]; omega
    rw [if_neg (fun e => hx e.1), List.getElem?_eq_none hx1]
    rfl

theorem hasDims_map (f : BitmapColor → BitmapColor) (w h : Nat) (g : Image)
    (hd : g.hasDims w h) : Image.hasDims (g.map (List.map f)) w h := by
  refine ⟨by simpa using hd.1, ?_⟩
  intro col hc
  obtain ⟨c, hc1, rfl⟩ := List.mem_map.1 hc
  simpa using hd.2 c hc1

theorem cell_map (f : BitmapColor → BitmapColor) (w h : Nat) (g : Image)
    (hd : g.hasDims w h) (x y : Nat) (hx : x < w) (hy : y < h) :
    Image.cell (g.map (List.map f)) x y = f (g.cell x y) := by
  have hx1 : x < g.length := by rw [hd.1]; exact hx
  have hy1 : y < (g[x]).length := by rw [hd.2 _ (List.getElem_mem hx1)]; exact hy
  simp [Image.cell, List.getD_eq_getElem?_getD, List.getElem?_eq_getElem hx1,
    List.getElem?_eq_getElem hy1]

theorem processPixel_invert (p : BitmapColor) :
    processPixel .invert p
      = ⟨toUInt8 (UINT8_MAX - p.blue), toUInt8 (UINT8_MAX - p.green),
          toUInt8 (UINT8_MAX - p.red)⟩ := rfl

theorem processPixel_grayscaleRed (p : BitmapColor) :
    processPixel .grayscaleRed p = ⟨p.red, p.red, p.red⟩ := rfl

theorem processPixel_grayscaleGreen (p : BitmapColor) :
    processPixel .grayscaleGreen p = ⟨p.green, p.green, p.green⟩ := rfl

theorem processPixel_grayscaleBlue (p : BitmapColor) :
    processPixel .grayscaleBlue p = ⟨p.blue, p.blue, p.blue⟩ := rfl

theorem toUInt8_invert (b : Nat) (hb : b < 256) :
    ((toUInt8 (UINT8_MAX - b) : Nat) : Int) = 255 - b ∧ toUInt8 (UINT8_MAX - b) < 256 := by
  unfold toUInt8 UINT8_MAX
  omega

theorem processPixel_invert_invert (p : BitmapColor) (hp : p.valid) :
    processPixel .invert (processPixel .invert p) = p := by
  obtain ⟨b, g, r⟩ := p
  obtain ⟨hb, hg, hr⟩ := hp
  simp only [processPixel_invert, BitmapColor.mk.injEq]
  simp only [toUInt8, UINT8_MAX] at *
  omega

/-! ## Lemmas: packed records -/

theorem getU8_lt (bs : List Nat) (hv : ∀ b ∈ bs, b < 256) (i : Nat) : getU8 bs i < 256 := by
  unfold getU8
  rw [List.getD_eq_getElem?_getD]
  by_cases h : i < bs.length
  · rw [List.getElem?_eq_getElem h]
    exact hv _ (List.getElem_mem h)
  · rw [List.getElem?_eq_none (by omega)]
    simp

theorem putU16_getU16 (bs : List Nat) (hv : ∀ b ∈ bs, b < 256) (off : Nat) :
    putU16 (getU16 bs off) = [getU8 bs off, getU8 bs (off + 1)] := by
  have h0 := getU8_lt bs hv off
  have h1 := getU8_lt bs hv (off + 1)
  simp only [putU16, getU16, List.cons.injEq, and_true]
  omega

theorem putU32_getU32 (bs : List Nat) (hv : ∀ b ∈ bs, b < 256) (off : Nat) :
    putU32 (getU32 bs off)
      = [getU8 bs off, getU8 bs (off + 1), getU8 bs (off + 2), getU8 bs (off + 3)] := by
  have h0 := getU8_lt bs hv off
  have h1 := getU8_lt bs hv (off + 1)
  have h2 := getU8_lt bs hv (off + 2)
  have h3 := getU8_lt bs hv (off + 3)
  simp only [putU32, getU32, List.cons.injEq, and_true]
  omega

theorem putI32_getI32 (bs : List Nat) (hv : ∀ b ∈ bs, b < 256) (off : Nat) :
    putI32 (getI32 bs off)
      = [getU8 bs off, getU8 bs (off + 1), getU8 bs (off + 2), getU8 bs (off + 3)] := by
  rw [← putU32_getU32 bs hv off]
  have h0 := getU8_lt bs hv off
  have h1 := getU8_lt bs hv (off + 1)
  have h2 := getU8_lt bs hv (off + 2)
  have h3 := getU8_lt bs hv (off + 3)
  have hlt : getU32 bs off < 4294967296 := by unfold getU32; omega
  unfold putI32 getI32 toUInt32
  congr 1
  split <;> omega

theorem slice_append (bs : List Nat) (a b n m : Nat) (h : b = a + n) :
    slice bs a n ++ slice bs b m = slice bs a (n + m) := by
  subst h
  unfold slice
  rw [List.take_add, List.drop_drop]

theorem slice_append_assoc (bs : List Nat) (a b n m : Nat) (rest : List Nat) (h : b = a + n) :
    slice bs a n ++ (slice bs b m ++ rest) = slice bs a (n + m) ++ rest := by
  rw [← List.append_assoc, slice_append bs a b n m h]

theorem slice_all (bs : List Nat) (n : Nat) (h : bs.length = n) : slice bs 0 n = bs := by
  unfold slice
  simp [List.take_of_length_le (Nat.le_of_eq h)]

theorem getU8_eq_getElem (bs : List Nat) (i : Nat) (h : i < bs.length) :
    getU8 bs i = bs[i] := by
  simp [getU8, List.getD_eq_getElem?_getD, List.getElem?_eq_getElem h]

theorem bytes2_eq_slice (bs : List Nat) (off : Nat) (h : off + 2 ≤ bs.length) :
    [getU8 bs off, getU8 bs (off + 1)] = slice bs off 2 := by
  unfold slice
  apply List.ext_getElem
  · simp; omega
  · intro i h1 h2
    simp at h1
    have hi : i = 0 ∨ i = 1 := by omega
    rcases hi with rfl | rfl <;>
      simp [getU8_eq_getElem, List.getElem_take, List.getElem_drop, (by omega : off < bs.length),
        (by omega : off + 1 < bs.length)]

theorem bytes4_eq_slice (bs : List Nat) (off : Nat) (h : off + 4 ≤ bs.length) :
    [getU8 bs off, getU8 bs (off + 1), getU8 bs (off + 2), getU8 bs (off + 3)]
      = slice bs off 4 := by
  unfold slice
  apply List.ext_getElem
  · simp; omega
  · intro i h1 h2
    simp at h1
    have hi : i = 0 ∨ i = 1 ∨ i = 2 ∨ i = 3 := by omega
    rcases hi with rfl | rfl | rfl | rfl <;>
      simp [getU8_eq_getElem, List.getElem_take, List.getElem_drop, (by omega : off < bs.length),
        (by omega : off + 1 < bs.length), (by omega : off + 2 < bs.length),
        (by omega : off + 3 < bs.length)]

theorem put16 (bs : List Nat) (hv : ∀ b ∈ bs, b < 256) (off : Nat) (h : off + 2 ≤ bs.length) :
    putU16 (getU16 bs off) = slice bs off 2 := by
  rw [putU16_getU16 bs hv, bytes2_eq_slice bs off h]

theorem put32 (bs : List Nat) (hv : ∀ b ∈ bs, b < 256) (off : Nat) (h : off + 4 ≤ bs.length) :
    putU32 (getU32 bs off) = slice bs off 4 := by
  rw [putU32_getU32 bs hv, bytes4_eq_slice bs off h]

theorem puti32 (bs : List Nat) (hv : ∀ b ∈ bs, b < 256) (off : Nat) (h : off + 4 ≤ bs.length) :
    putI32 (getI32 bs off) = slice bs off 4 := by
  rw [putI32_getI32 bs hv, bytes4_eq_slice bs off h]

theorem fileHeader_toBytes_ofBytes (bs : List Nat) (hl : bs.length = 14)
    (hv : ∀ b ∈ bs, b < 256) : (BITMAPFILEHEADER.ofBytes bs).toBytes = bs := by
  simp only [BITMAPFILEHEADER.toBytes, BITMAPFILEHEADER.ofBytes]
  simp only [put16 bs hv, put32 bs hv, puti32 bs hv, hl, Nat.reduceAdd, Nat.reduceLeDiff]
  simp only [List.append_assoc]
  simp only [slice_append_assoc, slice_append, Nat.reduceAdd]
  exact slice_all bs 14 hl

theorem coreHeader_toBytes_ofBytes (bs : List Nat) (hl : bs.length = 16)
    (hv : ∀ b ∈ bs, b < 256) : (BITMAPCOREHEADER.ofBytes bs).toBytes = bs := by
  simp only [BITMAPCOREHEADER.toBytes, BITMAPCOREHEADER.ofBytes]
  simp only [put16 bs hv, put32 bs hv, puti32 bs hv, hl, Nat.reduceAdd, Nat.reduceLeDiff]
  simp only [List.append_assoc]
  simp only [slice_append_assoc, slice_append, Nat.reduceAdd]
  exact slice_all bs 16 hl

theorem infoHeader_toBytes_ofBytes (bs : List Nat) (hl : bs.length = 40)
    (hv : ∀ b ∈ bs, b < 256) : (BITMAPINFOHEADER.ofBytes bs).toBytes = bs := by
  simp only [BITMAPINFOHEADER.toBytes, BITMAPINFOHEADER.ofBytes]
  simp only [put16 bs hv, put32 bs hv, puti32 bs hv, hl, Nat.reduceAdd, Nat.reduceLeDiff]
  simp only [List.append_assoc]
  simp only [slice_append_assoc, slice_append, Nat.reduceAdd]
  exact slice_all bs 40 hl

theorem v4Header_toBytes_ofBytes (bs : List Nat) (hl : bs.length = 108)
    (hv : ∀ b ∈ bs, b < 256) : (BITMAPV4HEADER.ofBytes bs).toBytes = bs := by
  simp only [BITMAPV4HEADER.toBytes, BITMAPV4HEADER.ofBytes, CIEXYZTRIPLE.toBytes,
    CIEXYZTRIPLE.ofBytes, CIEXYZ.toBytes, CIEXYZ.ofBytes, Nat.reduceAdd]
  simp only [put16 bs hv, put32 bs hv, puti32 bs hv, hl, Nat.reduceAdd, Nat.reduceLeDiff]
  simp only [List.append_assoc]
  simp only [slice_append_assoc, slice_append, Nat.reduceAdd]
  exact slice_all bs 108 hl

theorem v5Header_toBytes_ofBytes (bs : List Nat) (hl : bs.length = 124)
    (hv : ∀ b ∈ bs, b < 256) : (BITMAPV5HEADER.ofBytes bs).toBytes = bs := by
  simp only [BITMAPV5HEADER.toBytes, BITMAPV5HEADER.ofBytes, CIEXYZTRIPLE.toBytes,
    CIEXYZTRIPLE.ofBytes, CIEXYZ.toBytes, CIEXYZ.ofBytes, Nat.reduceAdd]
  simp only [put16 bs hv, put32 bs hv, puti32 bs hv, hl, Nat.reduceAdd, Nat.reduceLeDiff]
  simp only [List.append_assoc]
  simp only [slice_append_assoc, slice_append, Nat.reduceAdd]
  exact slice_all bs 124 hl

/-! ## Lemmas: streams and the header stage -/

theorem fread_complete (obj : List Nat) (f : FILE) (h : f.pos + obj.length ≤ f.data.length) :
    fread obj f = (slice f.data f.pos obj.length, ⟨f.data, f.pos + obj.length⟩) := by
  have hlen : ((f.data.drop f.pos).take obj.length).length = obj.length := by
    simp; omega
  unfold fread slice
  simp only [hlen, List.drop_length, List.append_nil]

theorem fileHeader_length_toBytes (h : BITMAPFILEHEADER) : h.toBytes.length = 14 := rfl

theorem coreHeader_length_toBytes (h : BITMAPCOREHEADER) : h.toBytes.length = 16 := rfl

theorem infoHeader_length_toBytes (h : BITMAPINFOHEADER) : h.toBytes.length = 40 := rfl

theorem v4Header_length_toBytes (h : BITMAPV4HEADER) : h.toBytes.length = 108 := by
  simp [BITMAPV4HEADER.toBytes, CIEXYZTRIPLE.toBytes, CIEXYZ.toBytes, putU32, putI32, putU16]

theorem v5Header_length_toBytes (h : BITMAPV5HEADER) : h.toBytes.length = 124 := by
  simp [BITMAPV5HEADER.toBytes, CIEXYZTRIPLE.toBytes, CIEXYZ.toBytes, putU32, putI32, putU16]

theorem getU8_slice (bs : List Nat) (a n i : Nat) (h : i < n) :
    getU8 (slice bs a n) i = getU8 bs (a + i) := by
  unfold getU8 slice
  simp [List.getD_eq_getElem?_getD, List.getElem?_take, h]

theorem getU16_slice (bs : List Nat) (a n i : Nat) (h : i + 2 ≤ n) :
    getU16 (slice bs a n) i = getU16 bs (a + i) := by
  unfold getU16
  rw [getU8_slice bs a n i (by omega), getU8_slice bs a n (i + 1) (by omega)]
  rfl

theorem getU32_slice (bs : List Nat) (a n i : Nat) (h : i + 4 ≤ n) :
    getU32 (slice bs a n) i = getU32 bs (a + i) := by
  unfold getU32
  rw [getU8_slice bs a n i (by omega), getU8_slice bs a n (i + 1) (by omega),
    getU8_slice bs a n (i + 2) (by omega), getU8_slice bs a n (i + 3) (by omega)]
  rfl

theorem getI32_slice (bs : List Nat) (a n i : Nat) (h : i + 4 ≤ n) :
    getI32 (slice bs a n) i = getI32 bs (a + i) := by
  unfold getI32
  rw [getU32_slice bs a n i h]

theorem validBytes_slice (bs : List Nat) (hv : validBytes bs) (a n : Nat) :
    validBytes (slice bs a n) := by
  intro b hb
  exact hv b (List.mem_of_mem_drop (List.mem_of_mem_take hb))

theorem length_slice (bs : List Nat) (a n : Nat) (h : a + n ≤ bs.length) :
    (slice bs a n).length = n := by
  unfold slice
  simp; omega

/-- The first read of `main` on a stream of 14 bytes or more. -/
theorem readBitmapFileHeader_complete (h0 : BITMAPFILEHEADER) (data : List Nat)
    (hl : 14 ≤ data.length) :
    readBitmapFileHeader h0 (some ⟨data, 0⟩)
      = (BITMAPFILEHEADER.ofBytes (slice data 0 14), some ⟨data, 14⟩) := by
  unfold readBitmapFileHeader
  simp only
  rw [fread_complete _ _ (by simp [fileHeader_length_toBytes]; omega)]
  simp [fileHeader_length_toBytes]

theorem image_offset_ofBytes (data : List Nat) :
    (BITMAPFILEHEADER.ofBytes (slice data 0 14)).image_offset = getU32 data 10 := by
  show getU32 (slice data 0 14) 10 = _
  rw [getU32_slice data 0 14 10 (by omega)]

/-- The header stage on a stream with `image_offset = 54`. -/
theorem mainHeaders_info (u : Indeterminate) (data : List Nat)
    (ho : getU32 data 10 = 54) (hl : 54 ≤ data.length) :
    mainHeaders u data =
      { theBitmapFileHeader := BITMAPFILEHEADER.ofBytes (slice data 0 14)
        theFile := some ⟨data, 54⟩
        theImageWidth := getI32 data 18
        theImageHeight := getI32 data 22
        theImageBitCount := getU16 data 28
        theInvertedFile := some ((BITMAPFILEHEADER.ofBytes (slice data 0 14)).toBytes
          ++ (BITMAPINFOHEADER.ofBytes (slice data 14 40)).toBytes)
        theRedGrayscaleFile := some ((BITMAPFILEHEADER.ofBytes (slice data 0 14)).toBytes
          ++ (BITMAPINFOHEADER.ofBytes (slice data 14 40)).toBytes)
        theGreenGrayscaleFile := some ((BITMAPFILEHEADER.ofBytes (slice data 0 14)).toBytes
          ++ (BITMAPINFOHEADER.ofBytes (slice data 14 40)).toBytes)
        theBlueGrayscaleFile := some ((BITMAPFILEHEADER.ofBytes (slice data 0 14)).toBytes
          ++ (BITMAPINFOHEADER.ofBytes (slice data 14 40)).toBytes) } := by
  unfold mainHeaders
  simp only [readBitmapFileHeader_complete _ data (by omega), image_offset_ofBytes, ho]
  simp only [BITMAPCOREHEADER_IMAGE_OFFSET, BITMAPINFOHEADER_IMAGE_OFFSET,
    BITMAPV4HEADER_IMAGE_OFFSET, BITMAPV5HEADER_IMAGE_OFFSET, Nat.reduceEqDiff, if_false, if_true]
  simp only [readBitmapInfoHeader, writeBitmapFileHeader, writeBitmapInfoHeader, fwrite,
    List.nil_append]
  rw [fread_complete _ _ (by simp [infoHeader_length_toBytes]; omega)]
  simp only [infoHeader_length_toBytes]
  have e1 : (BITMAPINFOHEADER.ofBytes (slice data 14 40)).width_px = getI32 data 18 := by
    show getI32 (slice data 14 40) 4 = _
    rw [getI32_slice data 14 40 4 (by omega)]
  have e2 : (BITMAPINFOHEADER.ofBytes (slice data 14 40)).height_px = getI32 data 22 := by
    show getI32 (slice data 14 40) 8 = _
    rw [getI32_slice data 14 40 8 (by omega)]
  have e3 : (BITMAPINFOHEADER.ofBytes (slice data 14 40)).bits_per_pixel = getU16 data 28 := by
    show getU16 (slice data 14 40) 14 = _
    rw [getU16_slice data 14 40 14 (by omega)]
  rw [e1, e2, e3]

/-- The header stage on a stream with `image_offset = 26`. -/
theorem mainHeaders_core (u : Indeterminate) (data : List Nat)
    (ho : getU32 data 10 = 26) (hl : 30 ≤ data.length) :
    mainHeaders u data =
      { theBitmapFileHeader := BITMAPFILEHEADER.ofBytes (slice data 0 14)
        theFile := some ⟨data, 30⟩
        theImageWidth := getI32 data 18
        theImageHeight := getI32 data 22
        theImageBitCount := getU16 data 28
        theInvertedFile := some ((BITMAPFILEHEADER.ofBytes (slice data 0 14)).toBytes
          ++ (BITMAPCOREHEADER.ofBytes (slice data 14 16)).toBytes)
        theRedGrayscaleFile := some ((BITMAPFILEHEADER.ofBytes (slice data 0 14)).toBytes
          ++ (BITMAPCOREHEADER.ofBytes (slice data 14 16)).toBytes)
        theGreenGrayscaleFile := some ((BITMAPFILEHEADER.ofBytes (slice data 0 14)).toBytes
          ++ (BITMAPCOREHEADER.ofBytes (slice data 14 16)).toBytes)
        theBlueGrayscaleFile := some ((BITMAPFILEHEADER.ofBytes (slice data 0 14)).toBytes
          ++ (BITMAPCOREHEADER.ofBytes (slice data 14 16)).toBytes) } := by
  unfold mainHeaders
  simp only [readBitmapFileHeader_complete _ data (by omega), image_offset_ofBytes, ho]
  simp only [BITMAPCOREHEADER_IMAGE_OFFSET, BITMAPINFOHEADER_IMAGE_OFFSET,
    BITMAPV4HEADER_IMAGE_OFFSET, BITMAPV5HEADER_IMAGE_OFFSET, Nat.reduceEqDiff, if_false, if_true]
  simp only [readBitmapCoreHeader, writeBitmapFileHeader, writeBitmapCoreHeader, fwrite,
    List.nil_append]
  rw [fread_complete _ _ (by simp [coreHeader_length_toBytes]; omega)]
  simp only [coreHeader_length_toBytes]
  have e1 : (BITMAPCOREHEADER.ofBytes (slice data 14 16)).width_px = getI32 data 18 := by
    show getI32 (slice data 14 16) 4 = _
    rw [getI32_slice data 14 16 4 (by omega)]
  have e2 : (BITMAPCOREHEADER.ofBytes (slice data 14 16)).height_px = getI32 data 22 := by
    show getI32 (slice data 14 16) 8 = _
    rw [getI32_slice data 14 16 8 (by omega)]
  have e3 : (BITMAPCOREHEADER.ofBytes (slice data 14 16)).bits_per_pixel = getU16 data 28 := by
    show getU16 (slice data 14 16) 14 = _
    rw [getU16_slice data 14 16 14 (by omega)]
  rw [e1, e2, e3]

/-- The header stage on a stream with `image_offset = 122`. -/
theorem mainHeaders_v4 (u : Indeterminate) (data : List Nat)
    (ho : getU32 data 10 = 122) (hl : 122 ≤ data.length) :
    mainHeaders u data =
      { theBitmapFileHeader := BITMAPFILEHEADER.ofBytes (slice data 0 14)
        theFile := some ⟨data, 122⟩
        theImageWidth := getI32 data 18
        theImageHeight := getI32 data 22
        theImageBitCount := getU16 data 28
        theInvertedFile := some ((BITMAPFILEHEADER.ofBytes (slice data 0 14)).toBytes
          ++ (BITMAPV4HEADER.ofBytes (slice data 14 108)).toBytes)
        theRedGrayscaleFile := some ((BITMAPFILEHEADER.ofBytes (slice data 0 14)).toBytes
          ++ (BITMAPV4HEADER.ofBytes (slice data 14 108)).toBytes)
        theGreenGrayscaleFile := some ((BITMAPFILEHEADER.ofBytes (slice data 0 14)).toBytes
          ++ (BITMAPV4HEADER.ofBytes (slice data 14 108)).toBytes)
        theBlueGrayscaleFile := some ((BITMAPFILEHEADER.ofBytes (slice data 0 14)).toBytes
          ++ (BITMAPV4HEADER.ofBytes (slice data 14 108)).toBytes) } := by
  unfold mainHeaders
  simp only [readBitmapFileHeader_complete _ data (by omega), image_offset_ofBytes, ho]
  simp only [BITMAPCOREHEADER_IMAGE_OFFSET, BITMAPINFOHEADER_IMAGE_OFFSET,
    BITMAPV4HEADER_IMAGE_OFFSET, BITMAPV5HEADER_IMAGE_OFFSET, Nat.reduceEqDiff, if_false, if_true]
  simp only [readBitmapV4Header, writeBitmapFileHeader, writeBitmapV4Header, fwrite,
    List.nil_append]
  rw [fread_complete _ _ (by simp [v4Header_length_toBytes]; omega)]
  simp only [v4Header_length_toBytes]
  have e1 : (BITMAPV4HEADER.ofBytes (slice data 14 108)).bV4Width = getI32 data 18 := by
    show getI32 (slice data 14 108) 4 = _
    rw [getI32_slice data 14 108 4 (by omega)]
  have e2 : (BITMAPV4HEADER.ofBytes (slice data 14 108)).bV4Height = getI32 data 22 := by
    show getI32 (slice data 14 108) 8 = _
    rw [getI32_slice data 14 108 8 (by omega)]
  have e3 : (BITMAPV4HEADER.ofBytes (slice data 14 108)).bV4BitCount = getU16 data 28 := by
    show getU16 (slice data 14 108) 14 = _
    rw [getU16_slice data 14 108 14 (by omega)]
  rw [e1, e2, e3]

/-- The header stage on a stream with `image_offset = 138`. -/
theorem mainHeaders_v5 (u : Indeterminate) (data : List Nat)
    (ho : getU32 data 10 = 138) (hl : 138 ≤ data.length) :
    mainHeaders u data =
      { theBitmapFileHeader := BITMAPFILEHEADER.ofBytes (slice data 0 14)
        theFile := some ⟨data, 138⟩
        theImageWidth := getI32 data 18
        theImageHeight := getI32 data 22
        theImageBitCount := getU16 data 28
        theInvertedFile := some ((BITMAPFILEHEADER.ofBytes (slice data 0 14)).toBytes
          ++ (BITMAPV5HEADER.ofBytes (slice data 14 124)).toBytes)
        theRedGrayscaleFile := some ((BITMAPFILEHEADER.ofBytes (slice data 0 14)).toBytes
          ++ (BITMAPV5HEADER.ofBytes (slice data 14 124)).toBytes)
        theGreenGrayscaleFile := some ((BITMAPFILEHEADER.ofBytes (slice data 0 14)).toBytes
          ++ (BITMAPV5HEADER.ofBytes (slice data 14 124)).toBytes)
        theBlueGrayscaleFile := some ((BITMAPFILEHEADER.ofBytes (slice data 0 14)).toBytes
          ++ (BITMAPV5HEADER.ofBytes (slice data 14 124)).toBytes) } := by
  unfold mainHeaders
  simp only [readBitmapFileHeader_complete _ data (by omega), image_offset_ofBytes, ho]
  simp only [BITMAPCOREHEADER_IMAGE_OFFSET, BITMAPINFOHEADER_IMAGE_OFFSET,
    BITMAPV4HEADER_IMAGE_OFFSET, BITMAPV5HEADER_IMAGE_OFFSET, Nat.reduceEqDiff, if_false, if_true]
  simp only [readBitmapV5Header, writeBitmapFileHeader, writeBitmapV5Header, fwrite,
    List.nil_append]
  rw [fread_complete _ _ (by simp [v5Header_length_toBytes]; omega)]
  simp only [v5Header_length_toBytes]
  have e1 : (BITMAPV5HEADER.ofBytes (slice data 14 124)).bV5Width = getI32 data 18 := by
    show getI32 (slice data 14 124) 4 = _
    rw [getI32_slice data 14 124 4 (by omega)]
  have e2 : (BITMAPV5HEADER.ofBytes (slice data 14 124)).bV5Height = getI32 data 22 := by
    show getI32 (slice data 14 124) 8 = _
    rw [getI32_slice data 14 124 8 (by omega)]
  have e3 : (BITMAPV5HEADER.ofBytes (slice data 14 124)).bV5BitCount = getU16 data 28 := by
    show getU16 (slice data 14 124) 14 = _
    rw [getU16_slice data 14 124 14 (by omega)]
  rw [e1, e2, e3]


/-- The header stage on a stream of bytes whose `image_offset` is 54, 122 or 138:
the information header ends where the pixels start, and the four outputs hold the
first `image_offset` bytes of the source. -/
theorem mainHeaders_valid (u : Indeterminate) (data : List Nat) (hv : validBytes data)
    (ho : getU32 data 10 = 54 ∨ getU32 data 10 = 122 ∨ getU32 data 10 = 138)
    (hl : getU32 data 10 ≤ data.length) :
    mainHeaders u data =
      { theBitmapFileHeader := BITMAPFILEHEADER.ofBytes (slice data 0 14)
        theFile := some ⟨data, getU32 data 10⟩
        theImageWidth := getI32 data 18
        theImageHeight := getI32 data 22
        theImageBitCount := getU16 data 28
        theInvertedFile := some (slice data 0 (getU32 data 10))
        theRedGrayscaleFile := some (slice data 0 (getU32 data 10))
        theGreenGrayscaleFile := some (slice data 0 (getU32 data 10))
        theBlueGrayscaleFile := some (slice data 0 (getU32 data 10)) } := by
  have hf : (BITMAPFILEHEADER.ofBytes (slice data 0 14)).toBytes = slice data 0 14 :=
    fileHeader_toBytes_ofBytes _ (length_slice data 0 14 (by omega))
      (validBytes_slice data hv 0 14)
  rcases ho with ho | ho | ho
  · rw [ho] at hl
    rw [mainHeaders_info u data ho hl, hf, ho,
      infoHeader_toBytes_ofBytes _ (length_slice data 14 40 (by omega))
        (validBytes_slice data hv 14 40), slice_append data 0 14 14 40 rfl]
  · rw [ho] at hl
    rw [mainHeaders_v4 u data ho hl, hf, ho,
      v4Header_toBytes_ofBytes _ (length_slice data 14 108 (by omega))
        (validBytes_slice data hv 14 108), slice_append data 0 14 14 108 rfl]
  · rw [ho] at hl
    rw [mainHeaders_v5 u data ho hl, hf, ho,
      v5Header_toBytes_ofBytes _ (length_slice data 14 124 (by omega))
        (validBytes_slice data hv 14 124), slice_append data 0 14 14 124 rfl]

/-! ## Lemmas: grids -/

theorem cell_eq_getElem (g : Image) (x y : Nat) (hx : x < g.length) (hy : y < (g[x]).length) :
    g.cell x y = (g[x])[y] := by
  simp [Image.cell, List.getD_eq_getElem?_getD, List.getElem?_eq_getElem hx,
    List.getElem?_eq_getElem hy]

theorem hasDims_setCell (g : Image) (w h x y : Nat) (c : BitmapColor) (hd : g.hasDims w h) :
    (g.setCell x y c).hasDims w h := by
  unfold Image.setCell
  refine ⟨by simpa using hd.1, ?_⟩
  intro col hc
  by_cases hx : x < g.length
  · rcases List.mem_or_eq_of_mem_set hc with h1 | h1
    · exact hd.2 col h1
    · rw [h1, List.length_set, List.getD_eq_getElem?_getD, List.getElem?_eq_getElem hx]
      exact hd.2 _ (List.getElem_mem hx)
  · rw [List.set_eq_of_length_le (by omega)] at hc
    exact hd.2 col hc

theorem cell_setCell (g : Image) (w h x y : Nat) (c : BitmapColor) (hd : g.hasDims w h)
    (hx : x < w) (hy : y < h) (x' y' : Nat) :
    (g.setCell x y c).cell x' y' = if x' = x ∧ y' = y then c else g.cell x' y' := by
  have hx1 : x < g.length := by rw [hd.1]; exact hx
  have hy1 : y < (g[x]).length := by rw [hd.2 _ (List.getElem_mem hx1)]; exact hy
  unfold Image.cell Image.setCell
  simp only [List.getD_eq_getElem?_getD, List.getElem?_set, List.getElem?_eq_getElem hx1]
  by_cases h1 : x = x'
  · subst h1
    simp only [hx1, if_true, Option.getD_some, true_and]
    by_cases h2 : y = y'
    · subst h2
      simp [hy1]
    · have h3 : ¬ y' = y := fun e => h2 e.symm
      simp [h2, h3, List.getElem?_eq_getElem hx1]
  · have h3 : ¬ x' = x := fun e => h1 e.symm
    simp [h1, h3]

/-- Two grids of the same size with the same cells are equal. -/
theorem image_ext_cells (g1 g2 : Image) (w h : Nat) (h1 : g1.hasDims w h)
    (h2 : g2.hasDims w h) (hc : ∀ x, x < w → ∀ y, y < h → g1.cell x y = g2.cell x y) :
    g1 = g2 := by
  apply List.ext_getElem
  · rw [h1.1, h2.1]
  · intro x hx1 hx2
    have l1 : (g1[x]).length = h := h1.2 _ (List.getElem_mem hx1)
    have l2 : (g2[x]).length = h := h2.2 _ (List.getElem_mem hx2)
    apply List.ext_getElem
    · rw [l1, l2]
    · intro y hy1 hy2
      have e := hc x (by rw [← h1.1]; exact hx1) y (by rw [← l1]; exact hy1)
      rw [cell_eq_getElem g1 x y hx1 hy1, cell_eq_getElem g2 x y hx2 hy2] at e
      exact e

theorem hasDims_tabulate (F : Nat → Nat → BitmapColor) (w h : Nat) :
    Image.hasDims ((List.range w).map fun x => (List.range h).map fun y => F x y) w h := by
  refine ⟨by simp, ?_⟩
  intro col hc
  obtain ⟨x, _, rfl⟩ := List.mem_map.1 hc
  simp

theorem cell_tabulate (F : Nat → Nat → BitmapColor) (w h x y : Nat) (hx : x < w) (hy : y < h) :
    Image.cell ((List.range w).map fun x => (List.range h).map fun y => F x y) x y = F x y := by
  simp [Image.cell, List.getD_eq_getElem?_getD, List.getElem?_map, List.getElem?_range, hx, hy]

theorem hasDims_allocateImageMemory (w h : Nat) (heap : Nat → Nat → BitmapColor) :
    (allocateImageMemory w h heap).hasDims w h := by
  unfold allocateImageMemory
  simpa using hasDims_tabulate heap w h

/-! ## Lemmas: `readImageData` -/

theorem ofBytes_slice (data : List Nat) (k : Nat) :
    BitmapColor.ofBytes (slice data k 3) = pixelAt data k := by
  unfold BitmapColor.ofBytes pixelAt
  rw [getU8_slice data k 3 0 (by omega), getU8_slice data k 3 1 (by omega),
    getU8_slice data k 3 2 (by omega)]
  rfl

theorem readImageStep_pixel (W : Nat) (p : Int) (y x : Nat) (img : Image) (f : FILE)
    (hx : x < W) (hl : f.pos + 3 ≤ f.data.length) :
    readImageStep W p y (img, f) x
      = (img.setCell x y (pixelAt f.data f.pos), ⟨f.data, f.pos + 3⟩) := by
  unfold readImageStep
  have h1 : ((x : Nat) : Int) < (W : Int) := by exact_mod_cast hx
  simp only [h1, if_true]
  rw [fread_complete _ _ (by simpa [BitmapColor.toBytes] using hl)]
  simp [BitmapColor.toBytes, ofBytes_slice]

theorem readImagePixels (W H : Nat) (p : Int) (y : Nat) (img : Image) (f : FILE)
    (hd : img.hasDims W H) (hy : y < H) (hl : f.pos + 3 * W ≤ f.data.length)
    (n : Nat) (hn : n ≤ W) :
    ((List.range n).foldl (readImageStep W p y) (img, f)).2 = ⟨f.data, f.pos + 3 * n⟩
      ∧ ((List.range n).foldl (readImageStep W p y) (img, f)).1.hasDims W H
      ∧ ∀ x' y', ((List.range n).foldl (readImageStep W p y) (img, f)).1.cell x' y'
          = if y' = y ∧ x' < n then pixelAt f.data (f.pos + 3 * x') else img.cell x' y' := by
  induction n with
  | zero => simp [hd]
  | succ n ih =>
    obtain ⟨i1, i2, i3⟩ := ih (by omega)
    rw [List.range_succ, List.foldl_append]
    simp only [List.foldl_cons, List.foldl_nil]
    generalize (List.range n).foldl (readImageStep W p y) (img, f) = r at i1 i2 i3
    obtain ⟨g, f'⟩ := r
    simp only at i1 i2 i3
    subst i1
    rw [readImageStep_pixel W p y n g _ (by omega) (by simp; omega)]
    refine ⟨by simp; omega, hasDims_setCell g W H n y _ i2, ?_⟩
    intro x' y'
    simp only
    rw [cell_setCell g W H n y _ i2 (by omega) hy, i3]
    by_cases h1 : y' = y
    · by_cases h2 : x' = n
      · subst h2; simp [h1]
      · by_cases h3 : x' < n
        · have h4 : x' < n + 1 := by omega
          simp [h1, h2, h3, h4]
        · have h4 : ¬ x' < n + 1 := by omega
          simp [h1, h2, h3, h4]
    · simp [h1]

theorem readImageRow_spec (W H P : Nat) (y : Nat) (img : Image) (f : FILE)
    (hd : img.hasDims W H) (hy : y < H) (hl : f.pos + 3 * W ≤ f.data.length) :
    (readImageRow W P (img, f) y).2 = ⟨f.data, f.pos + (3 * W + P)⟩
      ∧ (readImageRow W P (img, f) y).1.hasDims W H
      ∧ ∀ x' y', (readImageRow W P (img, f) y).1.cell x' y'
          = if y' = y ∧ x' < W then pixelAt f.data (f.pos + 3 * x') else img.cell x' y' := by
  unfold readImageRow
  have hw : (((W : Nat) : Int) + 1).toNat = W + 1 := by omega
  rw [hw, List.range_succ, List.foldl_append]
  obtain ⟨i1, i2, i3⟩ := readImagePixels W H P y img f hd hy hl W (Nat.le_refl W)
  simp only [List.foldl_cons, List.foldl_nil]
  generalize (List.range W).foldl (readImageStep W P y) (img, f) = r at i1 i2 i3
  obtain ⟨g, f'⟩ := r
  simp only at i1 i2 i3
  subst i1
  have hstep : readImageStep W P y (g, ⟨f.data, f.pos + 3 * W⟩) W
      = (g, ⟨f.data, f.pos + (3 * W + P)⟩) := by
    unfold readImageStep fseek
    have h0 : (0 : Int) ≤ ((f.pos + 3 * W : Nat) : Int) + (P : Int) := by omega
    simp only [lt_self_iff_false, if_false, h0, if_true]
    congr 2
    omega
  rw [hstep]
  exact ⟨rfl, i2, i3⟩

theorem readImageRows (W H P : Nat) (img : Image) (f : FILE) (hd : img.hasDims W H)
    (hl : f.pos + H * (3 * W + P) ≤ f.data.length) (k : Nat) (hk : k ≤ H) :
    ((List.range k).foldl (readImageRow W P) (img, f)).2
        = ⟨f.data, f.pos + k * (3 * W + P)⟩
      ∧ ((List.range k).foldl (readImageRow W P) (img, f)).1.hasDims W H
      ∧ ∀ x' y', ((List.range k).foldl (readImageRow W P) (img, f)).1.cell x' y'
          = if y' < k ∧ x' < W then pixelAt f.data (f.pos + y' * (3 * W + P) + 3 * x')
            else img.cell x' y' := by
  induction k with
  | zero => simp [hd]
  | succ k ih =>
    obtain ⟨i1, i2, i3⟩ := ih (by omega)
    rw [List.range_succ, List.foldl_append]
    simp only [List.foldl_cons, List.foldl_nil]
    generalize (List.range k).foldl (readImageRow W P) (img, f) = r at i1 i2 i3
    obtain ⟨g, f'⟩ := r
    simp only at i1 i2 i3
    subst i1
    have hmul : (k + 1) * (3 * W + P) ≤ H * (3 * W + P) := Nat.mul_le_mul_right _ hk
    have hsucc : (k + 1) * (3 * W + P) = k * (3 * W + P) + (3 * W + P) := Nat.succ_mul _ _
    obtain ⟨j1, j2, j3⟩ := readImageRow_spec W H P k g ⟨f.data, f.pos + k * (3 * W + P)⟩ i2
      (by omega) (by simp only; omega)
    refine ⟨?_, j2, ?_⟩
    · rw [j1]; simp only [FILE.mk.injEq, true_and]; omega
    · intro x' y'
      rw [j3, i3]
      by_cases h1 : y' = k
      · subst h1
        by_cases h2 : x' < W
        · simp [h2]
        · simp [h2]
      · by_cases h3 : y' < k
        · have h4 : y' < k + 1 := by omega
          simp [h1, h3, h4]
        · have h4 : ¬ y' < k + 1 := by omega
          simp [h1, h3, h4]

theorem calculatePaddingSize_range (w : Int) (b : Nat) :
    0 ≤ calculatePaddingSize w b ∧ calculatePaddingSize w b ≤ 3 := by
  rw [calculatePaddingSize_eq]
  omega

/-- On a stream that holds `H` whole rows from the position on, `readImageData`
returns the grid of the stream and leaves the stream after the last row. -/
theorem readImageData_complete (W H P : Nat) (bits : Nat) (heap : Nat → Nat → BitmapColor)
    (f : FILE) (hP : calculatePaddingSize W bits = (P : Int))
    (hl : f.pos + H * (3 * W + P) ≤ f.data.length) :
    readImageData W H bits heap f
      = (imageOfStream f.data f.pos W H (3 * W + P),
          ⟨f.data, f.pos + H * (3 * W + P)⟩) := by
  unfold readImageData
  simp only [Int.toNat_ofNat, hP]
  obtain ⟨i1, i2, i3⟩ := readImageRows W H P (allocateImageMemory W H heap) f
    (hasDims_allocateImageMemory W H heap) hl H (Nat.le_refl H)
  apply Prod.ext
  · apply image_ext_cells _ _ W H i2 (hasDims_tabulate _ W H)
    intro x hx y hy
    rw [i3, cell_tabulate _ W H x y hx hy]
    simp [hx, hy]
  · exact i1

/-! ## Lemmas: `copyImageData` and `writeImageData` -/

theorem copyImageData_steps (W H : Nat) (dest src : Image) (hd : dest.hasDims W H)
    (hs : src.hasDims W H) (n : Nat) (hn : n ≤ W) :
    ∀ i, ((List.range n).foldl
        (fun d i => d.set i (memcpy (d.getD i []) (src.getD i []) H)) dest)[i]?
      = if i < n then src[i]? else dest[i]? := by
  induction n with
  | zero => simp
  | succ n ih =>
    have ih1 := ih (by omega)
    rw [List.range_succ, List.foldl_append]
    simp only [List.foldl_cons, List.foldl_nil]
    generalize (List.range n).foldl
      (fun d i => d.set i (memcpy (d.getD i []) (src.getD i []) H)) dest = r at ih1
    intro i
    have hn1 : n < dest.length := by rw [hd.1]; omega
    have hn2 : n < src.length := by rw [hs.1]; omega
    have hrn : r[n]? = dest[n]? := by rw [ih1 n]; simp
    have hrl : n < r.length := by
      by_contra hc
      rw [List.getElem?_eq_none (by omega), List.getElem?_eq_getElem hn1] at hrn
      exact Option.noConfusion hrn
    have hcopy : memcpy (r.getD n []) (src.getD n []) H = src[n] := by
      unfold memcpy
      rw [List.getD_eq_getElem?_getD, List.getD_eq_getElem?_getD, hrn,
        List.getElem?_eq_getElem hn1, List.getElem?_eq_getElem hn2]
      simp only [Option.getD_some]
      rw [List.take_of_length_le (Nat.le_of_eq (hs.2 _ (List.getElem_mem hn2))),
        List.drop_eq_nil_of_le (Nat.le_of_eq (hd.2 _ (List.getElem_mem hn1))), List.append_nil]
    rw [hcopy, List.getElem?_set, ih1 i]
    by_cases h1 : n = i
    · subst h1
      simp [hrl, List.getElem?_eq_getElem hn2]
    · by_cases h2 : i < n
      · have h3 : i < n + 1 := by omega
        simp [h1, h2, h3]
      · have h3 : ¬ i < n + 1 := by omega
        simp [h1, h2, h3]

/-- A copy between two grids of the same size makes the destination equal to the
source. -/
theorem copyImageData_eq (W H : Nat) (dest src : Image) (hd : dest.hasDims W H)
    (hs : src.hasDims W H) : copyImageData W H dest src = src := by
  unfold copyImageData
  simp only [Int.toNat_ofNat]
  apply List.ext_getElem?
  intro i
  rw [copyImageData_steps W H dest src hd hs W (Nat.le_refl W) i]
  by_cases h : i < W
  · simp [h]
  · simp only [h, if_false]
    rw [List.getElem?_eq_none (by rw [hd.1]; omega), List.getElem?_eq_none (by rw [hs.1]; omega)]

theorem foldl_fwrite {α : Type} (F : α → List Nat) (l : List α) (init : OutputFile) :
    l.foldl (fun f a => fwrite (F a) f) init = init ++ l.flatMap F := by
  induction l generalizing init with
  | nil => simp
  | cons a l ih =>
    simp only [List.foldl_cons, List.flatMap_cons]
    rw [ih]
    simp [fwrite, List.append_assoc]

/-- The bytes that `writeImageData` appends: the rows of the grid, each followed
by the padding. -/
theorem writeImageData_eq (W H P bits : Nat) (img : Image) (out : OutputFile)
    (hP : calculatePaddingSize W (toUInt16 bits) = (P : Int)) :
    writeImageData W H bits img out = out ++ imageRows img W H P := by
  have hr := calculatePaddingSize_range W (toUInt16 bits)
  have hP3 : P ≤ 3 := by omega
  unfold writeImageData imageRows
  simp only [Int.toNat_ofNat, hP]
  have hrow : ∀ (f : OutputFile) (y : Nat),
      writeImageRow W P (List.replicate MAXPADDINGSIZE 0) img f y
        = fwrite (((List.range W).flatMap fun x => (img.cell x y).toBytes)
            ++ List.replicate P 0) f := by
    intro f y
    unfold writeImageRow
    simp only [Int.toNat_ofNat]
    rw [foldl_fwrite (fun x => (img.cell x y).toBytes)]
    have htake : List.take P (List.replicate MAXPADDINGSIZE 0) = List.replicate P 0 := by
      rw [List.take_replicate, MAXPADDINGSIZE, Nat.min_eq_left hP3]
    rw [htake]
    simp [fwrite]
  have hfun : writeImageRow W P (List.replicate MAXPADDINGSIZE 0) img
      = fun f y => fwrite (((List.range W).flatMap fun x => (img.cell x y).toBytes)
            ++ List.replicate P 0) f := by
    funext f y
    exact hrow f y
  rw [hfun]
  exact foldl_fwrite _ _ _

/-! ## Lemmas: the image stage of `main` -/

theorem hasDims_imageOfStream (data : List Nat) (base w h r : Nat) :
    (imageOfStream data base w h r).hasDims w h :=
  hasDims_tabulate _ w h

theorem toUInt32_natCast (n : Nat) (h : n < 4294967296) : toUInt32 (n : Int) = n := by
  unfold toUInt32
  omega

theorem toUInt16_24 : toUInt16 24 = 24 := rfl

/-- The image stage on a stream that holds the whole pixel array, in a run where
every thread is created: each output gets the rows of one transform of the grid of
the stream. -/
theorem mainImages_complete (u : Indeterminate) (W H P : Nat) (fh : BITMAPFILEHEADER)
    (f : FILE) (o1 o2 o3 o4 : OutputFile) (hW : W < 4294967296) (hH : H < 4294967296)
    (hP : calculatePaddingSize W 24 = (P : Int))
    (hl : f.pos + H * (3 * W + P) ≤ f.data.length)
    (hc : ∀ t x, x < W → u.threadCreated t x = true) :
    mainImages u
        { theBitmapFileHeader := fh, theFile := some f, theImageWidth := W,
          theImageHeight := H, theImageBitCount := 24, theInvertedFile := some o1,
          theRedGrayscaleFile := some o2, theGreenGrayscaleFile := some o3,
          theBlueGrayscaleFile := some o4 }
      = some
        { theInvertedFile := o1 ++ imageRows
            (transformed .invert (imageOfStream f.data f.pos W H (3 * W + P))) W H P
          theRedGrayscaleFile := o2 ++ imageRows
            (transformed .grayscaleRed (imageOfStream f.data f.pos W H (3 * W + P))) W H P
          theGreenGrayscaleFile := o3 ++ imageRows
            (transformed .grayscaleGreen (imageOfStream f.data f.pos W H (3 * W + P))) W H P
          theBlueGrayscaleFile := o4 ++ imageRows
            (transformed .grayscaleBlue (imageOfStream f.data f.pos W H (3 * W + P))) W H P } := by
  have hneg : ¬ (((W : Nat) : Int) < 0 ∨ ((H : Nat) : Int) < 0) := by omega
  have hs := hasDims_imageOfStream f.data f.pos W H (3 * W + P)
  unfold mainImages
  simp only [hneg, if_false]
  rw [readImageData_complete W H P 24 _ f hP hl]
  simp only [toUInt32_natCast W hW, toUInt32_natCast H hH]
  rw [copyImageData_eq W H _ _ (hasDims_allocateImageMemory W H _) hs]
  unfold invertImage grayscaleImageRed grayscaleImageGreen grayscaleImageBlue
  rw [runColumnThreads_map _ .invert W H _ hs (hc _)]
  rw [copyImageData_eq W H _ _ (hasDims_map _ W H _ hs) hs]
  rw [runColumnThreads_map _ .grayscaleRed W H _ hs (hc _)]
  rw [copyImageData_eq W H _ _ (hasDims_map _ W H _ hs) hs]
  rw [runColumnThreads_map _ .grayscaleGreen W H _ hs (hc _)]
  rw [copyImageData_eq W H _ _ (hasDims_map _ W H _ hs) hs]
  rw [runColumnThreads_map _ .grayscaleBlue W H _ hs (hc _)]
  simp only [writeImageData_eq W H P 24 _ _ (by rw [toUInt16_24]; exact hP)]
  rfl

theorem getU32_lt (bs : List Nat) (hv : validBytes bs) (off : Nat) :
    getU32 bs off < 4294967296 := by
  have h0 := getU8_lt bs hv off
  have h1 := getU8_lt bs hv (off + 1)
  have h2 := getU8_lt bs hv (off + 2)
  have h3 := getU8_lt bs hv (off + 3)
  unfold getU32
  omega

theorem getI32_lt (bs : List Nat) (hv : validBytes bs) (off : Nat) :
    getI32 bs off < 2147483648 := by
  have h := getU32_lt bs hv off
  unfold getI32
  split <;> omega

theorem calculatePaddingSize_paddingOf (w : Nat) :
    calculatePaddingSize w 24 = ((paddingOf w : Nat) : Int) := by
  have h := calculatePaddingSize_range w 24
  unfold paddingOf
  omega

/-- The program on a valid stream whose `image_offset` is 54, 122 or 138, in a run
where every thread is created: each output is the header bytes of the source
followed by the rows of one transform of the grid of the stream. -/
theorem main_valid (u : Indeterminate) (data : List Nat) (hv : ValidBmp24 data)
    (ho : getU32 data 10 ≠ 26)
    (hc : ∀ t x, x < bmpWidth data → u.threadCreated t x = true) :
    main u data = some
      { theInvertedFile := slice data 0 (getU32 data 10) ++ imageRows
          (transformed .invert (imageOfStream data (getU32 data 10) (bmpWidth data)
            (bmpHeight data) (rowSize (bmpWidth data))))
          (bmpWidth data) (bmpHeight data) (paddingOf (bmpWidth data))
        theRedGrayscaleFile := slice data 0 (getU32 data 10) ++ imageRows
          (transformed .grayscaleRed (imageOfStream data (getU32 data 10) (bmpWidth data)
            (bmpHeight data) (rowSize (bmpWidth data))))
          (bmpWidth data) (bmpHeight data) (paddingOf (bmpWidth data))
        theGreenGrayscaleFile := slice data 0 (getU32 data 10) ++ imageRows
          (transformed .grayscaleGreen (imageOfStream data (getU32 data 10) (bmpWidth data)
            (bmpHeight data) (rowSize (bmpWidth data))))
          (bmpWidth data) (bmpHeight data) (paddingOf (bmpWidth data))
        theBlueGrayscaleFile := slice data 0 (getU32 data 10) ++ imageRows
          (transformed .grayscaleBlue (imageOfStream data (getU32 data 10) (bmpWidth data)
            (bmpHeight data) (rowSize (bmpWidth data))))
          (bmpWidth data) (bmpHeight data) (paddingOf (bmpWidth data)) } := by
  obtain ⟨hb, hoff, hw, hh, hbits, hlen⟩ := hv
  have hoff3 : getU32 data 10 = 54 ∨ getU32 data 10 = 122 ∨ getU32 data 10 = 138 := by
    rcases hoff with h | h | h | h
    · exact absurd h ho
    · exact Or.inl h
    · exact Or.inr (Or.inl h)
    · exact Or.inr (Or.inr h)
  have hwl := getI32_lt data hb 18
  have hhl := getI32_lt data hb 22
  have hW : getI32 data 18 = ((bmpWidth data : Nat) : Int) := by unfold bmpWidth; omega
  have hH : getI32 data 22 = ((bmpHeight data : Nat) : Int) := by unfold bmpHeight; omega
  unfold main
  rw [mainHeaders_valid u data hb hoff3 (by omega), hW, hH, hbits]
  exact mainImages_complete u (bmpWidth data) (bmpHeight data) (paddingOf (bmpWidth data)) _
    ⟨data, getU32 data 10⟩ _ _ _ _ (by unfold bmpWidth; omega) (by unfold bmpHeight; omega)
    (calculatePaddingSize_paddingOf _) hlen hc

/-! ## Lemmas: the bytes of the written rows -/

theorem flatMap_congr_mem {α β : Type} (l : List α) (f g : α → List β)
    (h : ∀ a ∈ l, f a = g a) : l.flatMap f = l.flatMap g := by
  unfold List.flatMap
  rw [List.map_congr_left h]

theorem toBytes_pixelAt (data : List Nat) (k : Nat) (h : k + 3 ≤ data.length) :
    (pixelAt data k).toBytes = slice data k 3 := by
  unfold slice pixelAt BitmapColor.toBytes
  apply List.ext_getElem
  · simp; omega
  · intro i h1 h2
    simp at h1
    have hi : i = 0 ∨ i = 1 ∨ i = 2 := by omega
    rcases hi with rfl | rfl | rfl <;>
      simp [getU8_eq_getElem, List.getElem_take, List.getElem_drop, (by omega : k < data.length),
        (by omega : k + 1 < data.length), (by omega : k + 2 < data.length)]

/-- The rows of a transform of the grid of the stream, pixel by pixel. -/
theorem imageRows_transformed (t : IMAGE_PROCESSING_TYPE) (data : List Nat)
    (base W H R P : Nat) :
    imageRows (transformed t (imageOfStream data base W H R)) W H P
      = (List.range H).flatMap fun y =>
          ((List.range W).flatMap fun x =>
            (processPixel t (pixelAt data (base + y * R + 3 * x))).toBytes)
          ++ List.replicate P 0 := by
  unfold imageRows
  apply flatMap_congr_mem
  intro y hy
  congr 1
  apply flatMap_congr_mem
  intro x hx
  have hx1 : x < W := List.mem_range.1 hx
  have hy1 : y < H := List.mem_range.1 hy
  unfold transformed
  rw [cell_map _ W H _ (hasDims_imageOfStream data base W H R) x y hx1 hy1]
  unfold imageOfStream
  rw [cell_tabulate _ W H x y hx1 hy1]

theorem imageRows_imageOfStream (data : List Nat) (base W H R P : Nat) :
    imageRows (imageOfStream data base W H R) W H P
      = (List.range H).flatMap fun y =>
          ((List.range W).flatMap fun x => (pixelAt data (base + y * R + 3 * x)).toBytes)
          ++ List.replicate P 0 := by
  unfold imageRows
  apply flatMap_congr_mem
  intro y hy
  congr 1
  apply flatMap_congr_mem
  intro x hx
  unfold imageOfStream
  rw [cell_tabulate _ W H x y (List.mem_range.1 hx) (List.mem_range.1 hy)]

/-- The pixels of one row, written one after the other, are the bytes of the row
in the stream. -/
theorem rowPixels_eq_slice (data : List Nat) (base W : Nat) (h : base + 3 * W ≤ data.length) :
    ((List.range W).flatMap fun x => (pixelAt data (base + 3 * x)).toBytes)
      = slice data base (3 * W) := by
  induction W with
  | zero => simp [slice]
  | succ n ih =>
    rw [List.range_succ, List.flatMap_append, ih (by omega)]
    simp only [List.flatMap_cons, List.flatMap_nil, List.append_nil]
    rw [toBytes_pixelAt data _ (by omega), slice_append data base (base + 3 * n) (3 * n) 3 rfl]
    congr 1

theorem toBytes_invert (p : BitmapColor) (hp : p.valid) :
    (processPixel .invert p).toBytes = p.toBytes.map fun c => 255 - c := by
  obtain ⟨b, g, r⟩ := p
  obtain ⟨hb, hg, hr⟩ := hp
  simp only [processPixel_invert, BitmapColor.toBytes, List.map_cons, List.map_nil,
    List.cons.injEq, and_true, toUInt8, UINT8_MAX] at *
  omega

theorem valid_pixelAt (data : List Nat) (hv : validBytes data) (k : Nat) :
    (pixelAt data k).valid :=
  ⟨getU8_lt data hv k, getU8_lt data hv (k + 1), getU8_lt data hv (k + 2)⟩

theorem rowPixels_invert (data : List Nat) (hv : validBytes data) (base W : Nat)
    (h : base + 3 * W ≤ data.length) :
    ((List.range W).flatMap fun x => (processPixel .invert (pixelAt data (base + 3 * x))).toBytes)
      = (slice data base (3 * W)).map fun c => 255 - c := by
  rw [← rowPixels_eq_slice data base W h, List.map_flatMap]
  apply flatMap_congr_mem
  intro x _
  exact toBytes_invert _ (valid_pixelAt data hv _)

theorem row_le (base y H R n : Nat) (hy : y < H) (hn : n ≤ R) :
    base + y * R + n ≤ base + H * R := by
  have h1 : (y + 1) * R ≤ H * R := Nat.mul_le_mul_right _ hy
  have h2 : (y + 1) * R = y * R + R := Nat.succ_mul _ _
  omega

/-! ## Lemmas: an unrecognised offset -/

/-- The header stage when the `image_offset` that was read is none of the four
constants: no case of the `switch` is taken. -/
theorem mainHeaders_unrecognised (u : Indeterminate) (data : List Nat)
    (h26 : (readBitmapFileHeader u.theBitmapFileHeader (some ⟨data, 0⟩)).1.image_offset ≠ 26)
    (h54 : (readBitmapFileHeader u.theBitmapFileHeader (some ⟨data, 0⟩)).1.image_offset ≠ 54)
    (h122 : (readBitmapFileHeader u.theBitmapFileHeader (some ⟨data, 0⟩)).1.image_offset ≠ 122)
    (h138 : (readBitmapFileHeader u.theBitmapFileHeader (some ⟨data, 0⟩)).1.image_offset ≠ 138) :
    mainHeaders u data =
      { theBitmapFileHeader := (readBitmapFileHeader u.theBitmapFileHeader (some ⟨data, 0⟩)).1
        theFile := (readBitmapFileHeader u.theBitmapFileHeader (some ⟨data, 0⟩)).2
        theImageWidth := 0
        theImageHeight := 0
        theImageBitCount := 0
        theInvertedFile := some []
        theRedGrayscaleFile := some []
        theGreenGrayscaleFile := some []
        theBlueGrayscaleFile := some [] } := by
  unfold mainHeaders
  simp only [BITMAPCOREHEADER_IMAGE_OFFSET, BITMAPINFOHEADER_IMAGE_OFFSET,
    BITMAPV4HEADER_IMAGE_OFFSET, BITMAPV5HEADER_IMAGE_OFFSET, h26, h54, h122, h138, if_false]

/-- The image stage on a zero-size image writes nothing. -/
theorem mainImages_zero (u : Indeterminate) (fh : BITMAPFILEHEADER) (f : FILE)
    (o1 o2 o3 o4 : OutputFile) :
    mainImages u
        { theBitmapFileHeader := fh, theFile := some f, theImageWidth := 0,
          theImageHeight := 0, theImageBitCount := 0, theInvertedFile := some o1,
          theRedGrayscaleFile := some o2, theGreenGrayscaleFile := some o3,
          theBlueGrayscaleFile := some o4 }
      = some ⟨o1, o2, o3, o4⟩ := by
  simp [mainImages, writeImageData]

/-- The program on a stream of 14 bytes or more whose `image_offset` is none of
the four constants: it returns, and the four outputs are empty. -/
theorem main_unrecognised (u : Indeterminate) (data : List Nat) (hl : 14 ≤ data.length)
    (h26 : getU32 data 10 ≠ 26) (h54 : getU32 data 10 ≠ 54) (h122 : getU32 data 10 ≠ 122)
    (h138 : getU32 data 10 ≠ 138) :
    main u data = some ⟨[], [], [], []⟩ := by
  have hr := readBitmapFileHeader_complete u.theBitmapFileHeader data hl
  unfold main
  rw [mainHeaders_unrecognised u data (by rw [hr, image_offset_ofBytes]; exact h26)
    (by rw [hr, image_offset_ofBytes]; exact h54)
    (by rw [hr, image_offset_ofBytes]; exact h122)
    (by rw [hr, image_offset_ofBytes]; exact h138), hr]
  exact mainImages_zero u _ _ _ _ _ _

/-! ## Lemmas: reading and writing back -/

/-- The composition of the readers and the writers on a valid stream whose
`image_offset` is 54, 122 or 138. -/
theorem readThenWrite_valid (u : Indeterminate) (data : List Nat) (hv : ValidBmp24 data)
    (ho : getU32 data 10 ≠ 26) :
    readThenWrite u data = some (slice data 0 (getU32 data 10) ++ imageRows
      (imageOfStream data (getU32 data 10) (bmpWidth data) (bmpHeight data)
        (rowSize (bmpWidth data)))
      (bmpWidth data) (bmpHeight data) (paddingOf (bmpWidth data))) := by
  obtain ⟨hb, hoff, hw, hh, hbits, hlen⟩ := hv
  have hoff3 : getU32 data 10 = 54 ∨ getU32 data 10 = 122 ∨ getU32 data 10 = 138 := by
    rcases hoff with h | h | h | h
    · exact absurd h ho
    · exact Or.inl h
    · exact Or.inr (Or.inl h)
    · exact Or.inr (Or.inr h)
  have hW : getI32 data 18 = ((bmpWidth data : Nat) : Int) := by unfold bmpWidth; omega
  have hH : getI32 data 22 = ((bmpHeight data : Nat) : Int) := by unfold bmpHeight; omega
  unfold readThenWrite
  rw [mainHeaders_valid u data hb hoff3 (by omega), hW, hH, hbits]
  simp only
  rw [readImageData_complete (bmpWidth data) (bmpHeight data) (paddingOf (bmpWidth data)) 24 _
    ⟨data, getU32 data 10⟩ (calculatePaddingSize_paddingOf _) hlen]
  rw [writeImageData_eq (bmpWidth data) (bmpHeight data) (paddingOf (bmpWidth data)) 24 _ _
    (by rw [toUInt16_24]; exact calculatePaddingSize_paddingOf _)]
  rfl

theorem slice_eq_replicate_zero (data : List Nat) (k P : Nat) (hl : k + P ≤ data.length)
    (hz : ∀ i, i < P → getU8 data (k + i) = 0) : slice data k P = List.replicate P 0 := by
  apply List.ext_getElem
  · rw [length_slice data k P hl, List.length_replicate]
  · intro i h1 h2
    rw [length_slice data k P hl] at h1
    have e := hz i h1
    rw [getU8_eq_getElem data (k + i) (by omega)] at e
    simp [slice, List.getElem_take, List.getElem_drop, e]

/-- The rows of the stream with their padding written as zero bytes. -/
theorem rows_eq_slices (data : List Nat) (off W H P : Nat)
    (hl : off + H * (3 * W + P) ≤ data.length) :
    imageRows (imageOfStream data off W H (3 * W + P)) W H P
      = (List.range H).flatMap fun y =>
          slice data (off + y * (3 * W + P)) (3 * W) ++ List.replicate P 0 := by
  rw [imageRows_imageOfStream]
  apply flatMap_congr_mem
  intro y hy
  have h1 := row_le off y H (3 * W + P) (3 * W) (List.mem_range.1 hy) (by omega)
  rw [rowPixels_eq_slice data (off + y * (3 * W + P)) W (by omega)]

/-- When the padding bytes of the stream are zero, the rows with zero padding are
the pixel array of the stream. -/
theorem rows_zero_padding (data : List Nat) (off W P : Nat) (H : Nat)
    (hl : off + H * (3 * W + P) ≤ data.length)
    (hz : ∀ y, y < H → ∀ i, i < P → getU8 data (off + y * (3 * W + P) + 3 * W + i) = 0) :
    ((List.range H).flatMap fun y =>
        slice data (off + y * (3 * W + P)) (3 * W) ++ List.replicate P 0)
      = slice data off (H * (3 * W + P)) := by
  induction H with
  | zero => simp [slice]
  | succ n ih =>
    have hs : (n + 1) * (3 * W + P) = n * (3 * W + P) + (3 * W + P) := Nat.succ_mul _ _
    rw [List.range_succ, List.flatMap_append, ih (by omega) (fun y hy => hz y (by omega))]
    simp only [List.flatMap_cons, List.flatMap_nil, List.append_nil]
    rw [← slice_eq_replicate_zero data (off + n * (3 * W + P) + 3 * W) P (by omega)
      (hz n (by omega))]
    rw [slice_append data _ (off + n * (3 * W + P) + 3 * W) (3 * W) P rfl,
      slice_append data off (off + n * (3 * W + P)) (n * (3 * W + P)) (3 * W + P) rfl, hs]

theorem slice_zero (data : List Nat) (n : Nat) : slice data 0 n = data.take n := by
  simp [slice]

/-- On a valid stream whose `image_offset` is 54, 122 or 138, in a run where every
thread is created, the invert output is
the header bytes of the source followed by the inverted pixel bytes of each row
and the zero padding. -/
theorem main_invert_valid (u : Indeterminate) (data : List Nat) (hv : ValidBmp24 data)
    (ho : getU32 data 10 ≠ 26)
    (hc : ∀ t x, x < bmpWidth data → u.threadCreated t x = true) :
    (main u data).map (fun o => o.theInvertedFile) = some (invertExpected data) := by
  have hlen := hv.2.2.2.2.2
  rw [main_valid u data hv ho hc]
  simp only [Option.map_some']
  unfold invertExpected
  rw [slice_zero, imageRows_transformed]
  congr 2
  apply flatMap_congr_mem
  intro y hy
  have h1 := row_le (getU32 data 10) y (bmpHeight data) (rowSize (bmpWidth data))
    (3 * bmpWidth data) (List.mem_range.1 hy) (by unfold rowSize; omega)
  rw [rowPixels_invert data hv.1 (getU32 data 10 + y * rowSize (bmpWidth data)) (bmpWidth data)
    (by omega)]

/-! ## Lemmas: a stream with no byte left -/

theorem fread_exhausted (obj : List Nat) (f : FILE) (h : f.data.length ≤ f.pos) :
    fread obj f = (obj, f) := by
  unfold fread
  simp [List.drop_eq_nil_of_le h]

theorem ofBytes_toBytes_color (c : BitmapColor) : BitmapColor.ofBytes c.toBytes = c := rfl

theorem setCell_cell (g : Image) (x y : Nat) : g.setCell x y (g.cell x y) = g := by
  unfold Image.setCell Image.cell
  apply List.ext_getElem?
  intro i
  rw [List.getElem?_set]
  by_cases h1 : x = i
  · subst h1
    by_cases h2 : x < g.length
    · simp only [h2, if_true, List.getD_eq_getElem?_getD, List.getElem?_eq_getElem h2,
        Option.getD_some, Option.some.injEq]
      apply List.ext_getElem?
      intro j
      rw [List.getElem?_set]
      by_cases h3 : y = j
      · subst h3
        by_cases h4 : y < (g[x]).length
        · simp [h4, List.getElem?_eq_getElem h4]
        · simp [h4]
          omega
      · simp [h3]
    · simp [h2]
      omega
  · simp [h1]

theorem readImageStep_exhausted (w p : Int) (hp : 0 ≤ p) (y x : Nat) (g : Image) (f : FILE)
    (h : f.data.length ≤ f.pos) :
    (readImageStep w p y (g, f) x).1 = g
      ∧ (readImageStep w p y (g, f) x).2.data = f.data
      ∧ f.data.length ≤ (readImageStep w p y (g, f) x).2.pos := by
  unfold readImageStep
  split
  · simp only [fread_exhausted _ f h, ofBytes_toBytes_color, setCell_cell]
    exact ⟨trivial, trivial, h⟩
  · unfold fseek
    have h0 : (0 : Int) ≤ (f.pos : Int) + p := by omega
    simp only [h0, if_true]
    refine ⟨trivial, trivial, ?_⟩
    omega

theorem foldl_exhausted (step : Image × FILE → Nat → Image × FILE)
    (hstep : ∀ g f x, f.data.length ≤ f.pos →
      (step (g, f) x).1 = g ∧ (step (g, f) x).2.data = f.data
        ∧ f.data.length ≤ (step (g, f) x).2.pos)
    (l : List Nat) (g : Image) (f : FILE) (h : f.data.length ≤ f.pos) :
    (l.foldl step (g, f)).1 = g ∧ (l.foldl step (g, f)).2.data = f.data
      ∧ f.data.length ≤ (l.foldl step (g, f)).2.pos := by
  induction l generalizing f with
  | nil => exact ⟨rfl, rfl, h⟩
  | cons a l ih =>
    simp only [List.foldl_cons]
    obtain ⟨s1, s2, s3⟩ := hstep g f a h
    have e : step (g, f) a = (g, (step (g, f) a).2) := Prod.ext s1 rfl
    rw [e]
    obtain ⟨i1, i2, i3⟩ := ih (step (g, f) a).2 (by rw [s2]; exact s3)
    exact ⟨i1, by rw [i2, s2], by rw [← s2]; exact i3⟩

/-- On a stream that has no byte left `readImageData` returns the grid as `malloc`
gave it: no cell is assigned. -/
theorem readImageData_exhausted (w h : Int) (bits : Nat) (heap : Nat → Nat → BitmapColor)
    (f : FILE) (hf : f.data.length ≤ f.pos) :
    (readImageData w h bits heap f).1 = allocateImageMemory w h heap := by
  unfold readImageData
  have hp := (calculatePaddingSize_range w bits).1
  refine (foldl_exhausted _ ?_ _ _ f hf).1
  intro g f' y hf'
  unfold readImageRow
  exact foldl_exhausted _ (fun g2 f2 x h2 => readImageStep_exhausted w _ hp y x g2 f2 h2) _ g f' hf'

theorem wrap32_of_range (n : Int) (h0 : -2147483648 ≤ n) (h1 : n < 2147483648) :
    wrap32 n = n := by
  unfold wrap32
  omega

theorem allocate_one_one (heap : Nat → Nat → BitmapColor) :
    allocateImageMemory 1 1 heap = [[heap 0 0]] := rfl

/-! ## Lemmas: the layout of the written stream -/

theorem slice_append_left (A B : List Nat) (a n : Nat) (h : a + n ≤ A.length) :
    slice (A ++ B) a n = slice A a n := by
  unfold slice
  rw [List.drop_append_of_le_length (by omega), List.take_append_of_le_length (by simp; omega)]

theorem slice_append_right (A B : List Nat) (a n : Nat) :
    slice (A ++ B) (A.length + a) n = slice B a n := by
  unfold slice
  rw [List.drop_append]

theorem slice_slice (l : List Nat) (b m a n : Nat) (h : a + n ≤ m) :
    slice (slice l b m) a n = slice l (b + a) n := by
  unfold slice
  rw [List.drop_take, List.take_take, List.drop_drop, Nat.min_eq_left (by omega)]

theorem slice_self (l : List Nat) : slice l 0 l.length = l := slice_all l l.length rfl

theorem length_flatMap_uniform {α : Type} (F : α → List Nat) (k : Nat) (l : List α)
    (h : ∀ a ∈ l, (F a).length = k) : (l.flatMap F).length = l.length * k := by
  induction l with
  | nil => simp
  | cons a l ih =>
    rw [List.flatMap_cons, List.length_append, h a (List.mem_cons_self a l),
      ih (fun b hb => h b (List.mem_cons_of_mem a hb)), List.length_cons, Nat.succ_mul]
    omega

/-- In a concatenation of `n` blocks of `k` bytes the block `j` is found at offset
`j * k`. -/
theorem slice_flatMap_uniform (F : Nat → List Nat) (k n : Nat)
    (h : ∀ i, i < n → (F i).length = k) (j : Nat) (hj : j < n) :
    slice ((List.range n).flatMap F) (j * k) k = F j := by
  induction n with
  | zero => omega
  | succ n ih =>
    have hlen : ((List.range n).flatMap F).length = n * k := by
      rw [length_flatMap_uniform F k _ (fun a ha => h a (by have := List.mem_range.1 ha; omega)),
        List.length_range]
    rw [List.range_succ, List.flatMap_append]
    simp only [List.flatMap_cons, List.flatMap_nil, List.append_nil]
    by_cases hjn : j < n
    · have hmul : (j + 1) * k ≤ n * k := Nat.mul_le_mul_right _ hjn
      rw [Nat.succ_mul] at hmul
      rw [slice_append_left _ _ _ _ (by rw [hlen]; exact hmul)]
      exact ih (fun i hi => h i (by omega)) hjn
    · have hjeq : j = n := by omega
      subst hjeq
      rw [← hlen]
      have e := slice_append_right ((List.range j).flatMap F) (F j) 0 k
      rw [Nat.add_zero] at e
      rw [e, ← h j (by omega)]
      exact slice_self _

theorem length_rowBytes (g : Image) (W P y : Nat) :
    (((List.range W).flatMap fun x => (g.cell x y).toBytes) ++ List.replicate P 0).length
      = 3 * W + P := by
  rw [List.length_append, List.length_replicate,
    length_flatMap_uniform (fun x => (g.cell x y).toBytes) 3 _ (fun _ _ => rfl),
    List.length_range]
  omega

theorem length_imageRows (g : Image) (W H P : Nat) :
    (imageRows g W H P).length = H * (3 * W + P) := by
  unfold imageRows
  rw [length_flatMap_uniform _ (3 * W + P) _ (fun y _ => length_rowBytes g W P y),
    List.length_range]

/-- The three bytes at offset `y * (3 * W + P) + 3 * x` of the rows of a grid are
the pixel `[x][y]`. -/
theorem pixelAt_imageRows (g : Image) (W H P x y : Nat) (hx : x < W) (hy : y < H) :
    pixelAt (imageRows g W H P) (y * (3 * W + P) + 3 * x) = g.cell x y := by
  rw [← ofBytes_slice, ← slice_slice (imageRows g W H P) (y * (3 * W + P)) (3 * W + P) (3 * x) 3
    (by omega)]
  unfold imageRows
  rw [slice_flatMap_uniform _ (3 * W + P) H (fun i _ => length_rowBytes g W P i) y hy]
  have hl : ((List.range W).flatMap fun x => (g.cell x y).toBytes).length = 3 * W := by
    rw [length_flatMap_uniform (fun x => (g.cell x y).toBytes) 3 _ (fun _ _ => rfl),
      List.length_range]
    omega
  rw [slice_append_left _ _ _ _ (by rw [hl]; omega), Nat.mul_comm 3 x,
    slice_flatMap_uniform (fun x => (g.cell x y).toBytes) 3 W (fun _ _ => rfl) x hx]
  rfl

theorem getU8_append_right (A B : List Nat) (i : Nat) :
    getU8 (A ++ B) (A.length + i) = getU8 B i := by
  unfold getU8
  simp [List.getD_eq_getElem?_getD, List.getElem?_append_right]

theorem pixelAt_append_right (A B : List Nat) (k : Nat) :
    pixelAt (A ++ B) (A.length + k) = pixelAt B k := by
  unfold pixelAt
  rw [getU8_append_right, Nat.add_assoc, getU8_append_right, Nat.add_assoc, getU8_append_right]

theorem rowSize_mod_four (w : Nat) :
    (3 * w + (calculatePaddingSize w 24).toNat) % 4 = 0 := by
  have h24 := calculatePaddingSize_24 (w : Int)
  have hP := calculatePaddingSize_paddingOf w
  have h1 : (3 * (w : Int) + calculatePaddingSize w 24) % 4 = 0 := by
    rw [h24]; omega
  show (3 * w + paddingOf w) % 4 = 0
  rw [hP] at h1
  generalize paddingOf w = n at h1
  omega

/-! ## Lemmas: column tasks -/

theorem foldl_filter_if {α β : Type} (c : α → Bool) (f : β → α → β) (l : List α) (b : β) :
    (l.filter c).foldl f b = l.foldl (fun acc a => if c a = true then f acc a else acc) b := by
  induction l generalizing b with
  | nil => rfl
  | cons a l ih =>
    by_cases ha : c a = true
    · rw [List.filter_cons_of_pos ha, List.foldl_cons, List.foldl_cons, if_pos ha, ih]
    · rw [List.filter_cons_of_neg ha, List.foldl_cons, if_neg ha, ih]

/-- A transform is the tasks of the columns whose thread was created, applied in
the order of creation. -/
theorem runColumnThreads_foldl (c : Nat → Bool) (t : IMAGE_PROCESSING_TYPE) (w h : Nat)
    (g : Image) :
    runColumnThreads c t w h g = ((List.range w).filter c).foldl (columnTask t h) g := by
  rw [foldl_filter_if]
  rfl

theorem columnTask_getD_ne (t : IMAGE_PROCESSING_TYPE) (h : Nat) (g : Image) (x x' : Nat)
    (hne : x' ≠ x) : (columnTask t h g x).getD x' [] = g.getD x' [] := by
  unfold columnTask
  simp only [List.getD_eq_getElem?_getD]
  rw [List.getElem?_set_ne (fun e => hne e.symm)]

theorem columnTask_comm (t : IMAGE_PROCESSING_TYPE) (h : Nat) (g : Image) (x y : Nat) :
    columnTask t h (columnTask t h g x) y = columnTask t h (columnTask t h g y) x := by
  by_cases hxy : x = y
  · subst hxy; rfl
  · rw [columnTask, columnTask_getD_ne t h g x y (fun e => hxy e.symm)]
    conv_rhs => rw [columnTask, columnTask_getD_ne t h g y x hxy]
    unfold columnTask
    exact List.set_comm _ _ g hxy

theorem imageProcessingThread_frame (t : IMAGE_PROCESSING_TYPE) (h : Nat)
    (col : List BitmapColor) :
    (imageProcessingThread ⟨t, h, col⟩).length = col.length
      ∧ (imageProcessingThread ⟨t, h, col⟩).drop h = col.drop h := by
  rw [imageProcessingThread_eq]
  refine ⟨?_, ?_⟩
  · rw [List.length_append, List.length_map, List.length_take, List.length_drop]
    omega
  · by_cases hh : h ≤ col.length
    · rw [List.drop_append_of_le_length (by simp; omega)]
      rw [List.drop_eq_nil_of_le (by simp), List.nil_append]
    · rw [List.drop_eq_nil_of_le (by simp; omega), List.drop_eq_nil_of_le (by omega)]

theorem columnTask_frame (t : IMAGE_PROCESSING_TYPE) (h : Nat) (g : Image) (x : Nat) :
    (columnTask t h g x).length = g.length
      ∧ ((columnTask t h g x).getD x []).length = (g.getD x []).length
      ∧ ((columnTask t h g x).getD x []).drop h = (g.getD x []).drop h := by
  unfold columnTask
  refine ⟨List.length_set _ _ _, ?_⟩
  by_cases hx : x < g.length
  · have e : (g.set x (imageProcessingThread ⟨t, h, g.getD x []⟩)).getD x []
        = imageProcessingThread ⟨t, h, g.getD x []⟩ := by
      simp [List.getD_eq_getElem?_getD, List.getElem?_set, hx]
    rw [e]
    exact imageProcessingThread_frame t h _
  · rw [List.set_eq_of_length_le (by omega)]
    exact ⟨rfl, rfl⟩

/-! ## Lemmas: geometry that the codec does not support -/

theorem foldl_id_step {α β : Type} (step : α → β → α) (hstep : ∀ s b, step s b = s)
    (l : List β) (s : α) : l.foldl step s = s := by
  induction l with
  | nil => rfl
  | cons b l ih => rw [List.foldl_cons, hstep, ih]

/-- With a negative width or height `readImageData` reads nothing and returns the
grid as it was allocated, which has no cell. -/
theorem readImageData_negative (w h : Int) (bits : Nat) (heap : Nat → Nat → BitmapColor)
    (f : FILE) (hneg : w < 0 ∨ h < 0) :
    readImageData w h bits heap f = (allocateImageMemory w h heap, f)
      ∧ ∀ col ∈ allocateImageMemory w h heap, col = [] := by
  refine ⟨?_, ?_⟩
  · unfold readImageData
    rcases hneg with hw | hh
    · apply foldl_id_step
      intro s y
      unfold readImageRow
      have e : (w + 1).toNat = 0 := by omega
      rw [e]
      rfl
    · have e : h.toNat = 0 := by omega
      rw [e]
      rfl
  · intro col hc
    unfold allocateImageMemory at hc
    rcases hneg with hw | hh
    · have e : w.toNat = 0 := by omega
      rw [e] at hc
      simp at hc
    · have e : h.toNat = 0 := by omega
      rw [e] at hc
      obtain ⟨x, _, rfl⟩ := List.mem_map.1 hc
      rfl

theorem calculatePaddingSize_toNat (w : Int) (b : Nat) :
    calculatePaddingSize w b = (((calculatePaddingSize w b).toNat : Nat) : Int) := by
  have h := (calculatePaddingSize_range w b).1
  generalize calculatePaddingSize w b = p at h
  omega

/-! ## Lemmas: the image stage on any stream -/

theorem foldl_invariant {α β : Type} (P : α → Prop) (step : α → β → α)
    (hstep : ∀ s b, P s → P (step s b)) (l : List β) (s : α) (hs : P s) :
    P (l.foldl step s) := by
  induction l generalizing s with
  | nil => exact hs
  | cons b l ih => exact ih (step s b) (hstep s b hs)

theorem hasDims_readImageStep (w p : Int) (W H y x : Nat) (st : Image × FILE)
    (hd : st.1.hasDims W H) : (readImageStep w p y st x).1.hasDims W H := by
  unfold readImageStep
  split
  · exact hasDims_setCell _ W H x y _ hd
  · exact hd

/-- Whatever the stream holds, the grid that `readImageData` returns has the size
that was asked for. -/
theorem hasDims_readImageData (W H bits : Nat) (heap : Nat → Nat → BitmapColor) (f : FILE) :
    (readImageData W H bits heap f).1.hasDims W H := by
  unfold readImageData
  apply foldl_invariant (fun st : Image × FILE => st.1.hasDims W H)
  · intro st y hst
    unfold readImageRow
    exact foldl_invariant (fun st : Image × FILE => st.1.hasDims W H) _
      (fun s x hs => hasDims_readImageStep _ _ W H y x s hs) _ st hst
  · exact hasDims_allocateImageMemory W H heap

theorem hasDims_runColumnThreads (c : Nat → Bool) (t : IMAGE_PROCESSING_TYPE) (W H : Nat)
    (g : Image) (hd : g.hasDims W H) : (runColumnThreads c t W H g).hasDims W H := by
  refine ⟨by rw [runColumnThreads_length]; exact hd.1, ?_⟩
  intro col hcol
  obtain ⟨x, hx, rfl⟩ := List.getElem_of_mem hcol
  have hx1 : x < g.length := by rw [runColumnThreads_length] at hx; exact hx
  have h1 := runColumnThreads_getElem? c t W H g x
  rw [List.getElem?_eq_getElem hx, List.getElem?_eq_getElem hx1] at h1
  by_cases hc : x < W ∧ c x = true
  · rw [if_pos hc] at h1
    simp only [Option.map_some', Option.some.injEq] at h1
    rw [h1, imageProcessingThread_length]
    exact hd.2 _ (List.getElem_mem hx1)
  · rw [if_neg hc] at h1
    simp only [Option.some.injEq] at h1
    rw [h1]
    exact hd.2 _ (List.getElem_mem hx1)

/-- The cells after a transform, on a grid of the stated size: the pixel function
has been applied in the columns whose thread was created, and only there. -/
theorem cell_runColumnThreads (c : Nat → Bool) (t : IMAGE_PROCESSING_TYPE) (w h : Nat)
    (g : Image) (hd : g.hasDims w h) (x y : Nat) (hx : x < w) (hy : y < h) :
    (runColumnThreads c t w h g).cell x y
      = if c x = true then processPixel t (g.cell x y) else g.cell x y := by
  have hx1 : x < g.length := by rw [hd.1]; exact hx
  have hy1 : y < (g[x]).length := by rw [hd.2 _ (List.getElem_mem hx1)]; exact hy
  have h1 := runColumnThreads_getElem? c t w h g x
  have h2 : g[x]? = some g[x] := List.getElem?_eq_getElem hx1
  simp only [Image.cell, List.getD_eq_getElem?_getD, h1, h2]
  by_cases hc : c x = true
  · rw [if_pos ⟨hx, hc⟩, if_pos hc]
    simp only [Option.map_some', Option.getD_some]
    rw [imageProcessingThread_full t h _ (hd.2 _ (List.getElem_mem hx1))]
    simp [List.getElem?_eq_getElem hy1]
  · rw [if_neg (fun e => hc e.2), if_neg hc]

/-- The image stage for a width and a height that are not negative, on any stream:
each output gets what `writeImageData` appends for one transform of the grid that
was read. -/
theorem mainImages_general (u : Indeterminate) (W H bits : Nat) (fh : BITMAPFILEHEADER)
    (f : FILE) (o1 o2 o3 o4 : OutputFile) (hW : W < 4294967296) (hH : H < 4294967296) :
    mainImages u
        { theBitmapFileHeader := fh, theFile := some f, theImageWidth := W,
          theImageHeight := H, theImageBitCount := bits, theInvertedFile := some o1,
          theRedGrayscaleFile := some o2, theGreenGrayscaleFile := some o3,
          theBlueGrayscaleFile := some o4 }
      = some
        { theInvertedFile := writeImageData W H bits
            (invertImage (u.threadCreated .invert) W H
              (readImageData W H bits u.theImageData f).1) o1
          theRedGrayscaleFile := writeImageData W H bits
            (grayscaleImageRed (u.threadCreated .grayscaleRed) W H
              (readImageData W H bits u.theImageData f).1) o2
          theGreenGrayscaleFile := writeImageData W H bits
            (grayscaleImageGreen (u.threadCreated .grayscaleGreen) W H
              (readImageData W H bits u.theImageData f).1) o3
          theBlueGrayscaleFile := writeImageData W H bits
            (grayscaleImageBlue (u.threadCreated .grayscaleBlue) W H
              (readImageData W H bits u.theImageData f).1) o4 } := by
  have hneg : ¬ (((W : Nat) : Int) < 0 ∨ ((H : Nat) : Int) < 0) := by omega
  have hs := hasDims_readImageData W H bits u.theImageData f
  unfold mainImages
  simp only [hneg, if_false, toUInt32_natCast W hW, toUInt32_natCast H hH]
  rw [copyImageData_eq W H _ _ (hasDims_allocateImageMemory W H _) hs]
  unfold invertImage grayscaleImageRed grayscaleImageGreen grayscaleImageBlue
  rw [copyImageData_eq W H _ _ (hasDims_runColumnThreads _ _ W H _ hs) hs]
  rw [copyImageData_eq W H _ _ (hasDims_runColumnThreads _ _ W H _ hs) hs]
  rw [copyImageData_eq W H _ _ (hasDims_runColumnThreads _ _ W H _ hs) hs]

/-! ## Lemmas: the headers in the outputs -/

theorem validBytes_append (A B : List Nat) (ha : validBytes A) (hb : validBytes B) :
    validBytes (A ++ B) := by
  intro b hmem
  rcases List.mem_append.1 hmem with h | h
  · exact ha b h
  · exact hb b h

theorem validBytes_putU16 (v : Nat) : validBytes (putU16 v) := by
  intro b hb
  simp only [putU16, List.mem_cons, List.mem_singleton, List.not_mem_nil, or_false] at hb
  omega

theorem validBytes_putU32 (v : Nat) : validBytes (putU32 v) := by
  intro b hb
  simp only [putU32, List.mem_cons, List.mem_singleton, List.not_mem_nil, or_false] at hb
  omega

theorem validBytes_putI32 (v : Int) : validBytes (putI32 v) := validBytes_putU32 _

theorem validBytes_coreHeader (h : BITMAPCOREHEADER) : validBytes h.toBytes := by
  unfold BITMAPCOREHEADER.toBytes
  exact validBytes_append _ _ (validBytes_append _ _ (validBytes_append _ _
    (validBytes_append _ _ (validBytes_putU32 _) (validBytes_putI32 _)) (validBytes_putI32 _))
    (validBytes_putU16 _)) (validBytes_putU16 _)

theorem validBytes_drop (A : List Nat) (n : Nat) (ha : validBytes A) : validBytes (A.drop n) :=
  fun b hb => ha b (List.mem_of_mem_drop hb)

theorem getU8_append_left (A B : List Nat) (i : Nat) (h : i < A.length) :
    getU8 (A ++ B) i = getU8 A i := by
  unfold getU8
  simp [List.getD_eq_getElem?_getD, List.getElem?_append_left h]

theorem getI32_append_left (A B : List Nat) (i : Nat) (h : i + 4 ≤ A.length) :
    getI32 (A ++ B) i = getI32 A i := by
  unfold getI32 getU32
  rw [getU8_append_left A B i (by omega), getU8_append_left A B (i + 1) (by omega),
    getU8_append_left A B (i + 2) (by omega), getU8_append_left A B (i + 3) (by omega)]

theorem length_slice_min (bs : List Nat) (a n : Nat) :
    (slice bs a n).length = min n (bs.length - a) := by
  unfold slice
  simp

/-- The header stage on a stream of bytes with `image_offset = 26` that holds its
first 26 bytes: the width and the height come from the bytes 18 to 25, and each
output starts with the first 26 bytes of the source. -/
theorem mainHeaders_core_prefix (u : Indeterminate) (data : List Nat) (hv : validBytes data)
    (ho : getU32 data 10 = 26) (hl : 26 ≤ data.length) :
    ∃ (f : FILE) (bits : Nat) (tail : List Nat),
      mainHeaders u data =
        { theBitmapFileHeader := BITMAPFILEHEADER.ofBytes (slice data 0 14)
          theFile := some f
          theImageWidth := getI32 data 18
          theImageHeight := getI32 data 22
          theImageBitCount := bits
          theInvertedFile := some (data.take 26 ++ tail)
          theRedGrayscaleFile := some (data.take 26 ++ tail)
          theGreenGrayscaleFile := some (data.take 26 ++ tail)
          theBlueGrayscaleFile := some (data.take 26 ++ tail) } := by
  have hgot : 12 ≤ (slice data 14 16).length := by rw [length_slice_min]; omega
  have hgot2 : (slice data 14 16).length ≤ 16 := by rw [length_slice_min]; omega
  have hbuf : (fread u.theCoreHeader.toBytes ⟨data, 14⟩).1
      = slice data 14 16 ++ u.theCoreHeader.toBytes.drop (slice data 14 16).length := rfl
  have hlen : (fread u.theCoreHeader.toBytes ⟨data, 14⟩).1.length = 16 := by
    rw [hbuf, List.length_append, List.length_drop, coreHeader_length_toBytes]
    omega
  have hvalid : validBytes (fread u.theCoreHeader.toBytes ⟨data, 14⟩).1 := by
    rw [hbuf]
    exact validBytes_append _ _ (validBytes_slice data hv 14 16)
      (validBytes_drop _ _ (validBytes_coreHeader _))
  have hwidth : (BITMAPCOREHEADER.ofBytes (fread u.theCoreHeader.toBytes ⟨data, 14⟩).1).width_px
      = getI32 data 18 := by
    show getI32 _ 4 = _
    rw [hbuf, getI32_append_left _ _ 4 (by omega), getI32_slice data 14 16 4 (by omega)]
  have hheight : (BITMAPCOREHEADER.ofBytes (fread u.theCoreHeader.toBytes ⟨data, 14⟩).1).height_px
      = getI32 data 22 := by
    show getI32 _ 8 = _
    rw [hbuf, getI32_append_left _ _ 8 (by omega), getI32_slice data 14 16 8 (by omega)]
  have hf : (BITMAPFILEHEADER.ofBytes (slice data 0 14)).toBytes = slice data 0 14 :=
    fileHeader_toBytes_ofBytes _ (length_slice data 0 14 (by omega))
      (validBytes_slice data hv 0 14)
  have hout : (BITMAPFILEHEADER.ofBytes (slice data 0 14)).toBytes
        ++ (BITMAPCOREHEADER.ofBytes (fread u.theCoreHeader.toBytes ⟨data, 14⟩).1).toBytes
      = data.take 26
        ++ (slice data 26 4 ++ u.theCoreHeader.toBytes.drop (slice data 14 16).length) := by
    rw [hf, coreHeader_toBytes_ofBytes _ hlen hvalid, hbuf, ← List.append_assoc,
      slice_append data 0 14 14 16 rfl, ← slice_zero, ← List.append_assoc,
      slice_append data 0 26 26 4 rfl]
  refine ⟨(fread u.theCoreHeader.toBytes ⟨data, 14⟩).2,
    (BITMAPCOREHEADER.ofBytes (fread u.theCoreHeader.toBytes ⟨data, 14⟩).1).bits_per_pixel,
    slice data 26 4 ++ u.theCoreHeader.toBytes.drop (slice data 14 16).length, ?_⟩
  unfold mainHeaders
  simp only [readBitmapFileHeader_complete _ data (by omega), image_offset_ofBytes, ho]
  simp only [BITMAPCOREHEADER_IMAGE_OFFSET, if_true]
  simp only [readBitmapCoreHeader, writeBitmapFileHeader, writeBitmapCoreHeader, fwrite,
    List.nil_append]
  rw [hwidth, hheight, hout]

/-- The header stage on a stream of bytes that holds its first `image_offset`
bytes, for the four recognised offsets: each output starts with these bytes. -/
theorem mainHeaders_prefix (u : Indeterminate) (data : List Nat) (hv : validBytes data)
    (ho : getU32 data 10 = 26 ∨ getU32 data 10 = 54 ∨ getU32 data 10 = 122
      ∨ getU32 data 10 = 138)
    (hl : getU32 data 10 ≤ data.length) :
    ∃ (f : FILE) (bits : Nat) (tail : List Nat),
      mainHeaders u data =
        { theBitmapFileHeader := BITMAPFILEHEADER.ofBytes (slice data 0 14)
          theFile := some f
          theImageWidth := getI32 data 18
          theImageHeight := getI32 data 22
          theImageBitCount := bits
          theInvertedFile := some (data.take (getU32 data 10) ++ tail)
          theRedGrayscaleFile := some (data.take (getU32 data 10) ++ tail)
          theGreenGrayscaleFile := some (data.take (getU32 data 10) ++ tail)
          theBlueGrayscaleFile := some (data.take (getU32 data 10) ++ tail) } := by
  rcases ho with h26 | h3
  · rw [h26] at hl ⊢
    exact mainHeaders_core_prefix u data hv h26 hl
  · refine ⟨⟨data, getU32 data 10⟩, getU16 data 28, [], ?_⟩
    rw [mainHeaders_valid u data hv h3 hl]
    simp only [List.append_nil, slice_zero]

theorem take_append_take (data tail rest : List Nat) (n : Nat) (h : n ≤ data.length) :
    (data.take n ++ tail ++ rest).take n = data.take n := by
  rw [List.append_assoc, List.take_append_of_le_length (by simp; omega), List.take_take,
    Nat.min_self]

theorem getU8_of_take_eq (A B : List Nat) (n i : Nat) (h : A.take n = B.take n) (hi : i < n) :
    getU8 A i = getU8 B i := by
  have e : getU8 (A.take n) i = getU8 (B.take n) i := by rw [h]
  unfold getU8 at e ⊢
  simpa [List.getD_eq_getElem?_getD, List.getElem?_take, hi] using e

theorem getU32_of_take_eq (A B : List Nat) (n i : Nat) (h : A.take n = B.take n)
    (hi : i + 4 ≤ n) : getU32 A i = getU32 B i := by
  unfold getU32
  rw [getU8_of_take_eq A B n i h (by omega), getU8_of_take_eq A B n (i + 1) h (by omega),
    getU8_of_take_eq A B n (i + 2) h (by omega), getU8_of_take_eq A B n (i + 3) h (by omega)]

/-! ## Lemmas: the four transforms -/

theorem applyTransform_eq (c : Nat → Bool) (t : IMAGE_PROCESSING_TYPE) (w h : Nat)
    (g : Image) : applyTransform c t w h g = runColumnThreads c t w h g := by
  cases t <;> rfl

theorem processPixel_gray (t : IMAGE_PROCESSING_TYPE) (ht : t ≠ .invert) (p : BitmapColor) :
    (processPixel t p).blue = (processPixel t p).green
      ∧ (processPixel t p).green = (processPixel t p).red := by
  cases t
  · exact absurd rfl ht
  · exact ⟨rfl, rfl⟩
  · exact ⟨rfl, rfl⟩
  · exact ⟨rfl, rfl⟩

theorem processPixel_absorbing (tX tY : IMAGE_PROCESSING_TYPE) (hX : tX ≠ .invert)
    (hY : tY ≠ .invert) (p : BitmapColor) :
    processPixel tX (processPixel tY p) = processPixel tY p := by
  cases tX
  · exact absurd rfl hX
  all_goals
    cases tY
    · exact absurd rfl hY
    all_goals rfl

theorem cell_valid (g : Image) (w h : Nat) (hd : g.hasDims w h) (hv : g.valid) (x y : Nat)
    (hx : x < w) (hy : y < h) : (g.cell x y).valid := by
  have hx1 : x < g.length := by rw [hd.1]; exact hx
  have hy1 : y < (g[x]).length := by rw [hd.2 _ (List.getElem_mem hx1)]; exact hy
  rw [cell_eq_getElem g x y hx1 hy1]
  exact hv _ (List.getElem_mem hx1) _ (List.getElem_mem hy1)

/-- Two inversions in which the same threads are created give back the grid. -/
theorem invertImage_twice (c1 c2 : Nat → Bool) (w h : Nat) (g : Image)
    (hd : g.hasDims w h) (hv : g.valid) (hc : ∀ x, x < w → c1 x = c2 x) :
    invertImage c2 w h (invertImage c1 w h g) = g := by
  unfold invertImage
  have h1 := hasDims_runColumnThreads c1 .invert w h g hd
  apply image_ext_cells _ _ w h (hasDims_runColumnThreads c2 .invert w h _ h1) hd
  intro x hx y hy
  rw [cell_runColumnThreads c2 _ w h _ h1 x y hx hy,
    cell_runColumnThreads c1 _ w h g hd x y hx hy, hc x hx]
  by_cases h2 : c2 x = true
  · rw [if_pos h2, if_pos h2]
    exact processPixel_invert_invert _ (cell_valid g w h hd hv x y hx hy)
  · rw [if_neg h2, if_neg h2]

/-- A grayscale transform after a grayscale transform changes nothing, where the
second creates no thread for a column that the first left out. -/
theorem runColumnThreads_absorbing (cX cY : Nat → Bool) (tX tY : IMAGE_PROCESSING_TYPE)
    (hX : tX ≠ .invert) (hY : tY ≠ .invert) (w h : Nat) (g : Image) (hd : g.hasDims w h)
    (hc : ∀ x, x < w → cX x = true → cY x = true) :
    runColumnThreads cX tX w h (runColumnThreads cY tY w h g)
      = runColumnThreads cY tY w h g := by
  have h1 := hasDims_runColumnThreads cY tY w h g hd
  apply image_ext_cells _ _ w h (hasDims_runColumnThreads cX tX w h _ h1) h1
  intro x hx y hy
  rw [cell_runColumnThreads cX _ w h _ h1 x y hx hy,
    cell_runColumnThreads cY _ w h g hd x y hx hy]
  by_cases h2 : cX x = true
  · rw [if_pos h2, if_pos (hc x hx h2)]
    exact processPixel_absorbing tX tY hX hY _
  · rw [if_neg h2]

theorem readBitmapFileHeader_some (h0 : BITMAPFILEHEADER) (f : FILE) :
    (readBitmapFileHeader h0 (some f)).2 = some (fread h0.toBytes f).2 := rfl

theorem readImageData_zero (bits : Nat) (heap : Nat → Nat → BitmapColor) (f : FILE) :
    readImageData 0 0 bits heap f = ([], f) := rfl

/-- The image stage of `main` is the four rounds on the two grids. -/
theorem mainImages_rounds (u : Indeterminate) (W H bits : Nat) (fh : BITMAPFILEHEADER)
    (f : FILE) (o1 o2 o3 o4 : OutputFile) :
    mainImages u
        { theBitmapFileHeader := fh, theFile := some f, theImageWidth := W,
          theImageHeight := H, theImageBitCount := bits, theInvertedFile := some o1,
          theRedGrayscaleFile := some o2, theGreenGrayscaleFile := some o3,
          theBlueGrayscaleFile := some o4 }
      = some (mainRounds u W H bits (readImageData W H bits u.theImageData f).1
          o1 o2 o3 o4).2 := by
  have hneg : ¬ (((W : Nat) : Int) < 0 ∨ ((H : Nat) : Int) < 0) := by omega
  unfold mainImages
  simp only [hneg, if_false]
  rfl

theorem mainRound_theImageData (c : Nat → Bool) (t : IMAGE_PROCESSING_TYPE) (w h : Int)
    (bits : Nat) (m : ImageMemory) (o : OutputFile) :
    (mainRound c t w h bits m o).1.theImageData = m.theImageData := rfl

theorem pixelStatements_getD (t : IMAGE_PROCESSING_TYPE) :
    (List.range 3).map (fun k => (pixelStatements t).getD k id) = pixelStatements t := by
  cases t <;> rfl

theorem hasDims_runInterleaved (t : IMAGE_PROCESSING_TYPE) (w h : Nat)
    (sched : List ThreadStep) (g : Image) (hd : g.hasDims w h) :
    (runInterleaved t g sched).hasDims w h := by
  unfold runInterleaved
  induction sched generalizing g with
  | nil => exact hd
  | cons s l ih =>
    rw [List.foldl_cons]
    exact ih _ (hasDims_setCell g w h _ _ _ hd)

/-- A cell after the assignments of `sched`: the assignments of `sched` on that
cell, in their order, applied to its pixel. -/
theorem cell_runInterleaved (t : IMAGE_PROCESSING_TYPE) (w h : Nat) (sched : List ThreadStep)
    (g : Image) (hd : g.hasDims w h) (hs : ∀ s ∈ sched, s.x < w ∧ s.y < h) (x y : Nat) :
    (runInterleaved t g sched).cell x y
      = runStatements
          ((sched.filter (fun s => decide (s.x = x ∧ s.y = y))).map
            (fun s => (pixelStatements t).getD s.k id))
          (g.cell x y) := by
  unfold runInterleaved
  induction sched generalizing g with
  | nil => rfl
  | cons s l ih =>
    have hd1 : (execStep t g s).hasDims w h := hasDims_setCell g w h _ _ _ hd
    rw [List.foldl_cons, ih _ hd1 (fun s' hs' => hs s' (List.mem_cons_of_mem _ hs'))]
    have hb := hs s (List.mem_cons_self _ _)
    unfold execStep
    rw [cell_setCell g w h s.x s.y _ hd hb.1 hb.2 x y]
    by_cases hxy : s.x = x ∧ s.y = y
    · have hxy' : x = s.x ∧ y = s.y := ⟨hxy.1.symm, hxy.2.symm⟩
      rw [if_pos hxy', List.filter_cons_of_pos (by simpa using hxy), List.map_cons]
      unfold runStatements
      rw [List.foldl_cons, hxy.1, hxy.2]
    · have hxy' : ¬ (x = s.x ∧ y = s.y) := fun e => hxy ⟨e.1.symm, e.2.symm⟩
      rw [if_neg hxy', List.filter_cons_of_neg (by simpa using hxy)]

theorem threadProgram_filter (h x y : Nat) (hy : y < h) :
    (threadProgram h x).filter (fun s => decide (s.y = y))
      = (List.range 3).map fun k => ⟨x, y, k⟩ := by
  unfold threadProgram
  induction h with
  | zero => omega
  | succ n ih =>
    rw [List.range_succ, List.flatMap_append, List.filter_append]
    by_cases hn : y < n
    · rw [ih hn]
      have : y ≠ n := by omega
      simp [List.range_succ, Ne.symm this]
    · have hyn : y = n := by omega
      subst hyn
      have h0 : (List.flatMap (List.range y) fun y' =>
          (List.range 3).map fun k => (⟨x, y', k⟩ : ThreadStep)).filter
            (fun s => decide (s.y = y)) = [] := by
        rw [List.filter_eq_nil_iff]
        intro s hs
        obtain ⟨y', hy', hs'⟩ := List.mem_flatMap.1 hs
        obtain ⟨k, _, rfl⟩ := List.mem_map.1 hs'
        have := List.mem_range.1 hy'
        simp
        omega
      rw [h0]
      simp [List.range_succ]

theorem threadProgram_mem (h x : Nat) (s : ThreadStep) (hs : s ∈ threadProgram h x) :
    s.x = x ∧ s.y < h := by
  unfold threadProgram at hs
  obtain ⟨y', hy', hs'⟩ := List.mem_flatMap.1 hs
  obtain ⟨k, _, rfl⟩ := List.mem_map.1 hs'
  exact ⟨rfl, List.mem_range.1 hy'⟩

theorem interleaving_bounds (c : Nat → Bool) (w h : Nat) (sched : List ThreadStep)
    (hi : IsInterleaving c w h sched) : ∀ s ∈ sched, s.x < w ∧ s.y < h := by
  intro s hs
  obtain ⟨hx, hc⟩ := hi.1 s hs
  have h1 : s ∈ sched.filter (fun s' => decide (s'.x = s.x)) :=
    List.mem_filter.2 ⟨hs, by simp⟩
  rw [hi.2 s.x hx hc] at h1
  exact ⟨hx, (threadProgram_mem h s.x s h1).2⟩

theorem interleaving_cell_filter (c : Nat → Bool) (w h : Nat) (sched : List ThreadStep)
    (hi : IsInterleaving c w h sched) (x y : Nat) (hx : x < w) (hy : y < h) :
    sched.filter (fun s => decide (s.x = x ∧ s.y = y))
      = if c x = true then (List.range 3).map fun k => ⟨x, y, k⟩ else [] := by
  by_cases hc : c x = true
  · rw [if_pos hc, ← threadProgram_filter h x y hy, ← hi.2 x hx hc, List.filter_filter]
    congr 1
    funext s
    simp [Bool.and_comm]
  · rw [if_neg hc, List.filter_eq_nil_iff]
    intro s hs
    have h1 := (hi.1 s hs).2
    simp only [decide_eq_true_eq, not_and]
    intro e
    rw [e] at h1
    exact absurd h1 hc

/-- Every interleaving of the created threads leaves the grid that the transform is
defined to leave. -/
theorem runInterleaved_eq (c : Nat → Bool) (t : IMAGE_PROCESSING_TYPE) (w h : Nat)
    (g : Image) (hd : g.hasDims w h) (sched : List ThreadStep)
    (hi : IsInterleaving c w h sched) :
    runInterleaved t g sched = runColumnThreads c t w h g := by
  apply image_ext_cells _ _ w h (hasDims_runInterleaved t w h sched g hd)
    (hasDims_runColumnThreads c t w h g hd)
  intro x hx y hy
  rw [cell_runInterleaved t w h sched g hd (interleaving_bounds c w h sched hi) x y,
    interleaving_cell_filter c w h sched hi x y hx hy,
    cell_runColumnThreads c t w h g hd x y hx hy]
  by_cases hc : c x = true
  · rw [if_pos hc, if_pos hc, List.map_map]
    have e : ((fun s : ThreadStep => (pixelStatements t).getD s.k id) ∘ fun k => ⟨x, y, k⟩)
        = fun k => (pixelStatements t).getD k id := rfl
    rw [e, pixelStatements_getD]
    rfl
  · rw [if_neg hc, if_neg hc]
    rfl

theorem runColumnThreads_all_created (c : Nat → Bool) (t : IMAGE_PROCESSING_TYPE) (w h : Nat)
    (g : Image) (hc : ∀ x, x < w → c x = true) :
    runColumnThreads c t w h g = runOneWorker t w h g := by
  rw [runColumnThreads_foldl, List.filter_eq_self.2 (fun x hx => hc x (List.mem_range.1 hx))]
  rfl

theorem filter_flatMap_threadProgram (h x : Nat) (l : List Nat) (hn : l.Nodup) :
    (l.flatMap (threadProgram h)).filter (fun s => decide (s.x = x))
      = if x ∈ l then threadProgram h x else [] := by
  induction l with
  | nil => rfl
  | cons a l ih =>
    rw [List.flatMap_cons, List.filter_append, ih (List.nodup_cons.1 hn).2]
    by_cases ha : a = x
    · subst ha
      have h1 : (threadProgram h a).filter (fun s => decide (s.x = a)) = threadProgram h a :=
        List.filter_eq_self.2 (fun s hs => by simp [(threadProgram_mem h a s hs).1])
      rw [h1, if_neg (List.nodup_cons.1 hn).1, if_pos (List.mem_cons_self _ _),
        List.append_nil]
    · have h1 : (threadProgram h a).filter (fun s => decide (s.x = x)) = [] := by
        rw [List.filter_eq_nil_iff]
        intro s hs
        rw [(threadProgram_mem h a s hs).1] at *
        simp [ha]
      rw [h1, List.nil_append]
      by_cases hx : x ∈ l
      · rw [if_pos hx, if_pos (List.mem_cons_of_mem _ hx)]
      · rw [if_neg hx, if_neg (fun e => by
          rcases List.mem_cons.1 e with e | e
          · exact ha e.symm
          · exact hx e)]

/-- The created threads run one after the other: an interleaving. -/
theorem isInterleaving_sequentialSchedule (c : Nat → Bool) (w h : Nat) :
    IsInterleaving c w h (sequentialSchedule c w h) := by
  unfold sequentialSchedule
  refine ⟨?_, ?_⟩
  · intro s hs
    obtain ⟨x, hx, hs'⟩ := List.mem_flatMap.1 hs
    obtain ⟨hx1, hx2⟩ := List.mem_filter.1 hx
    rw [(threadProgram_mem h x s hs').1]
    exact ⟨List.mem_range.1 hx1, hx2⟩
  · intro x hx hc
    rw [filter_flatMap_threadProgram h x _ ((List.nodup_range w).filter _),
      if_pos (List.mem_filter.2 ⟨List.mem_range.2 hx, hc⟩)]

theorem widePixels_succ (n : Nat) : widePixels (n + 1) = [1, 2, 3] ++ widePixels n := by
  unfold widePixels
  rw [List.replicate_succ, List.flatten_cons]

theorem length_widePixels (n : Nat) : (widePixels n).length = 3 * n := by
  induction n with
  | zero => rfl
  | succ n ih =>
    rw [widePixels_succ, List.length_append, ih]
    simp only [List.length_cons, List.length_nil]
    omega

theorem validBytes_widePixels (n : Nat) : validBytes (widePixels n) := by
  induction n with
  | zero => intro b hb; cases hb
  | succ n ih =>
    rw [widePixels_succ]
    exact validBytes_append _ _ (by decide) ih

theorem pixelAt_widePixels (n k : Nat) (hk : k < n) :
    pixelAt (widePixels n) (3 * k) = ⟨1, 2, 3⟩ := by
  induction n generalizing k with
  | zero => omega
  | succ n ih =>
    rw [widePixels_succ]
    cases k with
    | zero => rfl
    | succ k =>
      have e : 3 * (k + 1) = ([1, 2, 3] : List Nat).length + 3 * k := by
        simp only [List.length_cons, List.length_nil]
        omega
      rw [e, pixelAt_append_right]
      exact ih k (by omega)

theorem pixelAt_append_left (A B : List Nat) (k : Nat) (h : k + 3 ≤ A.length) :
    pixelAt (A ++ B) k = pixelAt A k := by
  unfold pixelAt
  rw [getU8_append_left A B k (by omega), getU8_append_left A B (k + 1) (by omega),
    getU8_append_left A B (k + 2) (by omega)]

theorem getU32_append_left (A B : List Nat) (i : Nat) (h : i + 4 ≤ A.length) :
    getU32 (A ++ B) i = getU32 A i := by
  unfold getU32
  rw [getU8_append_left A B i (by omega), getU8_append_left A B (i + 1) (by omega),
    getU8_append_left A B (i + 2) (by omega), getU8_append_left A B (i + 3) (by omega)]

theorem getU16_append_left (A B : List Nat) (i : Nat) (h : i + 2 ≤ A.length) :
    getU16 (A ++ B) i = getU16 A i := by
  unfold getU16
  rw [getU8_append_left A B i (by omega), getU8_append_left A B (i + 1) (by omega)]

theorem length_bmpWide : bmpWide.length = 98318 := by
  unfold bmpWide
  rw [List.length_append, List.length_append, length_widePixels]
  rfl

theorem pixelAt_bmpWide (k : Nat) (hk : k < 32754) :
    pixelAt bmpWide (54 + 3 * k) = ⟨1, 2, 3⟩ := by
  unfold bmpWide
  have e := pixelAt_append_right bmpWideHeader (widePixels 32754 ++ [0, 0]) (3 * k)
  have hl : bmpWideHeader.length = 54 := rfl
  rw [hl] at e
  rw [e, pixelAt_append_left _ _ _ (by rw [length_widePixels]; omega)]
  exact pixelAt_widePixels 32754 k hk

/-- The stream `bmpWide` is a valid 24-bit BMP of 32754 x 1 pixels. -/
theorem validBmp24_bmpWide :
    ValidBmp24 bmpWide ∧ getU32 bmpWide 10 = 54
      ∧ getI32 bmpWide 18 = ((32754 : Nat) : Int) ∧ getI32 bmpWide 22 = ((1 : Nat) : Int)
      ∧ getU16 bmpWide 28 = 24 := by
  have h10 : getU32 bmpWide 10 = 54 := by
    unfold bmpWide
    rw [getU32_append_left _ _ _ (by decide)]
    decide
  have h18 : getI32 bmpWide 18 = ((32754 : Nat) : Int) := by
    unfold bmpWide
    rw [getI32_append_left _ _ _ (by decide)]
    decide
  have h22 : getI32 bmpWide 22 = ((1 : Nat) : Int) := by
    unfold bmpWide
    rw [getI32_append_left _ _ _ (by decide)]
    decide
  have h28 : getU16 bmpWide 28 = 24 := by
    unfold bmpWide
    rw [getU16_append_left _ _ _ (by decide)]
    decide
  have hv : validBytes bmpWide :=
    validBytes_append _ _ (by decide)
      (validBytes_append _ _ (validBytes_widePixels _) (by decide))
  refine ⟨⟨hv, Or.inr (Or.inl h10), ?_, ?_, h28, ?_⟩, h10, h18, h22, h28⟩
  · rw [h18]; decide
  · rw [h22]; decide
  · unfold bmpHeight bmpWidth rowSize paddingOf
    rw [h10, h18, h22, length_bmpWide]
    simp only [Int.toNat_ofNat]
    rw [calculatePaddingSize_24]
    decide

/-- The program on `bmpWide`: the pixel of column `x` in the output of the transform
`t` is the source pixel `(1, 2, 3)` when the thread of that column is not created. -/
theorem main_bmpWide (u : Indeterminate) :
    ∃ o : Outputs, main u bmpWide = some o
      ∧ ∀ x, x < 32754 →
          (u.threadCreated .invert x = false →
            pixelAt o.theInvertedFile (54 + 3 * x) = ⟨1, 2, 3⟩)
          ∧ (u.threadCreated .grayscaleRed x = false →
            pixelAt o.theRedGrayscaleFile (54 + 3 * x) = ⟨1, 2, 3⟩)
          ∧ (u.threadCreated .grayscaleGreen x = false →
            pixelAt o.theGreenGrayscaleFile (54 + 3 * x) = ⟨1, 2, 3⟩)
          ∧ (u.threadCreated .grayscaleBlue x = false →
            pixelAt o.theBlueGrayscaleFile (54 + 3 * x) = ⟨1, 2, 3⟩) := by
  obtain ⟨hv, h10, h18, h22, h28⟩ := validBmp24_bmpWide
  have hm : main u bmpWide = mainImages u (mainHeaders u bmpWide) := rfl
  have hlen : getU32 bmpWide 10 ≤ bmpWide.length := by rw [h10, length_bmpWide]; decide
  have hP : calculatePaddingSize ((32754 : Nat) : Int) 24 = ((2 : Nat) : Int) := by
    rw [calculatePaddingSize_24]; decide
  have hG : (readImageData ((32754 : Nat) : Int) ((1 : Nat) : Int) 24 u.theImageData
      ⟨bmpWide, 54⟩).1 = imageOfStream bmpWide 54 32754 1 (3 * 32754 + 2) := by
    rw [readImageData_complete 32754 1 2 24 _ _ hP (by
      show 54 + 1 * (3 * 32754 + 2) ≤ bmpWide.length
      rw [length_bmpWide])]
  have hd := hasDims_imageOfStream bmpWide 54 32754 1 (3 * 32754 + 2)
  have hcell : ∀ x, x < 32754 →
      (imageOfStream bmpWide 54 32754 1 (3 * 32754 + 2)).cell x 0 = ⟨1, 2, 3⟩ := by
    intro x hx
    unfold imageOfStream
    rw [cell_tabulate _ 32754 1 x 0 hx (by decide), Nat.zero_mul, Nat.add_zero]
    exact pixelAt_bmpWide x hx
  have hpix : ∀ (c : Nat → Bool) (t : IMAGE_PROCESSING_TYPE) (x : Nat), x < 32754 →
      c x = false →
      pixelAt (writeImageData ((32754 : Nat) : Int) ((1 : Nat) : Int) 24
        (runColumnThreads c t 32754 1 (imageOfStream bmpWide 54 32754 1 (3 * 32754 + 2)))
        (slice bmpWide 0 54)) (54 + 3 * x) = ⟨1, 2, 3⟩ := by
    intro c t x hx hc
    rw [writeImageData_eq 32754 1 2 24 _ _ hP]
    have e := pixelAt_append_right (slice bmpWide 0 54)
      (imageRows (runColumnThreads c t 32754 1
        (imageOfStream bmpWide 54 32754 1 (3 * 32754 + 2))) 32754 1 2) (3 * x)
    rw [length_slice bmpWide 0 54 (by rw [length_bmpWide]; decide)] at e
    have e2 := pixelAt_imageRows (runColumnThreads c t 32754 1
        (imageOfStream bmpWide 54 32754 1 (3 * 32754 + 2))) 32754 1 2 x 0 hx (by decide)
    rw [Nat.zero_mul, Nat.zero_add] at e2
    rw [e, e2, cell_runColumnThreads c t 32754 1 _ hd x 0 hx (by decide),
      if_neg (by rw [hc]; decide)]
    exact hcell x hx
  rw [hm, mainHeaders_valid u bmpWide hv.1 (Or.inl h10) hlen, h10, h18, h22, h28,
    mainImages_general u 32754 1 24 _ ⟨bmpWide, 54⟩ _ _ _ _ (by decide) (by decide), hG]
  refine ⟨_, rfl, fun x hx => ⟨?_, ?_, ?_, ?_⟩⟩
  · exact hpix _ .invert x hx
  · exact hpix _ .grayscaleRed x hx
  · exact hpix _ .grayscaleGreen x hx
  · exact hpix _ .grayscaleBlue x hx

/-! ## Claims -/

/-- C2. Padding invariant: for every width `w` with `0 ≤ w ≤ 10000`,
`calculatePaddingSize w 24` is one of 0, 1, 2, 3 and the row size
`w * 3 + calculatePaddingSize w 24` is a multiple of 4. -/
theorem padding_invariant (w : Int) (h0 : 0 ≤ w) (h1 : w ≤ 10000) :
    (calculatePaddingSize w 24 = 0 ∨ calculatePaddingSize w 24 = 1
        ∨ calculatePaddingSize w 24 = 2 ∨ calculatePaddingSize w 24 = 3)
      ∧ (w * 3 + calculatePaddingSize w 24) % 4 = 0 := by
  rw [calculatePaddingSize_24]
  omega

theorem padding_invariant_witness :
    (0 : Int) ≤ 5 ∧ (5 : Int) ≤ 10000
      ∧ calculatePaddingSize 5 24 = 1 ∧ ((5 : Int) * 3 + calculatePaddingSize 5 24) % 4 = 0 := by
  have h := padding_invariant 5 (by decide) (by decide)
  refine ⟨by decide, by decide, ?_, h.2⟩
  rw [calculatePaddingSize_24]
  decide

/-- C9, counterexample. On a grid of 32754 columns of one byte pixel `(1, 2, 3)`,
with the thread of column 32753 not created, `invertImage` returns with the pixel
`(32753, 0)` still `(1, 2, 3)`: its blue value is not 255 - 1. -/
theorem invertImage_uncreated_thread_counterexample :
    Image.hasDims (List.replicate 32754 [⟨1, 2, 3⟩]) 32754 1
      ∧ Image.valid (List.replicate 32754 [⟨1, 2, 3⟩])
      ∧ (invertImage (fun x => decide (x < 32753)) 32754 1
          (List.replicate 32754 [⟨1, 2, 3⟩])).cell 32753 0 = ⟨1, 2, 3⟩
      ∧ (((invertImage (fun x => decide (x < 32753)) 32754 1
          (List.replicate 32754 [⟨1, 2, 3⟩])).cell 32753 0).blue : Int) ≠ 255 - 1 := by
  have hd : Image.hasDims (List.replicate 32754 [⟨1, 2, 3⟩]) 32754 1 := by
    refine ⟨List.length_replicate _ _, ?_⟩
    intro col hc
    rw [List.eq_of_mem_replicate hc]
    rfl
  have hv : Image.valid (List.replicate 32754 [⟨1, 2, 3⟩]) := by
    intro col hc p hp
    rw [List.eq_of_mem_replicate hc] at hp
    rw [List.eq_of_mem_singleton hp]
    decide
  have h0 : Image.cell (List.replicate 32754 [⟨1, 2, 3⟩]) 32753 0 = ⟨1, 2, 3⟩ := by
    simp only [Image.cell, List.getD_eq_getElem?_getD, List.getElem?_replicate]
    rfl
  have h1 : (invertImage (fun x => decide (x < 32753)) 32754 1
      (List.replicate 32754 [⟨1, 2, 3⟩])).cell 32753 0 = ⟨1, 2, 3⟩ := by
    unfold invertImage
    rw [cell_runColumnThreads _ _ 32754 1 _ hd 32753 0 (by decide) (by decide), h0,
      if_neg (by decide)]
  refine ⟨hd, hv, h1, ?_⟩
  rw [h1]
  decide

/-- C9, amended. Invert postcondition: on a grid of `w` columns of `h` byte pixels,
after `invertImage` every pixel `(x, y)` with `x < w` and `y < h` of a column whose
thread was created has each channel equal to 255 minus its value before the call,
as integers, and is again a byte pixel: nothing wraps around; every pixel of a
column whose thread was not created has the value it had before the call. -/
theorem invertImage_postcondition (c : Nat → Bool) (w h : Nat) (g : Image)
    (hd : g.hasDims w h) (hv : g.valid) (x y : Nat) (hx : x < w) (hy : y < h) :
    (c x = true →
        (((invertImage c w h g).cell x y).blue : Int) = 255 - (g.cell x y).blue
          ∧ (((invertImage c w h g).cell x y).green : Int) = 255 - (g.cell x y).green
          ∧ (((invertImage c w h g).cell x y).red : Int) = 255 - (g.cell x y).red
          ∧ ((invertImage c w h g).cell x y).valid)
      ∧ (c x = false → (invertImage c w h g).cell x y = g.cell x y) := by
  unfold invertImage
  rw [cell_runColumnThreads c _ w h g hd x y hx hy]
  refine ⟨fun hc => ?_, fun hc => ?_⟩
  · rw [if_pos hc, processPixel_invert]
    obtain ⟨hb, hg, hr⟩ := cell_valid g w h hd hv x y hx hy
    exact ⟨(toUInt8_invert _ hb).1, (toUInt8_invert _ hg).1, (toUInt8_invert _ hr).1,
      (toUInt8_invert _ hb).2, (toUInt8_invert _ hg).2, (toUInt8_invert _ hr).2⟩
  · rw [if_neg (by rw [hc]; decide)]

theorem invertImage_postcondition_witness :
    (((invertImage (fun x => decide (x < 1)) 2 2
        [[⟨0, 0, 0⟩, ⟨10, 20, 30⟩], [⟨255, 255, 255⟩, ⟨200, 100, 50⟩]]).cell 0 1).blue : Int)
        = 255 - 10
      ∧ (invertImage (fun x => decide (x < 1)) 2 2
        [[⟨0, 0, 0⟩, ⟨10, 20, 30⟩], [⟨255, 255, 255⟩, ⟨200, 100, 50⟩]]).cell 1 1
        = ⟨200, 100, 50⟩ :=
  ⟨((invertImage_postcondition (fun x => decide (x < 1)) 2 2
      [[⟨0, 0, 0⟩, ⟨10, 20, 30⟩], [⟨255, 255, 255⟩, ⟨200, 100, 50⟩]]
      (by decide) (by decide) 0 1 (by decide) (by decide)).1 (by decide)).1,
    (invertImage_postcondition (fun x => decide (x < 1)) 2 2
      [[⟨0, 0, 0⟩, ⟨10, 20, 30⟩], [⟨255, 255, 255⟩, ⟨200, 100, 50⟩]]
      (by decide) (by decide) 1 1 (by decide) (by decide)).2 (by decide)⟩

/-- C5, the code at a stream with `image_offset = 26`. The information header that
`main` reads there is the 16-byte record `BITMAPCOREHEADER` of the source, not a
12-byte one: after the two header reads the stream is at position 30, past
`image_offset`; the bit count 24 is taken from the bytes 28 and 29 of the stream,
which belong to the pixel array; and 30 bytes go to each output as header. -/
theorem core_header_reads_sixteen_bytes (u : Indeterminate) :
    (mainHeaders u bmpCore1x1).theFile = some ⟨bmpCore1x1, 30⟩
      ∧ (mainHeaders u bmpCore1x1).theBitmapFileHeader.image_offset = 26
      ∧ (mainHeaders u bmpCore1x1).theImageWidth = 1
      ∧ (mainHeaders u bmpCore1x1).theImageHeight = 1
      ∧ (mainHeaders u bmpCore1x1).theImageBitCount = getU16 (bmpCore1x1.drop 26) 2
      ∧ (mainHeaders u bmpCore1x1).theInvertedFile = some (bmpCore1x1.take 30) := by
  rw [mainHeaders_core u bmpCore1x1 (by decide) (by decide)]
  decide

/-- C6, the code at a stream with `image_offset = 999`. The program does not fail:
it returns with four empty outputs, having gone on with a width, a height and a
bit count of zero. -/
theorem unsupported_offset_not_rejected (u : Indeterminate) :
    getU32 bmpOffset999 10 = 999
      ∧ (mainHeaders u bmpOffset999).theImageWidth = 0
      ∧ (mainHeaders u bmpOffset999).theImageHeight = 0
      ∧ (mainHeaders u bmpOffset999).theImageBitCount = 0
      ∧ main u bmpOffset999 = some ⟨[], [], [], []⟩ := by
  have hr := readBitmapFileHeader_complete u.theBitmapFileHeader bmpOffset999 (by decide)
  have ho : getU32 bmpOffset999 10 = 999 := by decide
  have hs := mainHeaders_unrecognised u bmpOffset999
    (by rw [hr, image_offset_ofBytes, ho]; decide) (by rw [hr, image_offset_ofBytes, ho]; decide)
    (by rw [hr, image_offset_ofBytes, ho]; decide) (by rw [hr, image_offset_ofBytes, ho]; decide)
  refine ⟨ho, ?_, ?_, ?_, ?_⟩
  · rw [hs]
  · rw [hs]
  · rw [hs]
  · exact main_unrecognised u bmpOffset999 (by decide) (by decide) (by decide) (by decide)
      (by decide)

/-- C7, the code at the valid stream `bmpCore1x1` (`image_offset = 26`, 1 x 1). The
specification asks for the 26 header bytes, then the inverted pixel `250, 249, 231`
and one zero byte. Whatever the uninitialised memory holds, the invert output of
`main` starts with the 30 bytes of the source unchanged, the pixel bytes
included, so it is not what the specification asks for. -/
theorem invert_output_core_diverges (u : Indeterminate) :
    ValidBmp24 bmpCore1x1
      ∧ invertExpected bmpCore1x1 = bmpCore1x1.take 26 ++ [250, 249, 231, 0]
      ∧ (main u bmpCore1x1).map (fun o => o.theInvertedFile.take 30) = some bmpCore1x1
      ∧ (main u bmpCore1x1).map (fun o => o.theInvertedFile)
          ≠ some (invertExpected bmpCore1x1) := by
  have hmain : (main u bmpCore1x1).map (fun o => o.theInvertedFile.take 30)
      = some bmpCore1x1 := by
    unfold main
    rw [mainHeaders_core u bmpCore1x1 (by decide) (by decide)]
    have hw : getI32 bmpCore1x1 18 = ((1 : Nat) : Int) := by decide
    have hh : getI32 bmpCore1x1 22 = ((1 : Nat) : Int) := by decide
    have hb : getU16 bmpCore1x1 28 = 24 := by decide
    have hhdr : (BITMAPFILEHEADER.ofBytes (slice bmpCore1x1 0 14)).toBytes
        ++ (BITMAPCOREHEADER.ofBytes (slice bmpCore1x1 14 16)).toBytes = bmpCore1x1 := by
      decide
    rw [hw, hh, hb, hhdr]
    unfold mainImages
    have hneg : ¬ (((1 : Nat) : Int) < 0 ∨ ((1 : Nat) : Int) < 0) := by omega
    simp only [hneg, if_false, Option.map_some']
    rw [writeImageData_eq 1 1 1 24 _ _ (by decide)]
    rw [List.take_append_of_le_length (by decide)]
    rfl
  refine ⟨by decide, by decide, hmain, ?_⟩
  intro hc
  cases hm : main u bmpCore1x1 with
  | none => rw [hm] at hc; exact Option.noConfusion hc
  | some o =>
    rw [hm] at hc hmain
    simp only [Option.map_some', Option.some.injEq] at hc hmain
    rw [hc] at hmain
    revert hmain
    decide

/-- C10, counterexample. On a grid of 32754 columns of one pixel `(1, 2, 3)`, with
the thread of column 32753 not created, each of `grayscaleImageRed`,
`grayscaleImageGreen` and `grayscaleImageBlue` returns with the pixel `(32753, 0)`
still `(1, 2, 3)`, which is none of `(3, 3, 3)`, `(2, 2, 2)` and `(1, 1, 1)`. -/
theorem grayscale_uncreated_thread_counterexample :
    Image.hasDims (List.replicate 32754 [⟨1, 2, 3⟩]) 32754 1
      ∧ (grayscaleImageRed (fun x => decide (x < 32753)) 32754 1
          (List.replicate 32754 [⟨1, 2, 3⟩])).cell 32753 0 = ⟨1, 2, 3⟩
      ∧ (grayscaleImageGreen (fun x => decide (x < 32753)) 32754 1
          (List.replicate 32754 [⟨1, 2, 3⟩])).cell 32753 0 = ⟨1, 2, 3⟩
      ∧ (grayscaleImageBlue (fun x => decide (x < 32753)) 32754 1
          (List.replicate 32754 [⟨1, 2, 3⟩])).cell 32753 0 = ⟨1, 2, 3⟩
      ∧ (⟨1, 2, 3⟩ : BitmapColor) ≠ ⟨3, 3, 3⟩ ∧ (⟨1, 2, 3⟩ : BitmapColor) ≠ ⟨2, 2, 2⟩
      ∧ (⟨1, 2, 3⟩ : BitmapColor) ≠ ⟨1, 1, 1⟩ := by
  have hd : Image.hasDims (List.replicate 32754 [⟨1, 2, 3⟩]) 32754 1 := by
    refine ⟨List.length_replicate _ _, ?_⟩
    intro col hc
    rw [List.eq_of_mem_replicate hc]
    rfl
  have h0 : Image.cell (List.replicate 32754 [⟨1, 2, 3⟩]) 32753 0 = ⟨1, 2, 3⟩ := by
    simp only [Image.cell, List.getD_eq_getElem?_getD, List.getElem?_replicate]
    rfl
  have h1 : ∀ t, (runColumnThreads (fun x => decide (x < 32753)) t 32754 1
      (List.replicate 32754 [⟨1, 2, 3⟩])).cell 32753 0 = ⟨1, 2, 3⟩ := by
    intro t
    rw [cell_runColumnThreads _ _ 32754 1 _ hd 32753 0 (by decide) (by decide), h0,
      if_neg (by decide)]
  exact ⟨hd, h1 _, h1 _, h1 _, by decide, by decide, by decide⟩

/-- C10, amended. Grayscale postcondition: on a grid of `w` columns of `h` pixels,
after `grayscaleImageRed` (`Green`, `Blue`) every pixel `(x, y)` with `x < w` and
`y < h` of a column whose thread was created has its three channels equal to the
red (green, blue) value it had before the call, and every pixel of a column whose
thread was not created has the value it had before the call; and in the three
assignments of `imageProcessingThread`, run one after the other on a pixel, the
channel that is read still has its first value before and after each of them. -/
theorem grayscale_postcondition (cR cG cB : Nat → Bool) (w h : Nat) (g : Image)
    (hd : g.hasDims w h) (x y : Nat) (hx : x < w) (hy : y < h) :
    (grayscaleImageRed cR w h g).cell x y
        = (if cR x = true then ⟨(g.cell x y).red, (g.cell x y).red, (g.cell x y).red⟩
            else g.cell x y)
      ∧ (grayscaleImageGreen cG w h g).cell x y
        = (if cG x = true then ⟨(g.cell x y).green, (g.cell x y).green, (g.cell x y).green⟩
            else g.cell x y)
      ∧ (grayscaleImageBlue cB w h g).cell x y
        = (if cB x = true then ⟨(g.cell x y).blue, (g.cell x y).blue, (g.cell x y).blue⟩
            else g.cell x y)
      ∧ ∀ (p : BitmapColor) (k : Nat),
          (runStatements ((pixelStatements .grayscaleRed).take k) p).red = p.red
            ∧ (runStatements ((pixelStatements .grayscaleGreen).take k) p).green = p.green
            ∧ (runStatements ((pixelStatements .grayscaleBlue).take k) p).blue = p.blue := by
  unfold grayscaleImageRed grayscaleImageGreen grayscaleImageBlue
  rw [cell_runColumnThreads cR _ w h g hd x y hx hy,
    cell_runColumnThreads cG _ w h g hd x y hx hy,
    cell_runColumnThreads cB _ w h g hd x y hx hy]
  refine ⟨rfl, rfl, rfl, ?_⟩
  intro p k
  match k with
  | 0 => exact ⟨rfl, rfl, rfl⟩
  | 1 => exact ⟨rfl, rfl, rfl⟩
  | 2 => exact ⟨rfl, rfl, rfl⟩
  | k + 3 =>
    simp only [pixelStatements, List.take_succ_cons, List.take_nil]
    exact ⟨rfl, rfl, rfl⟩

theorem grayscale_postcondition_witness :
    (grayscaleImageRed (fun x => decide (x < 1)) 2 2
        [[⟨0, 0, 0⟩, ⟨10, 20, 30⟩], [⟨255, 255, 255⟩, ⟨200, 100, 50⟩]]).cell 0 1
        = ⟨30, 30, 30⟩
      ∧ (grayscaleImageGreen (fun x => decide (x < 1)) 2 2
        [[⟨0, 0, 0⟩, ⟨10, 20, 30⟩], [⟨255, 255, 255⟩, ⟨200, 100, 50⟩]]).cell 1 1
        = ⟨200, 100, 50⟩ :=
  ⟨(grayscale_postcondition (fun x => decide (x < 1)) (fun x => decide (x < 1))
      (fun x => decide (x < 1)) 2 2
      [[⟨0, 0, 0⟩, ⟨10, 20, 30⟩], [⟨255, 255, 255⟩, ⟨200, 100, 50⟩]]
      (by decide) 0 1 (by decide) (by decide)).1,
    (grayscale_postcondition (fun x => decide (x < 1)) (fun x => decide (x < 1))
      (fun x => decide (x < 1)) 2 2
      [[⟨0, 0, 0⟩, ⟨10, 20, 30⟩], [⟨255, 255, 255⟩, ⟨200, 100, 50⟩]]
      (by decide) 1 1 (by decide) (by decide)).2.1⟩

/-- C12, the code at the stream `bmpCore1x1` (`image_offset = 26`). The file header
read consumes 14 bytes; the information header read that `main` selects for offset
26 consumes 16 bytes, not 12, so the stream is at position 30 and not at
`image_offset` when `readImageData` starts, and the first pixel it reads is taken
at position 30, where the stream has no byte left. -/
theorem core_header_position_after_reads (u : Indeterminate) :
    (readBitmapFileHeader u.theBitmapFileHeader (some ⟨bmpCore1x1, 0⟩)).2
        = some ⟨bmpCore1x1, 14⟩
      ∧ (readBitmapFileHeader u.theBitmapFileHeader (some ⟨bmpCore1x1, 0⟩)).1.image_offset
        = BITMAPCOREHEADER_IMAGE_OFFSET
      ∧ (readBitmapCoreHeader u.theCoreHeader (some ⟨bmpCore1x1, 14⟩)).2
        = some ⟨bmpCore1x1, 30⟩
      ∧ (readImageData 1 1 24 u.theImageData ⟨bmpCore1x1, 30⟩).1 = [[u.theImageData 0 0]] := by
  refine ⟨?_, ?_, ?_, ?_⟩
  · rw [readBitmapFileHeader_complete _ _ (by decide)]
  · rw [readBitmapFileHeader_complete _ _ (by decide), image_offset_ofBytes]
    decide
  · unfold readBitmapCoreHeader
    simp only
    rw [fread_complete _ _ (by rw [coreHeader_length_toBytes]; decide)]
    simp only [coreHeader_length_toBytes]
  · rw [readImageData_exhausted 1 1 24 _ ⟨bmpCore1x1, 30⟩ (by decide)]
    rfl

/-- C16. Padding formula: for a width `w ≥ 0`, if `24 * w` is an `int` then
`calculatePaddingSize w 24 = (4 - (3 * w) % 4) % 4`; for a bit depth `b`, if `b * w`
is an `int` then `calculatePaddingSize w b` is
`findNextMultipleOf4 (b * w / 8) - b * w / 8` and lies in `0 .. 3`; and for every
`int` `n` with `n + 3` an `int`, `findNextMultipleOf4 n` is the bit trick's value
`n + 3` with its two low bits cleared, the least multiple of 4 that is not below
`n`. -/
theorem padding_formula (w : Int) (b : Nat) (hw : 0 ≤ w) :
    ((24 : Int) * w < 2147483648 → calculatePaddingSize w 24 = (4 - (3 * w) % 4) % 4)
      ∧ ((b : Int) * w < 2147483648 →
          calculatePaddingSize w b
              = findNextMultipleOf4 ((b : Int) * w / 8) - (b : Int) * w / 8
            ∧ 0 ≤ calculatePaddingSize w b ∧ calculatePaddingSize w b ≤ 3)
      ∧ (∀ n : Int, -2147483648 ≤ n → n + 3 < 2147483648 →
          findNextMultipleOf4 n = (n + 3) - (n + 3) % 4
            ∧ 4 ∣ findNextMultipleOf4 n
            ∧ n ≤ findNextMultipleOf4 n
            ∧ ∀ m : Int, 4 ∣ m → n ≤ m → findNextMultipleOf4 n ≤ m) := by
  refine ⟨fun _ => calculatePaddingSize_24 w, ?_, ?_⟩
  · intro hb
    have hnn : (0 : Int) ≤ (b : Int) * w := Int.mul_nonneg (Int.ofNat_nonneg b) hw
    have hwrap := wrap32_of_range ((b : Int) * w) (by omega) hb
    have hdiv : Int.tdiv ((b : Int) * w) 8 = (b : Int) * w / 8 :=
      Int.tdiv_eq_ediv hnn (by norm_num)
    have hr := calculatePaddingSize_range w b
    refine ⟨?_, hr.1, hr.2⟩
    unfold calculatePaddingSize
    simp only [hwrap, hdiv]
  · intro n h0 h1
    have hfn := findNextMultipleOf4_eq n h0 h1
    refine ⟨hfn, ?_, ?_, ?_⟩
    · rw [hfn]; omega
    · rw [hfn]; omega
    · intro m hm hle
      rw [hfn]
      omega

theorem padding_formula_witness :
    calculatePaddingSize 5 24 = (4 - (3 * 5) % 4) % 4
      ∧ calculatePaddingSize 5 16 = findNextMultipleOf4 (((16 : Nat) : Int) * 5 / 8)
          - ((16 : Nat) : Int) * 5 / 8 :=
  ⟨(padding_formula 5 16 (by decide)).1 (by decide),
    ((padding_formula 5 16 (by decide)).2.1 (by decide)).1⟩

/-- C19, the code on streams that end too early, for a 1 x 1 image. On an empty
stream the cell of the returned grid is what `malloc` left there, whatever that
is; on a stream of two bytes the blue and green of the cell are the two bytes and
its red is what `malloc` left. The return value of `fread` is not looked at. -/
theorem readImageData_short_stream (heap : Nat → Nat → BitmapColor) :
    (readImageData 1 1 24 heap ⟨[], 0⟩).1 = [[heap 0 0]]
      ∧ (readImageData 1 1 24 heap ⟨[1, 2], 0⟩).1 = [[⟨1, 2, (heap 0 0).red⟩]] := by
  refine ⟨?_, ?_⟩
  · rw [readImageData_exhausted 1 1 24 heap ⟨[], 0⟩ (by decide)]
    rfl
  · have hp : calculatePaddingSize 1 24 = 1 := by decide
    unfold readImageData
    rw [hp, allocate_one_one]
    rfl

/-- C14. Layout of `writeImageData`: for every grid of `w` columns of `h` pixels the
call appends exactly the rows `y = 0 .. h-1` in order, each row being the bytes
blue, green, red of `grid[0][y]`, ..., `grid[w-1][y]` followed by
`calculatePaddingSize w 24` zero bytes; it appends `h * (3 * w + padding)` bytes, and
each row is `3 * w + padding` bytes long, a multiple of 4. -/
theorem writeImageData_layout (w h : Nat) (g : Image) (hd : g.hasDims w h)
    (out : OutputFile) :
    writeImageData w h 24 g out
        = out ++ ((List.range h).flatMap fun y =>
            ((List.range w).flatMap fun x =>
              [(g.cell x y).blue, (g.cell x y).green, (g.cell x y).red])
            ++ List.replicate (calculatePaddingSize w 24).toNat 0)
      ∧ (writeImageData w h 24 g out).length
          = out.length + h * (3 * w + (calculatePaddingSize w 24).toNat)
      ∧ (∀ y, (((List.range w).flatMap fun x =>
              [(g.cell x y).blue, (g.cell x y).green, (g.cell x y).red])
            ++ List.replicate (calculatePaddingSize w 24).toNat 0).length
          = 3 * w + (calculatePaddingSize w 24).toNat)
      ∧ (3 * w + (calculatePaddingSize w 24).toNat) % 4 = 0 := by
  have hP := calculatePaddingSize_paddingOf w
  have hw := writeImageData_eq w h (paddingOf w) 24 g out (by rw [toUInt16_24]; exact hP)
  refine ⟨hw, ?_, fun y => length_rowBytes g w (paddingOf w) y, rowSize_mod_four w⟩
  rw [hw, List.length_append, length_imageRows]
  rfl

theorem writeImageData_layout_witness :
    writeImageData 1 2 24 [[⟨1, 2, 3⟩, ⟨4, 5, 6⟩]] [9] = [9, 1, 2, 3, 0, 4, 5, 6, 0] :=
  (writeImageData_layout 1 2 [[⟨1, 2, 3⟩, ⟨4, 5, 6⟩]] (by decide) [9]).1.trans (by decide)

/-- C20. Column disjointness and order independence: the task of column `x` with
height `h` leaves every other column as it was, keeps the number of columns and
the length of column `x`, and leaves the cells of column `x` from index `h` on as
they were; the tasks of the columns `0 .. w-1`, run one after the other in any
order `l` that is a permutation of the column indices, give the grid that they give
in the order `0 .. w-1`, which is the grid that the transform gives when every
thread is created; and in such an order every column index below `w` occurs
exactly once. -/
theorem column_tasks_order_independent (t : IMAGE_PROCESSING_TYPE) (w h : Nat) (g : Image)
    (l : List Nat) (hl : l.Perm (List.range w)) :
    (∀ x x', x' ≠ x → (columnTask t h g x).getD x' [] = g.getD x' [])
      ∧ (∀ x, (columnTask t h g x).length = g.length
          ∧ ((columnTask t h g x).getD x []).length = (g.getD x []).length
          ∧ ((columnTask t h g x).getD x []).drop h = (g.getD x []).drop h)
      ∧ l.foldl (columnTask t h) g = (List.range w).foldl (columnTask t h) g
      ∧ l.foldl (columnTask t h) g = runColumnThreads (fun _ => true) t w h g
      ∧ (∀ x, x < w → l.count x = 1) := by
  have h1 : l.foldl (columnTask t h) g = (List.range w).foldl (columnTask t h) g :=
    List.Perm.foldl_eq' hl (fun x _ y _ z => columnTask_comm t h z x y) g
  refine ⟨fun x x' hne => columnTask_getD_ne t h g x x' hne,
    fun x => columnTask_frame t h g x, h1, ?_, ?_⟩
  · rw [runColumnThreads_foldl, h1, List.filter_true]
  · intro x hx
    rw [hl.count_eq x]
    exact List.count_eq_one_of_mem (List.nodup_range w) (List.mem_range.2 hx)

theorem column_tasks_order_independent_witness :
    [1, 0].foldl (columnTask .invert 2)
        [[⟨0, 0, 0⟩, ⟨10, 20, 30⟩], [⟨255, 255, 255⟩, ⟨200, 100, 50⟩]]
      = runColumnThreads (fun _ => true) .invert 2 2
        [[⟨0, 0, 0⟩, ⟨10, 20, 30⟩], [⟨255, 255, 255⟩, ⟨200, 100, 50⟩]] :=
  (column_tasks_order_independent .invert 2 2 _ [1, 0] (by decide)).2.2.2.1

/-- C21. Behaviour on an unrecognised offset: whenever the file header that `main`
read has an `image_offset` that is none of 26, 54, 122 and 138, the header stage
reads no information header (the stream is where the file header read left it),
the width, the height and the bit count stay 0, and nothing has been written to
the four outputs; `readImageData` then returns the grid without columns and
leaves the stream where it is; and `main` returns with its four outputs empty. -/
theorem unrecognised_offset_behaviour (u : Indeterminate) (data : List Nat)
    (h26 : (readBitmapFileHeader u.theBitmapFileHeader (some ⟨data, 0⟩)).1.image_offset ≠ 26)
    (h54 : (readBitmapFileHeader u.theBitmapFileHeader (some ⟨data, 0⟩)).1.image_offset ≠ 54)
    (h122 : (readBitmapFileHeader u.theBitmapFileHeader (some ⟨data, 0⟩)).1.image_offset ≠ 122)
    (h138 : (readBitmapFileHeader u.theBitmapFileHeader (some ⟨data, 0⟩)).1.image_offset ≠ 138) :
    (mainHeaders u data).theFile
        = (readBitmapFileHeader u.theBitmapFileHeader (some ⟨data, 0⟩)).2
      ∧ (mainHeaders u data).theImageWidth = 0
      ∧ (mainHeaders u data).theImageHeight = 0
      ∧ (mainHeaders u data).theImageBitCount = 0
      ∧ (mainHeaders u data).theInvertedFile = some []
      ∧ (mainHeaders u data).theRedGrayscaleFile = some []
      ∧ (mainHeaders u data).theGreenGrayscaleFile = some []
      ∧ (mainHeaders u data).theBlueGrayscaleFile = some []
      ∧ (∀ f : FILE, readImageData 0 0 0 u.theImageData f = ([], f))
      ∧ main u data = some ⟨[], [], [], []⟩ := by
  have hs := mainHeaders_unrecognised u data h26 h54 h122 h138
  refine ⟨?_, ?_, ?_, ?_, ?_, ?_, ?_, ?_, fun f => readImageData_zero 0 _ f, ?_⟩
  · rw [hs]
  · rw [hs]
  · rw [hs]
  · rw [hs]
  · rw [hs]
  · rw [hs]
  · rw [hs]
  · rw [hs]
  · have hm : main u data = mainImages u (mainHeaders u data) := rfl
    rw [hm, hs, readBitmapFileHeader_some]
    exact mainImages_zero u _ _ _ _ _ _

theorem unrecognised_offset_behaviour_witness :
    (mainHeaders Indeterminate.zero bmpOffset999).theFile = some ⟨bmpOffset999, 14⟩
      ∧ main Indeterminate.zero bmpOffset999 = some ⟨[], [], [], []⟩ :=
  ⟨(unrecognised_offset_behaviour Indeterminate.zero bmpOffset999 (by decide) (by decide)
      (by decide) (by decide)).1.trans (by decide),
    (unrecognised_offset_behaviour Indeterminate.zero bmpOffset999 (by decide) (by decide)
      (by decide) (by decide)).2.2.2.2.2.2.2.2.2⟩

/-- C22, counterexample. On a grid of 32754 columns of one pixel `(1, 2, 3)`, with
the thread of column 32753 not created, `grayscaleImageRed` returns with the pixel
`(32753, 0)` still `(1, 2, 3)`, whose blue and green values differ; and
`grayscaleImageBlue` with every thread created, applied to that result, changes that
pixel to `(1, 1, 1)`. -/
theorem grayscale_not_gray_counterexample :
    Image.hasDims (List.replicate 32754 [⟨1, 2, 3⟩]) 32754 1
      ∧ (grayscaleImageRed (fun x => decide (x < 32753)) 32754 1
          (List.replicate 32754 [⟨1, 2, 3⟩])).cell 32753 0 = ⟨1, 2, 3⟩
      ∧ ((grayscaleImageRed (fun x => decide (x < 32753)) 32754 1
          (List.replicate 32754 [⟨1, 2, 3⟩])).cell 32753 0).blue
        ≠ ((grayscaleImageRed (fun x => decide (x < 32753)) 32754 1
          (List.replicate 32754 [⟨1, 2, 3⟩])).cell 32753 0).green
      ∧ (grayscaleImageBlue (fun _ => true) 32754 1
          (grayscaleImageRed (fun x => decide (x < 32753)) 32754 1
            (List.replicate 32754 [⟨1, 2, 3⟩]))).cell 32753 0 = ⟨1, 1, 1⟩
      ∧ grayscaleImageBlue (fun _ => true) 32754 1
          (grayscaleImageRed (fun x => decide (x < 32753)) 32754 1
            (List.replicate 32754 [⟨1, 2, 3⟩]))
        ≠ grayscaleImageRed (fun x => decide (x < 32753)) 32754 1
            (List.replicate 32754 [⟨1, 2, 3⟩]) := by
  have hd : Image.hasDims (List.replicate 32754 [⟨1, 2, 3⟩]) 32754 1 := by
    refine ⟨List.length_replicate _ _, ?_⟩
    intro col hc
    rw [List.eq_of_mem_replicate hc]
    rfl
  have h0 : Image.cell (List.replicate 32754 [⟨1, 2, 3⟩]) 32753 0 = ⟨1, 2, 3⟩ := by
    simp only [Image.cell, List.getD_eq_getElem?_getD, List.getElem?_replicate]
    rfl
  have h1 : (grayscaleImageRed (fun x => decide (x < 32753)) 32754 1
      (List.replicate 32754 [⟨1, 2, 3⟩])).cell 32753 0 = ⟨1, 2, 3⟩ := by
    unfold grayscaleImageRed
    rw [cell_runColumnThreads _ _ 32754 1 _ hd 32753 0 (by decide) (by decide), h0,
      if_neg (by decide)]
  have h2 : (grayscaleImageBlue (fun _ => true) 32754 1
      (grayscaleImageRed (fun x => decide (x < 32753)) 32754 1
        (List.replicate 32754 [⟨1, 2, 3⟩]))).cell 32753 0 = ⟨1, 1, 1⟩ := by
    have hd1 : (grayscaleImageRed (fun x => decide (x < 32753)) 32754 1
        (List.replicate 32754 [⟨1, 2, 3⟩])).hasDims 32754 1 :=
      hasDims_runColumnThreads _ _ _ _ _ hd
    unfold grayscaleImageBlue
    rw [cell_runColumnThreads _ _ 32754 1 _ hd1 32753 0 (by decide) (by decide), if_pos rfl, h1]
    rfl
  refine ⟨hd, h1, ?_, h2, ?_⟩
  · rw [h1]
    decide
  · intro e
    rw [e, h1] at h2
    exact absurd h2 (by decide)

/-- C22, amended. Grayscale results are gray and absorbing where the threads are
created: on a grid of `w` columns of `h` pixels, for every two of the three
grayscale transforms `X` and `Y`, after the transform `Y` every pixel of a column
whose thread was created has blue = green = red, and the transform `X` leaves such
a pixel as it is; the transform `X` leaves the whole result as it is when it creates
no thread for a column that `Y` left out; and each of the four transforms returns a
grid of `w` columns of `h` pixels, whichever threads are created. -/
theorem grayscale_gray_and_absorbing (cX cY : Nat → Bool) (w h : Nat) (g : Image)
    (hd : g.hasDims w h) (tX tY : IMAGE_PROCESSING_TYPE) (hX : tX ≠ .invert)
    (hY : tY ≠ .invert) :
    (∀ x y, x < w → y < h → cY x = true →
        ((applyTransform cY tY w h g).cell x y).blue
            = ((applyTransform cY tY w h g).cell x y).green
          ∧ ((applyTransform cY tY w h g).cell x y).green
              = ((applyTransform cY tY w h g).cell x y).red
          ∧ (applyTransform cX tX w h (applyTransform cY tY w h g)).cell x y
              = (applyTransform cY tY w h g).cell x y)
      ∧ ((∀ x, x < w → cX x = true → cY x = true) →
          applyTransform cX tX w h (applyTransform cY tY w h g) = applyTransform cY tY w h g)
      ∧ (invertImage cX w h g).hasDims w h
      ∧ (grayscaleImageRed cX w h g).hasDims w h
      ∧ (grayscaleImageGreen cX w h g).hasDims w h
      ∧ (grayscaleImageBlue cX w h g).hasDims w h := by
  have h1 := hasDims_runColumnThreads cY tY w h g hd
  refine ⟨?_, ?_, hasDims_runColumnThreads _ _ w h g hd, hasDims_runColumnThreads _ _ w h g hd,
    hasDims_runColumnThreads _ _ w h g hd, hasDims_runColumnThreads _ _ w h g hd⟩
  · intro x y hx hy hc
    rw [applyTransform_eq, applyTransform_eq,
      cell_runColumnThreads cX _ w h _ h1 x y hx hy,
      cell_runColumnThreads cY _ w h g hd x y hx hy, if_pos hc]
    refine ⟨(processPixel_gray tY hY _).1, (processPixel_gray tY hY _).2, ?_⟩
    by_cases h2 : cX x = true
    · rw [if_pos h2]
      exact processPixel_absorbing tX tY hX hY _
    · rw [if_neg h2]
  · intro hc
    rw [applyTransform_eq, applyTransform_eq]
    exact runColumnThreads_absorbing cX cY tX tY hX hY w h g hd hc

theorem grayscale_gray_and_absorbing_witness :
    grayscaleImageBlue (fun x => decide (x < 1)) 2 2
        (grayscaleImageGreen (fun _ => true) 2 2
          [[⟨0, 0, 0⟩, ⟨10, 20, 30⟩], [⟨255, 255, 255⟩, ⟨200, 100, 50⟩]])
      = grayscaleImageGreen (fun _ => true) 2 2
        [[⟨0, 0, 0⟩, ⟨10, 20, 30⟩], [⟨255, 255, 255⟩, ⟨200, 100, 50⟩]] :=
  (grayscale_gray_and_absorbing (fun x => decide (x < 1)) (fun _ => true) 2 2
    [[⟨0, 0, 0⟩, ⟨10, 20, 30⟩], [⟨255, 255, 255⟩, ⟨200, 100, 50⟩]]
    (by decide) .grayscaleBlue .grayscaleGreen (by decide) (by decide)).2.1 (fun _ _ _ => rfl)

end BmpReader
